import Mathlib

/-!
# drbdtop: the per-resource detail view (`pkg/display/fancy_detail.go`)

A shallow embedding of the detail view of drbdtop and the properties of it
that the specification states.

Conventions of the embedding

* Go maps that the code ranges over are association lists (`List (String × V)`);
  the order of the list stands for the (unspecified) iteration order of the map.
  The database buffer `db.buf`, which is only ever indexed, is a total function.
* `uint64` arithmetic is `Nat` arithmetic reduced modulo `2 ^ 64` (`u64`);
  `int` is 64 bits wide (`toInt64`).
* `float64` values that take part in the in-sync percentage are modelled exactly:
  conversion and division round to a 53 bit significand, to nearest, ties to even.
* The terminal library and the helpers of the package that live in other files
  (`colDefault`, `colGreen`, `colRed`, `convert.KiB2Human`, `dmesg`, `switchDisp`,
  `drbdtopversion`) are parameters, collected in `Env`; drawing calls are recorded
  as a list of `Effect`s.
* Colour attributes of widgets have no influence on any computation and are left out.
-/

namespace Drbdtop

/-! ## Machine arithmetic -/

/-- Reduction of a natural number to the range of `uint64`. -/
def u64 (n : Nat) : Nat := n % 2 ^ 64

/-- Reduction of an integer to the range of a 64 bit `int` (two's complement). -/
def toInt64 (x : Int) : Int := (x + 2 ^ 63) % 2 ^ 64 - 2 ^ 63

/-- The 64 bit targets of the Go compiler whose float to integer conversion
is modelled.  The language leaves the result of converting NaN, an infinity or an
out of range value to `int` to the implementation. -/
inductive Arch where
  | amd64
  | arm64
  deriving DecidableEq, Repr

/-- Result of `int(f)` for a NaN: `CVTTSD2SQ` yields the "integer indefinite"
value, `FCVTZS` yields zero. -/
def Arch.intOfNaN : Arch → Int
  | .amd64 => -(2 ^ 63)
  | .arm64 => 0

/-- Result of `int(f)` for `+Inf` or a finite value of at least `2 ^ 63`:
`CVTTSD2SQ` yields the "integer indefinite" value, `FCVTZS` saturates. -/
def Arch.intOfOverflow : Arch → Int
  | .amd64 => -(2 ^ 63)
  | .arm64 => 2 ^ 63 - 1

/-- Rounding of a quotient `q` with remainder `r` of a division by `d`
to the nearest integer, ties to even. -/
def roundEven (q r d : Nat) : Nat :=
  if d < 2 * r ∨ (2 * r = d ∧ q % 2 = 1) then q + 1 else q

/-- Number of low bits that have to be dropped from `n` so that 53 bits remain:
the least `t` with `n / 2 ^ t < 2 ^ 53` (for `n < 2 ^ (53 + fuel)`). -/
def f64Shift : Nat → Nat → Nat
  | 0, _ => 0
  | fuel + 1, n => if n < 2 ^ 53 then 0 else f64Shift fuel (n / 2) + 1

/-- The value of `float64(n)` for a `uint64` value `n`: `n` rounded to a 53 bit
significand.  The result is again an integer. -/
def float64OfUint (n : Nat) : Nat :=
  let t := f64Shift 256 n
  roundEven (n / 2 ^ t) (n % 2 ^ t) (2 ^ t) * 2 ^ t

/-- The `float64` quotient `a / b` of two integer valued floats `a ≤ 2 ^ 64` and
`0 < b ≤ 2 ^ 64`, multiplied by `2 ^ 128` (which makes it a natural number):
the exact quotient rounded to a 53 bit significand. -/
def float64DivScaled (a b : Nat) : Nat :=
  let p := a * 2 ^ 128
  let t := f64Shift 256 (p / b)
  roundEven (p / (b * 2 ^ t)) (p % (b * 2 ^ t)) (b * 2 ^ t) * 2 ^ t

/-- The Go expression `int(float64(a) / float64(b))` for `uint64` values `a`, `b`.
A zero divisor gives NaN (`0 / 0`) or `+Inf`; the division itself never faults. -/
def intOfFloatDiv (arch : Arch) (a b : Nat) : Int :=
  let x := float64OfUint a
  let y := float64OfUint b
  if y = 0 then
    if x = 0 then arch.intOfNaN else arch.intOfOverflow
  else
    let q : Nat := float64DivScaled x y / 2 ^ 128
    if q < 2 ^ 63 then (q : Int) else arch.intOfOverflow

/-! ## Data model (packages `resource` and `update`, as far as the view reads them) -/

/-- A counter with its rate: `Total` and `PerSecond`. -/
structure Rate (F : Type) where
  Total : Nat
  PerSecond : F

/-- A running statistic: `Current`, `Avg`, `Min`, `Max`. -/
structure MinMaxAvgCurrent (F : Type) where
  Current : Nat
  Avg : F
  Min : Nat
  Max : Nat

/-- The resource record `r.Res`. -/
structure Resource where
  Name : String
  Role : String
  Suspended : String
  Unconfigured : Bool

/-- A local volume. -/
structure DevVolume (F : Type) where
  Minor : String
  DiskState : String
  DiskHint : String
  Size : Nat
  Blocked : String
  ActivityLogSuspended : String
  ReadKiB : Rate F
  WrittenKiB : Rate F

/-- The local device `r.Device`. -/
structure Device (F : Type) where
  Volumes : List (String × DevVolume F)

/-- A connection to a peer. -/
structure Connection where
  ConnectionName : String
  Role : String
  ConnectionStatus : String
  ConnectionHint : String
  Congested : String

/-- A volume as a peer reports it. -/
structure PeerDevVol (F : Type) where
  ResyncSuspended : String
  ReplicationStatus : String
  ReplicationHint : String
  DiskState : String
  DiskHint : String
  SentKiB : Rate F
  ReceivedKiB : Rate F
  OutOfSyncKiB : MinMaxAvgCurrent F
  PendingWrites : MinMaxAvgCurrent F
  UnackedWrites : MinMaxAvgCurrent F

/-- The peer device of one connection. -/
structure PeerDevice (F : Type) where
  Volumes : List (String × PeerDevVol F)

/-- The snapshot of one resource, `update.ByRes`. -/
structure ByRes (F : Type) where
  Res : Resource
  Danger : Int
  Device : Device F
  Connections : List (String × Connection)
  PeerDevices : List (String × PeerDevice F)

/-- The resource database `db`: the ordered resource names and the buffer. -/
structure DB (F : Type) where
  keys : List String
  buf : String → ByRes F

/-! ## Widgets and the view -/

/-- A text paragraph of the terminal library. -/
structure Par where
  Text : String
  Height : Int
  Border : Bool
  deriving DecidableEq, Repr

/-- A gauge of the terminal library. -/
structure Gauge where
  Percent : Int
  Height : Int
  BorderLabel : String
  deriving DecidableEq, Repr

/-- The widgets of one volume in the in-sync view. -/
structure uiGauge where
  p : Par
  g : Gauge
  deriving DecidableEq, Repr

/-- A widget placed in a grid column. -/
inductive Widget where
  | par (p : Par)
  | gauge (g : Gauge)
  deriving DecidableEq, Repr

/-- A grid: rows of columns, each column with its span. -/
abbrev Grid := List (List (Nat × Widget))

/-- What a call does to the outside world. -/
inductive Effect where
  | switchDisp (grid : Grid)
  | Render (ws : List Widget)
  | stderr (line : String)
  deriving DecidableEq, Repr

/-- How a call can abort. -/
inductive Fault where
  | nilDeref
  | panicWindow
  deriving DecidableEq, Repr

/-- The display mode, an `int` in the source. -/
abbrev win := Int

/-- Mode of the in-sync gauges. -/
def insync : win := 0

/-- Mode of the status text. -/
def status : win := 1

/-- Mode of the detailed status text. -/
def detailedstatus : win := 2

/-- Mode of the log tail. -/
def dmesgw : win := 3

/-- The state of the detail view. -/
structure detailView where
  grid : Option Grid
  header : Par
  footer : Par
  oldselres : String
  selres : String
  volGauges : List (String × uiGauge)
  status : Par
  window : win
  scratch : String
  buf : String
  deriving DecidableEq, Repr

/-- What the view uses and this file does not define.  `nilFault` tells whether
reading a field through the entry of a key that a `Volumes` map does not hold is a
nil dereference (maps of pointers) or yields the zero value (maps of values);
`ofUint`, `fdiv`, `fmul` and `fmt1` are the `float64` conversion, division,
multiplication and the `%.1f` formatting used in the status text. -/
structure Env (F : Type) where
  arch : Arch
  nilFault : Bool
  colDefault : String → Bool → String
  colGreen : String → Bool → String
  colRed : String → Bool → String
  KiB2Human : F → String
  ofUint : Nat → F
  fdiv : F → F → F
  fmul : F → F → F
  fmt1 : F → String
  drbdtopversion : String
  dmesg : String → Except String (List String)
  TermHeight : Int

/-- The text of the fixed sentence for an unconfigured resource. -/
def txtUnconfigured : String :=
  "This resource is Unconfigured, no further information available."

/-- The view that `NewDetailView` creates. -/
def NewDetailView : detailView where
  grid := none
  header := { Text := "", Height := 1, Border := false }
  footer := { Text := "q: back | s: status | d: detailed status | m: dmesg | i: inSync",
              Height := 1, Border := false }
  oldselres := ""
  selres := ""
  volGauges := []
  status := { Text := "", Height := 3, Border := true }
  window := status
  scratch := ""
  buf := ""

/-! ## The status text -/

variable {F : Type}

/-- Lexicographic comparison `a ≤ b` of two character sequences. -/
def leChars : List Char → List Char → Bool
  | [], _ => true
  | _ :: _, [] => false
  | a :: as, b :: bs =>
    if a.toNat < b.toNat then true
    else if b.toNat < a.toNat then false
    else leChars as bs

/-- The order of `sort.Strings`: lexicographic comparison of two strings. -/
def strLe (a b : String) : Prop := leChars a.data b.data = true

instance (a b : String) : Decidable (strLe a b) := by
  unfold strLe; infer_instance

/-- The test `strings.HasPrefix(s, pre)`. -/
def startsWith (s pre : String) : Bool := pre.data.isPrefixOf s.data

/-- The keys of a map in the order `sort.Strings` gives them. -/
def sortedKeys {V : Type} (m : List (String × V)) : List String :=
  (m.map Prod.fst).insertionSort strLe

/-- First line of the status text: `printRes`. -/
def printRes (env : Env F) (r : ByRes F) (d : detailView) : detailView :=
  let d := { d with scratch := d.scratch ++ (env.colDefault "Resource" true ++ ": " ++ r.Res.Name ++
    ": (Overall danger score: " ++ toString r.Danger ++ ") ") }
  let d := if r.Res.Suspended ≠ "no" then { d with scratch := d.scratch ++ "(Suspended)" } else d
  { d with scratch := d.scratch ++ "\n" }

/-- Colouring of a disk state: green exactly for `UpToDate`. -/
def colState (env : Env F) (good s : String) : String :=
  if s = good then env.colGreen s false else env.colRed s true

/-- The text `printLocalDisk` emits for the volume `k` with entry `v`.  The
lookups `d.Volumes[k]` of the source find `v`, because `k` is a key of the map. -/
def localVolumeText (env : Env F) (window : win) (k : String) (v : DevVolume F) : String :=
  "  volume " ++ k ++ " (/dev/drbd" ++ v.Minor ++ "):" ++
  " " ++ colState env "UpToDate" v.DiskState ++
  "(" ++ v.DiskHint ++ ")" ++
  (if window = detailedstatus then
    (if v.Blocked ≠ "no" then " Blocked: " ++ v.Blocked ++ " " else "") ++
    (if v.ActivityLogSuspended ≠ "no" then " Activity Log Suspended: " ++ v.Blocked ++ " " else "") ++
    "\n" ++
    "    size: " ++ env.KiB2Human (env.ofUint v.Size) ++
    " total-read:" ++ env.KiB2Human (env.ofUint v.ReadKiB.Total) ++
    " read/Sec:" ++ env.KiB2Human v.ReadKiB.PerSecond ++
    " total-written:" ++ env.KiB2Human (env.ofUint v.WrittenKiB.Total) ++
    " written/Sec:" ++ env.KiB2Human v.WrittenKiB.PerSecond ++ " "
   else "") ++
  "\n"

/-- Appends the text of the volumes named by `keys`, in that order. -/
def printLocalVolumes (env : Env F) (vols : List (String × DevVolume F)) :
    List String → detailView → detailView
  | [], d => d
  | k :: ks, d =>
    match vols.lookup k with
    | some v => printLocalVolumes env vols ks
        { d with scratch := d.scratch ++ localVolumeText env d.window k v }
    | none => printLocalVolumes env vols ks d

/-- The block of the local disk: `printLocalDisk`. -/
def printLocalDisk (env : Env F) (r : ByRes F) (dv : detailView) : detailView :=
  let dv := { dv with scratch := dv.scratch ++
    (" " ++ env.colDefault "Local Disc" true ++ "(" ++ r.Res.Role ++ "):\n") }
  printLocalVolumes env r.Device.Volumes (sortedKeys r.Device.Volumes) dv

/-- The header line of a connection: `printConn`. -/
def printConn (env : Env F) (c : Connection) (d : detailView) : detailView :=
  { d with scratch := d.scratch ++
      (env.colDefault (" Connection to " ++ c.ConnectionName) true ++
       "(" ++ c.Role ++ "):" ++
       " " ++ colState env "Connected" c.ConnectionStatus ++
       "(" ++ c.ConnectionHint ++ ")" ++
       (if c.Congested ≠ "no" then " Congested " else "") ++
       "\n") }

/-- The four figures of a running statistic, each printed with `%.1f`. -/
def statsText (env : Env F) (s : MinMaxAvgCurrent F) : String :=
  "current:" ++ env.fmt1 (env.ofUint s.Current) ++ " average:" ++ env.fmt1 s.Avg ++
  " min:" ++ env.fmt1 (env.ofUint s.Min) ++ " max:" ++ env.fmt1 (env.ofUint s.Max) ++ "\n"

/-- The text `printPeerDev` emits for the peer volume `k` with entry `v`.  The size
of the local volume `k` is read only when the replication status starts with `Sync`;
its entry may be missing from the local device. -/
def peerVolumeText (env : Env F) (r : ByRes F) (window : win) (k : String) (v : PeerDevVol F) :
    Except Fault String := do
  let s := "  volume " ++ k ++ ": " ++
    (if v.ResyncSuspended ≠ "no" then " ResyncSuspended:" ++ v.ResyncSuspended ++ " " else "") ++
    "\n" ++
    (if v.ReplicationStatus ≠ "Established" then
      "   Replication:" ++ v.ReplicationStatus ++ "(" ++ v.ReplicationHint ++ ")" else "")
  let rem ←
    if startsWith v.ReplicationStatus "Sync" then
      match r.Device.Volumes.lookup k with
      | some lv => pure (" " ++ env.fmt1 (env.fmul
          (env.fdiv (env.ofUint v.OutOfSyncKiB.Current) (env.ofUint lv.Size)) (env.ofUint 100)) ++
          "% remaining")
      | none =>
        if env.nilFault then throw Fault.nilDeref
        else pure (" " ++ env.fmt1 (env.fmul
          (env.fdiv (env.ofUint v.OutOfSyncKiB.Current) (env.ofUint 0)) (env.ofUint 100)) ++
          "% remaining")
    else pure ""
  let s := s ++ rem ++
    "   " ++ colState env "UpToDate" v.DiskState ++
    "(" ++ v.DiskHint ++ ")" ++
    "\n"
  let det :=
    if window = detailedstatus then
      "   Sent: total:" ++ env.KiB2Human (env.ofUint v.SentKiB.Total) ++
        " Per/Sec:" ++ env.KiB2Human v.SentKiB.PerSecond ++ "\n" ++
      "   Received: total:" ++ env.KiB2Human (env.ofUint v.ReceivedKiB.Total) ++
        " Per/Sec:" ++ env.KiB2Human v.ReceivedKiB.PerSecond ++ "\n" ++
      "   OutOfSync: current:" ++ env.KiB2Human (env.ofUint v.OutOfSyncKiB.Current) ++
        " average:" ++ env.KiB2Human v.OutOfSyncKiB.Avg ++
        " min:" ++ env.KiB2Human (env.ofUint v.OutOfSyncKiB.Min) ++
        " max:" ++ env.KiB2Human (env.ofUint v.OutOfSyncKiB.Max) ++ "\n" ++
      "   PendingWrites: " ++ statsText env v.PendingWrites ++
      "   UnackedWrites: " ++ statsText env v.UnackedWrites ++
      "\n"
    else ""
  pure (s ++ det)

/-- Appends the text of the peer volumes named by `keys`, in that order. -/
def printPeerVolumes (env : Env F) (r : ByRes F) (vols : List (String × PeerDevVol F)) :
    List String → detailView → Except Fault detailView
  | [], d => pure d
  | k :: ks, d =>
    match vols.lookup k with
    | some v => do
      let t ← peerVolumeText env r d.window k v
      printPeerVolumes env r vols ks { d with scratch := d.scratch ++ t }
    | none => printPeerVolumes env r vols ks d

/-- The block of the volumes of the peer `conn`: `printPeerDev`. -/
def printPeerDev (env : Env F) (r : ByRes F) (conn : String) (dv : detailView) :
    Except Fault detailView :=
  match r.PeerDevices.lookup conn with
  | some pd => printPeerVolumes env r pd.Volumes (sortedKeys pd.Volumes) dv
  | none => if env.nilFault then throw Fault.nilDeref else pure dv

/-- Commits the prepared text if it differs from the committed one:
`UpdateStatusFromScratch`. -/
def UpdateStatusFromScratch (d : detailView) : detailView :=
  if d.scratch ≠ d.buf then
    { d with buf := d.scratch, status := { d.status with Text := d.scratch } }
  else d

/-- The loop of `printByRes` over the sorted connection names. -/
def printConns (env : Env F) (r : ByRes F) : List String → detailView → Except Fault detailView
  | [], d => pure d
  | conn :: cs, d =>
    match r.Connections.lookup conn with
    | some c => do
      let d := printConn env c d
      let d ← if (r.PeerDevices.lookup conn).isSome then printPeerDev env r conn d else pure d
      printConns env r cs { d with scratch := d.scratch ++ "\n" }
    | none => printConns env r cs d

/-- The status text of a snapshot: `printByRes`. -/
def printByRes (env : Env F) (r : ByRes F) (d : detailView) : Except Fault detailView := do
  let d := { d with scratch := "" }
  let d := printRes env r d
  if r.Res.Unconfigured then
    let d := { d with scratch := d.scratch ++ ("\n" ++ txtUnconfigured ++ "\n") }
    pure (UpdateStatusFromScratch d)
  else
    let d := printLocalDisk env r d
    let d := { d with scratch := d.scratch ++ "\n" }
    let d ← printConns env r (sortedKeys r.Connections) d
    pure (UpdateStatusFromScratch d)

/-- The log tail: `UpdateDmesg`. -/
def UpdateDmesg (env : Env F) (d : detailView) : detailView :=
  let d := { d with scratch :=
    (env.colDefault "Dmesg output for resource" true ++ " " ++ env.colDefault d.selres true ++ ":\n") }
  match env.dmesg d.selres with
  | .error err => { d with status := { d.status with Text := err } }
  | .ok lines =>
    let space : Int := d.status.Height - 2
    let start : Int := if space < (lines.length : Int) then (lines.length : Int) - space else 0
    let d := (lines.drop start.toNat).foldl
      (fun (d : detailView) line => { d with scratch := d.scratch ++ (line ++ "\n") }) d
    let d := UpdateStatusFromScratch d
    { d with oldselres := d.selres }

/-- The loop of `UpdateStatus` over the resource names of the database. -/
def statusLoop (env : Env F) (db : DB F) : List String → detailView → Except Fault detailView
  | [], d => pure d
  | rname :: rest, d =>
    if rname = d.selres then do
      let d ← printByRes env (db.buf rname) d
      statusLoop env db rest d
    else statusLoop env db rest d

/-- The status text of the selected resource: `UpdateStatus`. -/
def UpdateStatus (env : Env F) (db : DB F) (d : detailView) : Except Fault detailView := do
  let d ← statusLoop env db db.keys d
  pure { d with oldselres := d.selres }

/-! ## The in-sync gauges -/

/-- The loop over the peer devices that sums the out of sync KiB of volume `k`
and counts the peer devices. -/
def peerOos (env : Env F) (k : String) :
    List (String × PeerDevice F) → Nat × Nat → Except Fault (Nat × Nat)
  | [], acc => pure acc
  | (_, pdev) :: rest, (oos, nrPeerDevs) =>
    match pdev.Volumes.lookup k with
    | some pvol => peerOos env k rest (u64 (oos + pvol.OutOfSyncKiB.Current), u64 (nrPeerDevs + 1))
    | none =>
      if env.nilFault then throw Fault.nilDeref
      else peerOos env k rest (u64 (oos + 0), u64 (nrPeerDevs + 1))

/-- The percentage shown for `oos` KiB out of sync on a volume of `size` KiB with
`nrPeerDevs` peer devices. -/
def inSyncPercent (arch : Arch) (oos size nrPeerDevs : Nat) : Int :=
  let oosp := intOfFloatDiv arch (u64 (oos * 100)) (u64 (size * nrPeerDevs))
  let inSyncp := toInt64 (100 - oosp)
  if inSyncp = 100 ∧ 0 < oos then 99 else inSyncp

/-- The widgets created for a volume that has none yet. -/
def newGauge (k : String) (v : DevVolume F) : uiGauge where
  p := { Text := "Vol " ++ k ++ " (/dev/drbd" ++ v.Minor ++ ")", Height := 3, Border := true }
  g := { Percent := 0, Height := 3, BorderLabel := "In Sync" }

/-- The assignment `d.volGauges[k].g.Percent = pct`. -/
def setPercent (k : String) (pct : Int) (gs : List (String × uiGauge)) : List (String × uiGauge) :=
  gs.map (fun e => if e.1 = k then (e.1, { e.2 with g := { e.2.g with Percent := pct } }) else e)

/-- The body of the loop over the local volumes, for the volume `k` with entry `v`. -/
def gaugeStep (env : Env F) (res : ByRes F) (k : String) (v : DevVolume F)
    (gs : List (String × uiGauge)) : Except Fault (List (String × uiGauge)) := do
  let gs := if (gs.lookup k).isSome then gs else (k, newGauge k v) :: gs
  let (oos, nrPeerDevs) ← peerOos env k res.PeerDevices (0, 0)
  pure (setPercent k (inSyncPercent env.arch oos v.Size nrPeerDevs) gs)

/-- The loop over the local volumes. -/
def gaugeLoop (env : Env F) (res : ByRes F) :
    List (String × DevVolume F) → List (String × uiGauge) → Except Fault (List (String × uiGauge))
  | [], gs => pure gs
  | (k, v) :: vols, gs => do
    let gs ← gaugeStep env res k v gs
    gaugeLoop env res vols gs

/-- The loop of `UpdateInSync` over the resource names of the database. -/
def inSyncLoop (env : Env F) (db : DB F) : List String → detailView → Except Fault detailView
  | [], d => pure d
  | rname :: rest, d =>
    if rname ≠ d.selres then inSyncLoop env db rest d
    else do
      let res := db.buf rname
      let d := if d.selres ≠ d.oldselres then { d with volGauges := [] } else d
      let gs ← gaugeLoop env res res.Device.Volumes d.volGauges
      inSyncLoop env db rest { d with volGauges := gs }

/-- The gauges of the selected resource: `UpdateInSync`. -/
def UpdateInSync (env : Env F) (db : DB F) (d : detailView) : Except Fault detailView := do
  let d ← inSyncLoop env db db.keys d
  pure { d with oldselres := d.selres }

/-! ## Layout and events -/

/-- Recomputes the content of the current mode: `updateContent`. -/
def updateContent (env : Env F) (db : DB F) (d : detailView) : Except Fault detailView :=
  if d.window = insync then UpdateInSync env db d
  else if d.window = status ∨ d.window = detailedstatus then UpdateStatus env db d
  else if d.window = dmesgw then pure (UpdateDmesg env d)
  else throw Fault.panicWindow

/-- The grid row of one volume in the in-sync view. -/
def gaugeRow (uig : uiGauge) : List (Nat × Widget) :=
  [(3, Widget.par uig.p), (9, Widget.gauge uig.g)]

/-- Rebuilds the layout, after recomputing the content if asked to: `updateGUI`. -/
def updateGUI (env : Env F) (db : DB F) (content : Bool) (d : detailView) :
    Except Fault (detailView × List Effect) := do
  let d := { d with header := { d.header with
    Text := env.drbdtopversion ++ " - Details for " ++ d.selres } }
  let d ← if content then updateContent env db d else pure d
  let rows : Grid := [[(12, Widget.par d.header)]]
  let (d, rows, heights) ←
    if d.window = insync then
      pure (d, rows ++ d.volGauges.map (fun e => gaugeRow e.2),
        (d.volGauges.length : Int) * 3 + d.header.Height + d.footer.Height)
    else if d.window = status ∨ d.window = detailedstatus ∨ d.window = dmesgw then
      let statusheight := env.TermHeight - d.header.Height - d.footer.Height
      let d := { d with status := { d.status with Height := statusheight } }
      pure (d, rows ++ [[(12, Widget.par d.status)]],
        d.status.Height + d.header.Height + d.footer.Height)
    else throw Fault.panicWindow
  let spacerheight := env.TermHeight - heights
  let (rows, errOut) :=
    if 0 < spacerheight then
      let s : Par := { Text := "", Height := env.TermHeight - heights, Border := false }
      (rows ++ [[(12, Widget.par s)]], [Effect.stderr (toString s.Height)])
    else (rows, [])
  let rows := rows ++ [[(12, Widget.par d.footer)]]
  pure ({ d with grid := some rows }, errOut ++ [Effect.switchDisp rows])

/-- The mode that the key `key` asks for, if any. -/
def keyWindow (key : String) (old : win) : win :=
  if key = "i" then insync
  else if key = "s" then status
  else if key = "d" then detailedstatus
  else if key = "m" then dmesgw
  else old

/-- Reaction to a key: `setWindow`.  `key` is the `KeyStr` of the event. -/
def setWindow (env : Env F) (db : DB F) (key : String) (d : detailView) :
    Except Fault (detailView × List Effect) :=
  let old := d.window
  let d := { d with window := keyWindow key d.window }
  if old ≠ d.window then updateGUI env db true { d with buf := "" }
  else pure (d, [])

/-- The drawing of the gauges named by `keys`, in that order. -/
def renderGauges (gs : List (String × uiGauge)) : List String → List Effect
  | [] => []
  | k :: ks =>
    match gs.lookup k with
    | some uig => Effect.Render [Widget.par uig.p, Widget.gauge uig.g] :: renderGauges gs ks
    | none => renderGauges gs ks

/-- The periodic refresh: `Update`. -/
def Update (env : Env F) (db : DB F) (d : detailView) :
    Except Fault (detailView × List Effect) :=
  if d.window = insync then do
    let was := d.volGauges.length
    let d ← UpdateInSync env db d
    let is := d.volGauges.length
    if was ≠ is then updateGUI env db false d
    else pure (d, renderGauges d.volGauges (sortedKeys d.volGauges))
  else if d.window = status ∨ d.window = detailedstatus then do
    let d ← UpdateStatus env db d
    pure (d, [Effect.Render [Widget.par d.status]])
  else if d.window = dmesgw then
    let d := UpdateDmesg env d
    pure (d, [Effect.Render [Widget.par d.status]])
  else throw Fault.panicWindow

/-! ## Notions of the specification -/

/-- The out of sync KiB that the peer device `pdev` reports for volume `k`
(nothing when it has no entry for `k`). -/
def peerCurrent (k : String) (pdev : PeerDevice F) : Nat :=
  match pdev.Volumes.lookup k with
  | some pvol => pvol.OutOfSyncKiB.Current
  | none => 0

/-- The sum over the peer devices of the out of sync KiB of volume `k`. -/
def oosSum (k : String) (peers : List (String × PeerDevice F)) : Nat :=
  (peers.map (fun p => peerCurrent k p.2)).sum

/-- The number of peer devices that have an entry for volume `k`: the `nPeers`
of the specification. -/
def nPeers (k : String) (peers : List (String × PeerDevice F)) : Nat :=
  (peers.filter (fun p => (p.2.Volumes.lookup k).isSome)).length

/-- The in-sync percentage as the specification computes it, with truncating
integer division: `100 - oos * 100 / (sizeKiB * nPeers)`, and 99 in place of 100
while anything is out of sync. -/
def specPercent (oos sizeKiB nPeers : Nat) : Int :=
  let inSyncPercent : Int := 100 - ((oos * 100 / (sizeKiB * nPeers) : Nat) : Int)
  if inSyncPercent = 100 ∧ 0 < oos then 99 else inSyncPercent

/-- Every peer device of `res` has an entry for the volume `k`. -/
def reportedByAll (res : ByRes F) (k : String) : Prop :=
  ∀ p ∈ res.PeerDevices, (p.2.Volumes.lookup k).isSome = true

instance (res : ByRes F) (k : String) : Decidable (reportedByAll res k) := by
  unfold reportedByAll; infer_instance

/-- No lookup of `UpdateInSync` in a peer device is a nil dereference: absent
entries read as zero, or every peer device has an entry for every local volume. -/
def peersComplete (env : Env F) (res : ByRes F) : Prop :=
  env.nilFault = true → ∀ e ∈ res.Device.Volumes, reportedByAll res e.1

instance (env : Env F) (res : ByRes F) : Decidable (peersComplete env res) := by
  unfold peersComplete; infer_instance

/-- The keys of the local volumes of `res` are pairwise different, as the keys of
a map are. -/
def volumesWf (res : ByRes F) : Prop := (res.Device.Volumes.map Prod.fst).Nodup

instance (res : ByRes F) : Decidable (volumesWf res) := by
  unfold volumesWf; infer_instance

/-- The percentage of the gauge of volume `k`, if the view has one. -/
def gaugePercent (d : detailView) (k : String) : Option Int :=
  (d.volGauges.lookup k).map (fun u => u.g.Percent)

/-! ## The status text as a function of the snapshot -/

/-- The resource header line: name, danger score and suspended marker. -/
def headerLine (env : Env F) (res : Resource) (danger : Int) : String :=
  env.colDefault "Resource" true ++ ": " ++ res.Name ++
    ": (Overall danger score: " ++ toString danger ++ ") " ++
  ((if res.Suspended ≠ "no" then "(Suspended)" else "") ++ "\n")

/-- The text of the local volumes named by `keys`, in that order. -/
def localVolumesText (env : Env F) (vols : List (String × DevVolume F)) (window : win) :
    List String → String
  | [] => ""
  | k :: ks =>
    (match vols.lookup k with
     | some v => localVolumeText env window k v
     | none => "") ++ localVolumesText env vols window ks

/-- The text of the block of the local disk. -/
def localDiskText (env : Env F) (r : ByRes F) (window : win) : String :=
  " " ++ env.colDefault "Local Disc" true ++ "(" ++ r.Res.Role ++ "):\n" ++
  localVolumesText env r.Device.Volumes window (sortedKeys r.Device.Volumes)

/-- The header line of a connection. -/
def connLine (env : Env F) (c : Connection) : String :=
  env.colDefault (" Connection to " ++ c.ConnectionName) true ++
  "(" ++ c.Role ++ "):" ++
  " " ++ colState env "Connected" c.ConnectionStatus ++
  "(" ++ c.ConnectionHint ++ ")" ++
  (if c.Congested ≠ "no" then " Congested " else "") ++
  "\n"

/-- The text of the peer volumes named by `keys`, in that order. -/
def peerVolumesText (env : Env F) (r : ByRes F) (vols : List (String × PeerDevVol F))
    (window : win) : List String → Except Fault String
  | [] => pure ""
  | k :: ks =>
    match vols.lookup k with
    | some v => do
      let t ← peerVolumeText env r window k v
      let rest ← peerVolumesText env r vols window ks
      pure (t ++ rest)
    | none => peerVolumesText env r vols window ks

/-- The text of the block of the volumes of the peer `conn`. -/
def peerDevText (env : Env F) (r : ByRes F) (conn : String) (window : win) :
    Except Fault String :=
  match r.PeerDevices.lookup conn with
  | some pd => peerVolumesText env r pd.Volumes window (sortedKeys pd.Volumes)
  | none => if env.nilFault then throw Fault.nilDeref else pure ""

/-- The text of the connections named by `conns`, in that order. -/
def connsText (env : Env F) (r : ByRes F) (window : win) : List String → Except Fault String
  | [] => pure ""
  | conn :: cs =>
    match r.Connections.lookup conn with
    | some c => do
      let pd ← if (r.PeerDevices.lookup conn).isSome then peerDevText env r conn window
               else pure ""
      let rest ← connsText env r window cs
      pure (connLine env c ++ pd ++ "\n" ++ rest)
    | none => connsText env r window cs

/-- The status text of the snapshot `r` in the mode `window`. -/
def statusText (env : Env F) (r : ByRes F) (window : win) : Except Fault String :=
  if r.Res.Unconfigured then
    pure (headerLine env r.Res r.Danger ++ "\n" ++ txtUnconfigured ++ "\n")
  else do
    let cs ← connsText env r window (sortedKeys r.Connections)
    pure (headerLine env r.Res r.Danger ++ localDiskText env r window ++ "\n" ++ cs)

/-- The view after the text `t` has been prepared and committed. -/
def commitText (d : detailView) (t : String) : detailView :=
  UpdateStatusFromScratch { d with scratch := t }

/-- The gauge entry that `UpdateInSync` builds for the local volume `e` of `res` when
the view has none for it: fresh widgets with the computed percentage. -/
def rebuiltGauge (env : Env F) (res : ByRes F) (e : String × DevVolume F) : String × uiGauge :=
  (e.1, { p := (newGauge e.1 e.2).p,
          g := { (newGauge e.1 e.2).g with
            Percent := inSyncPercent env.arch (u64 (oosSum e.1 res.PeerDevices)) e.2.Size
              (u64 res.PeerDevices.length) } })

/-- No lookup of `printByRes` in the local device is a nil dereference: absent
entries read as zero, or every peer volume whose replication status starts with
`Sync` has a local volume of the same id. -/
def syncVolumesLocal (env : Env F) (r : ByRes F) : Prop :=
  env.nilFault = true → ∀ p ∈ r.PeerDevices, ∀ e ∈ p.2.Volumes,
    startsWith e.2.ReplicationStatus "Sync" = true → (r.Device.Volumes.lookup e.1).isSome = true

instance (env : Env F) (r : ByRes F) : Decidable (syncVolumesLocal env r) := by
  unfold syncVolumesLocal; infer_instance

/-! ## The log tail as a function of the log lines -/

/-- The header line of the log tail, naming the selected resource. -/
def dmesgHeader (env : Env F) (selres : String) : String :=
  env.colDefault "Dmesg output for resource" true ++ " " ++ env.colDefault selres true ++ ":\n"

/-- The given lines, each terminated by a newline, in their order. -/
def linesText : List String → String
  | [] => ""
  | line :: rest => line ++ "\n" ++ linesText rest

/-- The last `n` elements of a list (all of them when it has fewer). -/
def lastLines (n : Nat) (lines : List String) : List String :=
  lines.drop (lines.length - n)

/-! ## Heights of a layout -/

/-- The height of a widget. -/
def widgetHeight : Widget → Int
  | .par p => p.Height
  | .gauge g => g.Height

/-- The height of a grid row: the largest height of its columns. -/
def rowHeight (row : List (Nat × Widget)) : Int :=
  (row.map (fun c => widgetHeight c.2)).foldl max 0

/-- The height of a grid: the sum of the heights of its rows. -/
def gridHeight (g : Grid) : Int := (g.map rowHeight).sum

/-- The spacer rows of a layout whose other rows take `heights` lines: one borderless
empty paragraph of the missing height when lines are missing, none otherwise. -/
def spacerRows (env : Env F) (heights : Int) : Grid :=
  if 0 < env.TermHeight - heights then
    [[(12, Widget.par { Text := "", Height := env.TermHeight - heights, Border := false })]]
  else []

/-! ## Snapshots as mappings -/

/-- The keys of a map are pairwise different. -/
def keysNodup {V : Type} (m : List (String × V)) : Prop := (m.map Prod.fst).Nodup

instance {V : Type} (m : List (String × V)) : Decidable (keysNodup m) := by
  unfold keysNodup; infer_instance

/-- All mappings of the snapshot `r` have pairwise different keys. -/
def snapshotWf (r : ByRes F) : Prop :=
  keysNodup r.Device.Volumes ∧ keysNodup r.Connections ∧ keysNodup r.PeerDevices ∧
  ∀ p ∈ r.PeerDevices, keysNodup p.2.Volumes

instance (r : ByRes F) : Decidable (snapshotWf r) := by
  unfold snapshotWf; infer_instance

/-- The snapshot `r'` holds the mappings of `r` with their entries in another order:
the local volumes, the connections and the peer devices are permuted, and so are the
volumes of every peer device. -/
def sameSnapshot (r r' : ByRes F) : Prop :=
  r'.Res = r.Res ∧ r'.Danger = r.Danger ∧
  r.Device.Volumes.Perm r'.Device.Volumes ∧ r.Connections.Perm r'.Connections ∧
  ∃ ps, r.PeerDevices.Perm ps ∧
    List.Forall₂ (fun p q => p.1 = q.1 ∧ p.2.Volumes.Perm q.2.Volumes) ps r'.PeerDevices

/-- Strictly ascending in the order of `sort.Strings`. -/
def strLt (a b : String) : Prop := strLe a b ∧ a ≠ b

/-! ## Runs of the view -/

/-- What happens to the view: a key is pressed (`setWindow`), the timer ticks
(`Update`), or the owner of the view selects another resource. -/
inductive Event where
  | key (k : String)
  | tick
  | select (name : String)

/-- One event, in the environment and with the database of that moment. -/
def step (env : Env F) (db : DB F) : Event → detailView → Except Fault detailView
  | .key k, d => (setWindow env db k d).map Prod.fst
  | .tick, d => (Update env db d).map Prod.fst
  | .select name, d => pure { d with selres := name }

/-- A sequence of events, each with the environment and the database of its moment. -/
def run : List (Env F × DB F × Event) → detailView → Except Fault detailView
  | [], d => pure d
  | (env, db, e) :: rest, d => do
    let d ← step env db e d
    run rest d

/-- The mode of the view is one of the four modes. -/
def validWindow (d : detailView) : Prop :=
  d.window = insync ∨ d.window = status ∨ d.window = detailedstatus ∨ d.window = dmesgw

/-- The call returned with one of the four modes, or it aborted with a nil
dereference. -/
def validResult (x : Except Fault detailView) : Prop :=
  (∀ d, x = .ok d → validWindow d) ∧ (∀ e, x = .error e → e = Fault.nilDeref)

/-- The call returned with the mode `w`, or it aborted with a nil dereference. -/
def keepsWindow (w : win) (x : Except Fault detailView) : Prop :=
  match x with
  | .ok d => d.window = w
  | .error e => e = Fault.nilDeref

/-! ## The read lock of the database

`UpdateStatus` and `UpdateInSync` start with `db.RLock()` and `defer db.RUnlock()`; the
deferred call runs when the function returns, also when it aborts.  The functions
below are the two functions again, with the order of the lock calls, of the copy of a
snapshot out of the database (`res := db.buf[rname]`) and of the work on the copy
recorded next to the result. -/

/-- A lock call or a piece of work on the snapshot of a resource. -/
inductive LockEvent where
  | RLock
  | RUnlock
  | copy (rname : String)
  | format (rname : String)
  | compute (rname : String)
  deriving DecidableEq, Repr

/-- The loop of `UpdateStatus` with the record of its work. -/
def statusLoopT (env : Env F) (db : DB F) :
    List String → detailView → Except Fault detailView × List LockEvent
  | [], d => (pure d, [])
  | rname :: rest, d =>
    if rname = d.selres then
      match printByRes env (db.buf rname) d with
      | .ok d1 =>
        ((statusLoopT env db rest d1).1,
          [LockEvent.copy rname, LockEvent.format rname] ++ (statusLoopT env db rest d1).2)
      | .error e => (.error e, [LockEvent.copy rname, LockEvent.format rname])
    else statusLoopT env db rest d

/-- `UpdateStatus` with the record of its lock calls and its work. -/
def UpdateStatusT (env : Env F) (db : DB F) (d : detailView) :
    Except Fault detailView × List LockEvent :=
  ((statusLoopT env db db.keys d).1.map (fun d => { d with oldselres := d.selres }),
    [LockEvent.RLock] ++ (statusLoopT env db db.keys d).2 ++ [LockEvent.RUnlock])

/-- The loop of `UpdateInSync` with the record of its work. -/
def inSyncLoopT (env : Env F) (db : DB F) :
    List String → detailView → Except Fault detailView × List LockEvent
  | [], d => (pure d, [])
  | rname :: rest, d =>
    if rname ≠ d.selres then inSyncLoopT env db rest d
    else
      let res := db.buf rname
      let d := if d.selres ≠ d.oldselres then { d with volGauges := [] } else d
      match gaugeLoop env res res.Device.Volumes d.volGauges with
      | .ok gs =>
        ((inSyncLoopT env db rest { d with volGauges := gs }).1,
          [LockEvent.copy rname, LockEvent.compute rname] ++
            (inSyncLoopT env db rest { d with volGauges := gs }).2)
      | .error e => (.error e, [LockEvent.copy rname, LockEvent.compute rname])

/-- `UpdateInSync` with the record of its lock calls and its work. -/
def UpdateInSyncT (env : Env F) (db : DB F) (d : detailView) :
    Except Fault detailView × List LockEvent :=
  ((inSyncLoopT env db db.keys d).1.map (fun d => { d with oldselres := d.selres }),
    [LockEvent.RLock] ++ (inSyncLoopT env db db.keys d).2 ++ [LockEvent.RUnlock])

/-- The event is a piece of work, not a lock call. -/
def LockEvent.isWork : LockEvent → Bool
  | .RLock => false
  | .RUnlock => false
  | _ => true

/-! ## Example data: the scenarios of the specification -/

/-- An environment for the examples: no colouring, fixed figures. -/
def exEnv (nilFault : Bool) (arch : Arch) : Env Unit where
  arch := arch
  nilFault := nilFault
  colDefault := fun s _ => s
  colGreen := fun s _ => s
  colRed := fun s _ => s
  KiB2Human := fun _ => "0"
  ofUint := fun _ => ()
  fdiv := fun _ _ => ()
  fmul := fun _ _ => ()
  fmt1 := fun _ => "0.0"
  drbdtopversion := "drbdtop"
  dmesg := fun _ => Except.ok []
  TermHeight := 24

/-- A local volume `0` of the given size. -/
def exVolume (size : Nat) : DevVolume Unit where
  Minor := "0"
  DiskState := "UpToDate"
  DiskHint := ""
  Size := size
  Blocked := "no"
  ActivityLogSuspended := "no"
  ReadKiB := ⟨0, ()⟩
  WrittenKiB := ⟨0, ()⟩

/-- A peer volume with the given out of sync KiB. -/
def exPeerVolume (oos : Nat) : PeerDevVol Unit where
  ResyncSuspended := "no"
  ReplicationStatus := "Established"
  ReplicationHint := ""
  DiskState := "UpToDate"
  DiskHint := ""
  SentKiB := ⟨0, ()⟩
  ReceivedKiB := ⟨0, ()⟩
  OutOfSyncKiB := ⟨oos, (), 0, 0⟩
  PendingWrites := ⟨0, (), 0, 0⟩
  UnackedWrites := ⟨0, (), 0, 0⟩

/-- The resource `r0` with one local volume `0` of the given size and the given
peers, each with the volumes it reports and their out of sync KiB. -/
def exRes (size : Nat) (peers : List (String × List (String × Nat))) : ByRes Unit where
  Res := ⟨"r0", "Primary", "no", false⟩
  Danger := 0
  Device := ⟨[("0", exVolume size)]⟩
  Connections := peers.map (fun p => (p.1, ⟨p.1, "Secondary", "Connected", "", "no"⟩))
  PeerDevices := peers.map (fun p => (p.1, ⟨p.2.map (fun q => (q.1, exPeerVolume q.2))⟩))

/-- A database that holds the one resource `r0`. -/
def exDB (r : ByRes Unit) : DB Unit := ⟨["r0"], fun _ => r⟩

/-- The fresh view with `r0` selected. -/
def exView : detailView := { NewDetailView with selres := "r0" }

/-- Scenario: size 1,000,000 KiB, two peers with 100,000 KiB out of sync each. -/
def exResTwoPeers : ByRes Unit := exRes 1000000 [("a", [("0", 100000)]), ("b", [("0", 100000)])]

/-- A volume of `2 ^ 57` KiB with one peer that has all but one KiB out of sync. -/
def exResHuge : ByRes Unit := exRes (2 ^ 57) [("a", [("0", 2 ^ 57 - 1)])]

/-- Scenario: as `exResTwoPeers`, but only one KiB is out of sync, on one peer. -/
def exResOneKiB : ByRes Unit := exRes 1000000 [("a", [("0", 1)]), ("b", [("0", 0)])]

/-- Scenario: as `exResTwoPeers`, but nothing is out of sync. -/
def exResInSync : ByRes Unit := exRes 1000000 [("a", [("0", 0)]), ("b", [("0", 0)])]

/-- A volume of size zero with one peer on which nothing is out of sync. -/
def exResSizeZero : ByRes Unit := exRes 0 [("a", [("0", 0)])]

/-- A resource without peer devices. -/
def exResNoPeers : ByRes Unit := exRes 1000000 []

/-- Two peers, of which `b` has no entry for volume `0`. -/
def exResPartial : ByRes Unit := exRes 1000000 [("a", [("0", 100000)]), ("b", [])]

/-- The peer `a` of `exResPartial` alone. -/
def exResOnlyA : ByRes Unit := exRes 1000000 [("a", [("0", 100000)])]

/-- The resource of `exResTwoPeers`, flagged unconfigured. -/
def exResUnconfigured : ByRes Unit :=
  { exResTwoPeers with Res := ⟨"r0", "Primary", "no", true⟩ }

/-- The status text of `exResTwoPeers` in the status mode. -/
def exTextTwoPeers : String :=
  "Resource: r0: (Overall danger score: 0) \n" ++
  " Local Disc(Primary):\n" ++
  "  volume 0 (/dev/drbd0): UpToDate()\n" ++
  "\n" ++
  " Connection to a(Secondary): Connected()\n" ++
  "  volume 0: \n" ++
  "   UpToDate()\n" ++
  "\n" ++
  " Connection to b(Secondary): Connected()\n" ++
  "  volume 0: \n" ++
  "   UpToDate()\n" ++
  "\n"

/-- The view `exView` after the status text of `exResTwoPeers` has been committed. -/
def exViewTwoPeers : detailView :=
  { exView with scratch := exTextTwoPeers, buf := exTextTwoPeers,
                status := { exView.status with Text := exTextTwoPeers } }

/-- What the examples observe of the result of a key event: the mode, whether the
committed text is the prepared one and is in the panel, and the number of drawing
calls. -/
def exAfterKey (x : detailView × List Effect) : win × Bool × Nat :=
  (x.1.window, decide (x.1.buf = x.1.status.Text ∧ x.1.buf = x.1.scratch), x.2.length)

/-- A view in the gauge mode that still holds the gauge of volume `7` of a resource
`r9` selected before, while `r0` is selected now. -/
def exViewStale : detailView :=
  { exView with window := insync, oldselres := "r9",
                volGauges := [("7", newGauge "7" (exVolume 1000000))] }

/-- The gauge of volume `0` of `exResTwoPeers`. -/
def exGauge : uiGauge :=
  { p := (newGauge "0" (exVolume 1000000)).p,
    g := { (newGauge "0" (exVolume 1000000)).g with Percent := 90 } }

/-- The fresh view with `r0` selected, in the gauge mode. -/
def exViewGauges : detailView := { exView with window := insync }

/-- The view `exViewGauges` after `UpdateInSync` on `exResTwoPeers`. -/
def exViewGaugesAfter : detailView :=
  { exViewGauges with oldselres := "r0", volGauges := [("0", exGauge)] }

/-- The example environment with the given answer of the log reader. -/
def exEnvLog (answer : Except String (List String)) : Env Unit :=
  { exEnv true Arch.amd64 with dmesg := fun _ => answer }

/-- Four log lines. -/
def exLog : List String := ["one", "two", "three", "four"]

/-- The fresh view with `r0` selected, in the log tail mode, with a panel of height 4. -/
def exViewLog : detailView :=
  { exView with window := dmesgw, status := { exView.status with Height := 4 } }

/-- The text of the log tail for `exLog` in a panel of height 4: the last two lines. -/
def exLogText : String := "Dmesg output for resource r0:\nthree\nfour\n"

/-- The view `exViewGaugesAfter` with the header text that `updateGUI` sets. -/
def exViewGaugesHeader : detailView :=
  { exViewGaugesAfter with header := { exViewGaugesAfter.header with
      Text := "drbdtop - Details for r0" } }

/-- A view in the gauge mode, with `r0` selected now and before, that holds gauges for
the volumes `0` and `7`. -/
def exViewOld : detailView :=
  { exView with window := insync, oldselres := "r0",
                volGauges := [("0", exGauge), ("7", newGauge "7" (exVolume 1000000))] }

/-- The snapshot `exResTwoPeers` with its connections and peer devices listed in the
other order. -/
def exResTwoPeersSwapped : ByRes Unit :=
  exRes 1000000 [("b", [("0", 100000)]), ("a", [("0", 100000)])]

/-- A run of the view: the key `i`, a tick, an unbound key and the key `m`. -/
def exEvents : List (Env Unit × DB Unit × Event) :=
  [(exEnv true Arch.amd64, exDB exResTwoPeers, Event.key "i"),
   (exEnv true Arch.amd64, exDB exResTwoPeers, Event.tick),
   (exEnv true Arch.amd64, exDB exResTwoPeers, Event.key "q"),
   (exEnv true Arch.amd64, exDB exResTwoPeers, Event.key "m")]

/-- The view after the run `exEvents` from the fresh view with `r0` selected. -/
def exViewAfterRun : detailView :=
  match run exEvents { NewDetailView with selres := "r0" } with
  | .ok d => d
  | .error _ => NewDetailView

/-- A local volume `0` that is not blocked and whose activity log is suspended. -/
def exVolumeSuspended : DevVolume Unit :=
  { exVolume 1000000 with Blocked := "no", ActivityLogSuspended := "yes" }

/-- The resource `r0` with the local volume `exVolumeSuspended` and no peers. -/
def exResSuspended : ByRes Unit :=
  { exRes 1000000 [] with Device := ⟨[("0", exVolumeSuspended)]⟩ }

/-- A volume of 100 KiB with one peer that reports 200 KiB out of sync. -/
def exResOver : ByRes Unit := exRes 100 [("a", [("0", 200)])]

/-- A volume of `2 ^ 63 + 2 ^ 62` KiB with two peers that report `2 ^ 63` KiB out of sync
each: the sum of the two is `2 ^ 64`. -/
def exResWrap : ByRes Unit := exRes (2 ^ 63 + 2 ^ 62) [("a", [("0", 2 ^ 63)]), ("b", [("0", 2 ^ 63)])]

/-! # Theorems -/

set_option maxRecDepth 100000



/-! ## Facts about the float model -/

theorem roundEven_scale (q r d T : Nat) (hT : 0 < T) :
    roundEven q (r * T) (d * T) = roundEven q r d := by
  unfold roundEven
  have h1 : (d * T < 2 * (r * T)) ↔ d < 2 * r := by
    rw [← Nat.mul_assoc]; exact Nat.mul_lt_mul_right hT
  have h2 : (2 * (r * T) = d * T) ↔ 2 * r = d := by
    rw [← Nat.mul_assoc]; exact Nat.mul_left_inj (Nat.pos_iff_ne_zero.mp hT)
  simp only [h1, h2]

theorem le_roundEven (q r d : Nat) : q ≤ roundEven q r d := by
  unfold roundEven; split <;> omega

theorem f64Shift_small (fuel n : Nat) (h : n < 2 ^ 53) : f64Shift fuel n = 0 := by
  cases fuel with
  | zero => rfl
  | succ f => rw [f64Shift, if_pos h]

theorem f64Shift_pos (fuel n : Nat) (h : 2 ^ 53 ≤ n) : 0 < f64Shift (fuel + 1) n := by
  rw [f64Shift, if_neg (Nat.not_lt.mpr h)]; exact Nat.succ_pos _

theorem f64Shift_le (fuel n : Nat) (h : 0 < f64Shift fuel n) :
    2 ^ (52 + f64Shift fuel n) ≤ n := by
  induction fuel generalizing n with
  | zero => simp [f64Shift] at h
  | succ f ih =>
    by_cases hn : n < 2 ^ 53
    · rw [f64Shift, if_pos hn] at h; exact absurd h (Nat.lt_irrefl 0)
    · rw [f64Shift, if_neg hn]
      by_cases h0 : 0 < f64Shift f (n / 2)
      · have := ih (n / 2) h0
        have h2 : 2 ^ (52 + f64Shift f (n / 2)) * 2 ≤ n := by omega
        calc 2 ^ (52 + (f64Shift f (n / 2) + 1)) = 2 ^ (52 + f64Shift f (n / 2)) * 2 := by
              rw [← Nat.add_assoc, Nat.pow_succ]
          _ ≤ n := h2
      · have h1 : f64Shift f (n / 2) = 0 := by omega
        rw [h1]; omega

theorem float64OfUint_exact (n : Nat) (h : n < 2 ^ 53) : float64OfUint n = n := by
  simp [float64OfUint, f64Shift_small _ _ h, roundEven, Nat.mod_one]

theorem float64OfUint_pos (n : Nat) (h : 0 < n) : 0 < float64OfUint n := by
  unfold float64OfUint
  simp only []
  set t := f64Shift 256 n
  have hpow : 2 ^ t ≤ n := by
    rcases Nat.eq_zero_or_pos t with h0 | hp
    · rw [h0]; simpa using h
    · calc 2 ^ t ≤ 2 ^ (52 + t) := Nat.pow_le_pow_right (by norm_num) (by omega)
        _ ≤ n := f64Shift_le 256 n hp
  have hq : 0 < n / 2 ^ t := Nat.div_pos hpow (by positivity)
  have := le_roundEven (n / 2 ^ t) (n % 2 ^ t) (2 ^ t)
  exact Nat.mul_pos (by omega) (by positivity)

theorem float64DivScaled_zero (b : Nat) : float64DivScaled 0 b = 0 := by
  have : f64Shift 256 (0 / b) = 0 := f64Shift_small _ _ (by simp)
  simp [float64DivScaled, this, roundEven]

theorem float64Div_exact (a b : Nat) (ha : a < 2 ^ 53) (hb0 : 0 < b) (hb : b < 2 ^ 53) :
    float64DivScaled a b / 2 ^ 128 = a / b := by
  rcases Nat.eq_zero_or_pos a with rfl | ha0
  · rw [float64DivScaled_zero b]; simp
  · unfold float64DivScaled
    simp only []
    set t := f64Shift 256 (a * 2 ^ 128 / b) with ht
    have hN : 2 ^ 53 ≤ a * 2 ^ 128 / b := by
      rw [Nat.le_div_iff_mul_le hb0]
      calc 2 ^ 53 * b ≤ 2 ^ 53 * 2 ^ 53 := Nat.mul_le_mul_left _ hb.le
        _ ≤ 1 * 2 ^ 128 := by norm_num
        _ ≤ a * 2 ^ 128 := Nat.mul_le_mul_right _ ha0
    have htpos : 0 < t := f64Shift_pos 255 _ hN
    have hle : 2 ^ (52 + t) ≤ a * 2 ^ 128 / b := f64Shift_le 256 _ htpos
    have hNlt : a * 2 ^ 128 / b < 2 ^ 181 := by
      apply Nat.div_lt_of_lt_mul
      calc a * 2 ^ 128 < 2 ^ 53 * 2 ^ 128 := Nat.mul_lt_mul_of_pos_right ha (by positivity)
        _ = 1 * 2 ^ 181 := by norm_num
        _ ≤ b * 2 ^ 181 := Nat.mul_le_mul_right _ hb0
    have ht128 : t ≤ 128 := by
      have : 2 ^ (52 + t) < 2 ^ 181 := lt_of_le_of_lt hle hNlt
      have := (Nat.pow_lt_pow_iff_right (a := 2) (by norm_num)).mp this
      omega
    obtain ⟨s, hs⟩ : ∃ s, 128 = s + t := ⟨128 - t, by omega⟩
    have hpow : (2:Nat) ^ 128 = 2 ^ s * 2 ^ t := by rw [hs, Nat.pow_add]
    have hTpos : 0 < 2 ^ t := by positivity
    have hSpos : 0 < 2 ^ s := by positivity
    have e1 : a * 2 ^ 128 = (a * 2 ^ s) * 2 ^ t := by rw [hpow, Nat.mul_assoc]
    rw [e1, Nat.mul_div_mul_right _ _ hTpos, Nat.mul_mod_mul_right, roundEven_scale _ _ _ _ hTpos,
      hpow, Nat.mul_div_mul_right _ _ hTpos]
    have hle2 : 2 ^ 52 * b ≤ a * 2 ^ s := by
      have h1 := (Nat.le_div_iff_mul_le hb0).mp hle
      rw [e1, Nat.pow_add, Nat.mul_right_comm] at h1
      exact Nat.le_of_mul_le_mul_right h1 hTpos
    have hb2 : b < 2 * 2 ^ s := by
      have : a * 2 ^ s < 2 ^ 53 * 2 ^ s := Nat.mul_lt_mul_of_pos_right ha hSpos
      have h3 : 2 ^ 52 * b < 2 ^ 52 * (2 * 2 ^ s) := by
        calc 2 ^ 52 * b ≤ a * 2 ^ s := hle2
          _ < 2 ^ 53 * 2 ^ s := this
          _ = 2 ^ 52 * (2 * 2 ^ s) := by ring
      exact Nat.lt_of_mul_lt_mul_left h3
    generalize 2 ^ s = S at *
    have hq := Nat.div_add_mod a b
    have hr := Nat.mod_lt a hb0
    have hm := Nat.div_add_mod (a * S) b
    have hρ := Nat.mod_lt (a * S) hb0
    set q := a / b
    set r0 := a % b
    set m := a * S / b
    set ρ := a * S % b
    have haS : a * S = b * q * S + r0 * S := by rw [← hq]; ring
    have hr0S : r0 * S + S ≤ b * S := by
      have : (r0 + 1) * S ≤ b * S := Nat.mul_le_mul_right _ hr
      linarith
    have hbqS : b * q * S = b * (q * S) := by ring
    have hlow : q * S ≤ m := by
      have : b * (q * S) < b * (m + 1) := by
        have : b * (m + 1) = b * m + b := by ring
        omega
      exact Nat.lt_succ_iff.mp (Nat.lt_of_mul_lt_mul_left this)
    have hup : m < (q + 1) * S := by
      have : b * m < b * ((q + 1) * S) := by
        have : b * ((q + 1) * S) = b * (q * S) + b * S := by ring
        omega
      exact Nat.lt_of_mul_lt_mul_left this
    apply Nat.div_eq_of_lt_le
    · unfold roundEven; split <;> omega
    · unfold roundEven
      split
      · rename_i hc
        have h2ρ : b ≤ 2 * ρ := by omega
        by_contra hcon
        have hmeq : m + 1 = (q + 1) * S := by omega
        have : b * (m + 1) = b * ((q + 1) * S) := by rw [hmeq]
        have e2 : b * (m + 1) = b * m + b := by ring
        have e3 : b * ((q + 1) * S) = b * (q * S) + b * S := by ring
        omega
      · exact hup

/-- For operands below `2 ^ 53` the conversion of the float quotient is the
truncating integer quotient. -/
theorem intOfFloatDiv_exact (arch : Arch) (a b : Nat) (ha : a < 2 ^ 53) (hb0 : 0 < b)
    (hb : b < 2 ^ 53) : intOfFloatDiv arch a b = ((a / b : Nat) : Int) := by
  unfold intOfFloatDiv
  simp only [float64OfUint_exact a ha, float64OfUint_exact b hb, float64Div_exact a b ha hb0 hb]
  have hq : a / b < 2 ^ 63 := lt_of_le_of_lt (Nat.div_le_self a b) (lt_trans ha (by norm_num))
  rw [if_neg (by omega), if_pos hq]

theorem toInt64_of_range (x : Int) (h1 : -(2 ^ 63) ≤ x) (h2 : x < 2 ^ 63) : toInt64 x = x := by
  unfold toInt64
  rw [Int.emod_eq_of_lt (by omega) (by omega)]
  omega

/-- The code agrees with the formula of the specification when both products are
below `2 ^ 53`. -/
theorem inSyncPercent_eq_spec (arch : Arch) (oos size n : Nat) (hsize : 0 < size) (hn : 0 < n)
    (h1 : oos * 100 < 2 ^ 53) (h2 : size * n < 2 ^ 53) :
    inSyncPercent arch oos size n = specPercent oos size n := by
  unfold inSyncPercent specPercent
  have ha : u64 (oos * 100) = oos * 100 := Nat.mod_eq_of_lt (lt_trans h1 (by norm_num))
  have hb : u64 (size * n) = size * n := Nat.mod_eq_of_lt (lt_trans h2 (by norm_num))
  rw [ha, hb, intOfFloatDiv_exact arch _ _ h1 (Nat.mul_pos hsize hn) h2]
  have hq : oos * 100 / (size * n) < 2 ^ 53 :=
    lt_of_le_of_lt (Nat.div_le_self _ _) h1
  have hq2 : ((oos * 100 / (size * n) : Nat) : Int) < 2 ^ 53 := by exact_mod_cast hq
  have hq0 : (0 : Int) ≤ ((oos * 100 / (size * n) : Nat) : Int) := Int.ofNat_nonneg _
  simp only []
  rw [toInt64_of_range _ (by omega) (by omega)]

/-! ## The gauges after `UpdateInSync` -/

theorem lookup_setPercent (k k0 : String) (pct : Int) (gs : List (String × uiGauge)) :
    (setPercent k0 pct gs).lookup k =
      if k = k0 then (gs.lookup k).map (fun u => { u with g := { u.g with Percent := pct } })
      else gs.lookup k := by
  induction gs with
  | nil => simp [setPercent]
  | cons e gs ih =>
    obtain ⟨k1, u⟩ := e
    unfold setPercent at ih ⊢
    by_cases h1 : k1 = k0
    · by_cases h : k = k0
      · subst h1; subst h
        simp [List.lookup_cons]
      · subst h1
        have hk : (k == k1) = false := by simpa using h
        simp only [List.map_cons, if_true, List.lookup_cons, hk, ih, if_neg h]
    · by_cases h : k = k0
      · subst h
        have hk : (k == k1) = false := by simpa using (Ne.symm h1)
        simp only [List.map_cons, if_neg h1, List.lookup_cons, hk, ih, if_true]
      · simp only [List.map_cons, if_neg h1, List.lookup_cons, ih, if_neg h]

theorem peerOos_ok (env : Env F) (k : String) (peers : List (String × PeerDevice F))
    (h : env.nilFault = true → ∀ p ∈ peers, (p.2.Volumes.lookup k).isSome = true)
    (a n : Nat) (ha : a < 2 ^ 64) (hn : n < 2 ^ 64) :
    peerOos env k peers (a, n) = .ok (u64 (a + oosSum k peers), u64 (n + peers.length)) := by
  induction peers generalizing a n with
  | nil =>
    simp only [peerOos, oosSum, List.map_nil, List.sum_nil, List.length_nil, Nat.add_zero, u64,
      Nat.mod_eq_of_lt ha, Nat.mod_eq_of_lt hn]
    rfl
  | cons p peers ih =>
    obtain ⟨name, pdev⟩ := p
    have h' : env.nilFault = true → ∀ p ∈ peers, (p.2.Volumes.lookup k).isSome = true :=
      fun hf p hp => h hf p (List.mem_cons_of_mem _ hp)
    have hlt : ∀ x, u64 x < 2 ^ 64 := fun x => Nat.mod_lt _ (by norm_num)
    have hsum : oosSum k ((name, pdev) :: peers) = peerCurrent k pdev + oosSum k peers := by
      simp [oosSum]
    have e1 : ∀ c, u64 (u64 (a + c) + oosSum k peers) = u64 (a + (c + oosSum k peers)) := by
      intro c; unfold u64; rw [Nat.mod_add_mod, Nat.add_assoc]
    have e2 : u64 (u64 (n + 1) + peers.length) = u64 (n + (peers.length + 1)) := by
      unfold u64; rw [Nat.mod_add_mod]; congr 1; omega
    unfold peerOos
    cases hl : pdev.Volumes.lookup k with
    | some pvol =>
      simp only []
      rw [ih h' _ _ (hlt _) (hlt _), e1, e2, hsum]
      simp [peerCurrent, hl]
    | none =>
      have hnf : env.nilFault = false := by
        cases hf : env.nilFault with
        | false => rfl
        | true =>
          have := h hf (name, pdev) (List.mem_cons_self _ _)
          simp [hl] at this
      simp only [hnf]
      rw [if_neg (by simp), ih h' _ _ (hlt _) (hlt _), e1, e2, hsum]
      simp [peerCurrent, hl]

/-- The percentage that the code computes for the volume `k` with entry `v`. -/
theorem gaugeStep_ok (env : Env F) (res : ByRes F) (k : String) (v : DevVolume F)
    (gs : List (String × uiGauge))
    (h : env.nilFault = true → reportedByAll res k) :
    gaugeStep env res k v gs = .ok (setPercent k
      (inSyncPercent env.arch (u64 (oosSum k res.PeerDevices)) v.Size (u64 res.PeerDevices.length))
      (if (gs.lookup k).isSome then gs else (k, newGauge k v) :: gs)) := by
  unfold gaugeStep
  rw [peerOos_ok env k res.PeerDevices h 0 0 (by norm_num) (by norm_num)]
  simp [bind, Except.bind, pure, Except.pure]

theorem gaugeLoop_spec (env : Env F) (res : ByRes F) (vols : List (String × DevVolume F))
    (hnd : (vols.map Prod.fst).Nodup)
    (hrep : env.nilFault = true → ∀ e ∈ vols, reportedByAll res e.1)
    (gs : List (String × uiGauge)) :
    ∃ gs', gaugeLoop env res vols gs = .ok gs' ∧
      (∀ k v, (k, v) ∈ vols → (gs'.lookup k).map (fun u => u.g.Percent) =
        some (inSyncPercent env.arch (u64 (oosSum k res.PeerDevices)) v.Size
          (u64 res.PeerDevices.length))) ∧
      (∀ k, k ∉ vols.map Prod.fst → gs'.lookup k = gs.lookup k) := by
  induction vols generalizing gs with
  | nil => exact ⟨gs, rfl, by simp, by simp⟩
  | cons e vols ih =>
    obtain ⟨k0, v0⟩ := e
    have hnd' : (vols.map Prod.fst).Nodup := (List.nodup_cons.mp hnd).2
    have hk0 : k0 ∉ vols.map Prod.fst := (List.nodup_cons.mp hnd).1
    have hstep := gaugeStep_ok env res k0 v0 gs (fun hf => hrep hf (k0, v0) (List.mem_cons_self _ _))
    obtain ⟨gs', hloop, hp, hq⟩ := ih hnd' (fun hf e he => hrep hf e (List.mem_cons_of_mem _ he))
      (setPercent k0
        (inSyncPercent env.arch (u64 (oosSum k0 res.PeerDevices)) v0.Size (u64 res.PeerDevices.length))
        (if (gs.lookup k0).isSome then gs else (k0, newGauge k0 v0) :: gs))
    refine ⟨gs', ?_, ?_, ?_⟩
    · unfold gaugeLoop
      rw [hstep]
      simpa [bind, Except.bind] using hloop
    · intro k v hkv
      rcases List.mem_cons.mp hkv with heq | hmem
      · obtain ⟨rfl, rfl⟩ := Prod.mk.inj heq
        rw [hq k hk0, lookup_setPercent, if_pos rfl]
        cases hl : gs.lookup k with
        | some u => simp [hl]
        | none => simp [hl, List.lookup_cons]
      · exact hp k v hmem
    · intro k hk
      have hne : k ≠ k0 := fun h => hk (by simp [h])
      have hk' : k ∉ vols.map Prod.fst := fun h => hk (by simp only [List.map_cons, List.mem_cons]; exact Or.inr h)
      rw [hq k hk', lookup_setPercent, if_neg hne]
      cases hl : gs.lookup k0 with
      | some u => simp [hl]
      | none =>
        have : (k == k0) = false := by simpa using hne
        simp [hl, List.lookup_cons, this]

theorem inSyncLoop_spec (env : Env F) (db : DB F) (keys : List String) (d : detailView)
    (hwf : volumesWf (db.buf d.selres)) (hrep : peersComplete env (db.buf d.selres)) :
    ∃ d', inSyncLoop env db keys d = .ok d' ∧ d'.selres = d.selres ∧ d'.oldselres = d.oldselres ∧
      ((d.selres ∈ keys ∨ ∀ k v, (k, v) ∈ (db.buf d.selres).Device.Volumes →
          gaugePercent d k = some (inSyncPercent env.arch
            (u64 (oosSum k (db.buf d.selres).PeerDevices)) v.Size
            (u64 (db.buf d.selres).PeerDevices.length))) →
        ∀ k v, (k, v) ∈ (db.buf d.selres).Device.Volumes →
          gaugePercent d' k = some (inSyncPercent env.arch
            (u64 (oosSum k (db.buf d.selres).PeerDevices)) v.Size
            (u64 (db.buf d.selres).PeerDevices.length))) := by
  induction keys generalizing d with
  | nil =>
    refine ⟨d, rfl, rfl, rfl, ?_⟩
    intro h
    rcases h with h | h
    · simp at h
    · exact h
  | cons rname rest ih =>
    by_cases hr : rname = d.selres
    · subst hr
      set d0 : detailView :=
        if d.selres ≠ d.oldselres then { d with volGauges := [] } else d with hd0
      have hsel0 : d0.selres = d.selres := by rw [hd0]; split <;> rfl
      have hold0 : d0.oldselres = d.oldselres := by rw [hd0]; split <;> rfl
      obtain ⟨gs', hloop, hp, _⟩ := gaugeLoop_spec env (db.buf d.selres)
        (db.buf d.selres).Device.Volumes hwf hrep d0.volGauges
      obtain ⟨d', hd', hs', ho', hprop⟩ := ih { d0 with volGauges := gs' }
        (by simpa [hsel0] using hwf) (by simpa [hsel0] using hrep)
      refine ⟨d', ?_, ?_, ?_, ?_⟩
      · unfold inSyncLoop
        rw [if_neg (by simp)]
        simp only [bind, Except.bind]
        rw [← hd0, hloop]
        exact hd'
      · rw [hs']; exact hsel0
      · rw [ho']; exact hold0
      · intro _ k v hkv
        have hsel1 : ({ d0 with volGauges := gs' } : detailView).selres = d.selres := hsel0
        rw [hsel1] at hprop
        exact hprop (Or.inr (fun k v hkv => hp k v hkv)) k v hkv
    · obtain ⟨d', hd', hs', ho', hprop⟩ := ih d hwf hrep
      refine ⟨d', ?_, hs', ho', ?_⟩
      · unfold inSyncLoop
        rw [if_pos hr]; exact hd'
      · intro h
        apply hprop
        rcases h with h | h
        · rcases List.mem_cons.mp h with h | h
          · exact absurd h.symm hr
          · exact Or.inl h
        · exact Or.inr h

/-- The gauges after `UpdateInSync`: the call returns, and the gauge of every local
volume of the selected resource shows the percentage computed from the sum of the
out of sync KiB over all peer devices and the number of all peer devices. -/
theorem UpdateInSync_percent (env : Env F) (db : DB F) (d : detailView)
    (hsel : d.selres ∈ db.keys)
    (hwf : volumesWf (db.buf d.selres)) (hrep : peersComplete env (db.buf d.selres)) :
    ∃ d', UpdateInSync env db d = .ok d' ∧
      ∀ k v, (k, v) ∈ (db.buf d.selres).Device.Volumes →
        gaugePercent d' k = some (inSyncPercent env.arch
          (u64 (oosSum k (db.buf d.selres).PeerDevices)) v.Size
          (u64 (db.buf d.selres).PeerDevices.length)) := by
  obtain ⟨d', hd', _, _, hprop⟩ := inSyncLoop_spec env db db.keys d hwf hrep
  refine ⟨{ d' with oldselres := d'.selres }, ?_, ?_⟩
  · unfold UpdateInSync
    rw [hd']; rfl
  · intro k v hkv
    exact hprop (Or.inl hsel) k v hkv


/-! ## The in-sync percentage -/

theorem nPeers_of_all (res : ByRes F) (k : String) (h : reportedByAll res k) :
    nPeers k res.PeerDevices = res.PeerDevices.length := by
  unfold nPeers
  rw [List.filter_eq_self.mpr]
  intro p hp
  exact h p hp

theorem intOfFloatDiv_range (arch : Arch) (a b : Nat) :
    intOfFloatDiv arch a b = -(2 ^ 63) ∨
      (0 ≤ intOfFloatDiv arch a b ∧ intOfFloatDiv arch a b < 2 ^ 63) := by
  unfold intOfFloatDiv
  simp only []
  cases arch <;> (repeat' split) <;> simp [Arch.intOfNaN, Arch.intOfOverflow] <;> omega

theorem inSyncPercent_le (arch : Arch) (oos size n : Nat) (h : 0 < oos) :
    inSyncPercent arch oos size n ≤ 99 := by
  unfold inSyncPercent
  simp only []
  have key : toInt64 (100 - intOfFloatDiv arch (u64 (oos * 100)) (u64 (size * n))) ≤ 100 := by
    rcases intOfFloatDiv_range arch (u64 (oos * 100)) (u64 (size * n)) with h1 | ⟨h1, h2⟩
    · rw [h1]; decide
    · rw [toInt64_of_range _ (by omega) (by omega)]; omega
  split
  · exact le_refl _
  · rename_i hc
    have : toInt64 (100 - intOfFloatDiv arch (u64 (oos * 100)) (u64 (size * n))) ≠ 100 :=
      fun h100 => hc ⟨h100, h⟩
    omega

theorem inSyncPercent_zero (arch : Arch) (size n : Nat) (h : u64 (size * n) ≠ 0) :
    inSyncPercent arch 0 size n = 100 := by
  unfold inSyncPercent intOfFloatDiv
  have hx : float64OfUint (u64 (0 * 100)) = 0 := by decide
  have hy : float64OfUint (u64 (size * n)) ≠ 0 :=
    Nat.pos_iff_ne_zero.mp (float64OfUint_pos _ (Nat.pos_of_ne_zero h))
  simp only [hx, float64DivScaled_zero, if_neg hy]
  norm_num [toInt64]

/-- C1 (as amended): for the selected resource, present in the database, and a local
volume `k` of positive size that every one of the `nPeers ≥ 1` peer devices reports,
`UpdateInSync` returns and leaves `100 - oos * 100 / (sizeKiB * nPeers)` (truncating
division, `oos` the sum of the out of sync KiB over the peers) in the gauge of `k`, and
99 in place of 100 while `oos > 0`, provided `oos * 100` and `sizeKiB * nPeers` are
below `2 ^ 53`, the range in which the `float64` conversions of the code are exact. -/
theorem C1_percent_formula (env : Env F) (db : DB F) (d : detailView) (k : String)
    (v : DevVolume F)
    (hsel : d.selres ∈ db.keys)
    (hwf : volumesWf (db.buf d.selres)) (hrep : peersComplete env (db.buf d.selres))
    (hkv : (k, v) ∈ (db.buf d.selres).Device.Volumes)
    (hsize : 0 < v.Size)
    (hall : reportedByAll (db.buf d.selres) k)
    (hpeers : 1 ≤ nPeers k (db.buf d.selres).PeerDevices)
    (h1 : oosSum k (db.buf d.selres).PeerDevices * 100 < 2 ^ 53)
    (h2 : v.Size * nPeers k (db.buf d.selres).PeerDevices < 2 ^ 53) :
    ∃ d', UpdateInSync env db d = .ok d' ∧
      gaugePercent d' k = some (specPercent (oosSum k (db.buf d.selres).PeerDevices) v.Size
        (nPeers k (db.buf d.selres).PeerDevices)) := by
  obtain ⟨d', hd', hp⟩ := UpdateInSync_percent env db d hsel hwf hrep
  refine ⟨d', hd', ?_⟩
  rw [hp k v hkv]
  rw [nPeers_of_all _ k hall] at hpeers h2 ⊢
  have hlen : (db.buf d.selres).PeerDevices.length < 2 ^ 53 :=
    lt_of_le_of_lt (Nat.le_mul_of_pos_left _ hsize) h2
  have e1 : u64 (oosSum k (db.buf d.selres).PeerDevices) = oosSum k (db.buf d.selres).PeerDevices :=
    Nat.mod_eq_of_lt (by omega)
  have e2 : u64 (db.buf d.selres).PeerDevices.length = (db.buf d.selres).PeerDevices.length :=
    Nat.mod_eq_of_lt (lt_trans hlen (by norm_num))
  rw [e1, e2, inSyncPercent_eq_spec env.arch _ _ _ hsize hpeers h1 h2]

/-- C1, the scenario of the specification: 1,000,000 KiB, two peers with 100,000 KiB
out of sync each, gives 90. -/
theorem C1_percent_formula_witness :
    ∃ d', UpdateInSync (exEnv true Arch.amd64) (exDB exResTwoPeers) exView = .ok d' ∧
      gaugePercent d' "0" = some 90 :=
  C1_percent_formula (exEnv true Arch.amd64) (exDB exResTwoPeers) exView "0" (exVolume 1000000)
    (by decide) (by decide) (by decide) (List.mem_cons_self _ _) (by decide) (by decide)
    (by decide) (by decide) (by decide)

/-- C1 as stated fails where a product is below `2 ^ 64` but not below `2 ^ 53`: for a
volume of `2 ^ 57` KiB and one peer with `2 ^ 57 - 1` KiB out of sync no product
overflows, `float64(oos * 100)` rounds up to `100 * 2 ^ 57`, the code stores 0, and
the formula with truncating integer division gives 1. -/
theorem C1_counterexample :
    (0 < (exVolume (2 ^ 57)).Size ∧ reportedByAll exResHuge "0" ∧
      nPeers "0" exResHuge.PeerDevices = 1 ∧
      oosSum "0" exResHuge.PeerDevices * 100 < 2 ^ 64 ∧
      (exVolume (2 ^ 57)).Size * nPeers "0" exResHuge.PeerDevices < 2 ^ 64) ∧
    (UpdateInSync (exEnv true Arch.amd64) (exDB exResHuge) exView).map
        (fun d => gaugePercent d "0") = .ok (some 0) ∧
    (UpdateInSync (exEnv true Arch.arm64) (exDB exResHuge) exView).map
        (fun d => gaugePercent d "0") = .ok (some 0) ∧
    specPercent (oosSum "0" exResHuge.PeerDevices) (exVolume (2 ^ 57)).Size
      (nPeers "0" exResHuge.PeerDevices) = 1 :=
  ⟨by decide, rfl, rfl, by decide⟩

/-- C2 (as amended): whenever the sum `oos` of the out of sync KiB of the volume `k`,
reduced to 64 bits as the code accumulates it, is positive (so at least one peer device
reports `k`; this is the sum itself when that is below `2 ^ 64`), `UpdateInSync`
returns and the percentage in the gauge of `k` is at most 99, for every size. -/
theorem C2_never_full_while_out_of_sync (env : Env F) (db : DB F) (d : detailView) (k : String)
    (v : DevVolume F)
    (hsel : d.selres ∈ db.keys)
    (hwf : volumesWf (db.buf d.selres)) (hrep : peersComplete env (db.buf d.selres))
    (hkv : (k, v) ∈ (db.buf d.selres).Device.Volumes)
    (hoos : 0 < u64 (oosSum k (db.buf d.selres).PeerDevices)) :
    ∃ d' p, UpdateInSync env db d = .ok d' ∧ gaugePercent d' k = some p ∧ p ≤ 99 := by
  obtain ⟨d', hd', hp⟩ := UpdateInSync_percent env db d hsel hwf hrep
  exact ⟨d', _, hd', hp k v hkv, inSyncPercent_le _ _ _ _ hoos⟩

/-- C2, the scenario of the specification: 1,000,000 KiB, two peers, one KiB out of
sync on one of them; the gauge shows 99. -/
theorem C2_never_full_while_out_of_sync_witness :
    0 < u64 (oosSum "0" exResOneKiB.PeerDevices) ∧
    (∃ d' p, UpdateInSync (exEnv true Arch.amd64) (exDB exResOneKiB) exView = .ok d' ∧
      gaugePercent d' "0" = some p ∧ p ≤ 99) ∧
    (UpdateInSync (exEnv true Arch.amd64) (exDB exResOneKiB) exView).map
        (fun d => gaugePercent d "0") = .ok (some 99) :=
  ⟨by decide, C2_never_full_while_out_of_sync (exEnv true Arch.amd64) (exDB exResOneKiB) exView
    "0" (exVolume 1000000) (by decide) (by decide) (by decide) (List.mem_cons_self _ _)
    (by decide), rfl⟩

/-- C2 as stated fails where the sum of the out of sync KiB does not fit into 64 bits:
two peers report the volume (`nPeers = 2`), each has `2 ^ 63` KiB out of sync, which is
less than the size, so the sum is positive; the code adds them up as `uint64`, gets 0,
and stores 100. -/
theorem C2_counterexample :
    (nPeers "0" exResWrap.PeerDevices = 2 ∧ 0 < oosSum "0" exResWrap.PeerDevices ∧
      (∀ p ∈ exResWrap.PeerDevices, peerCurrent "0" p.2 ≤ (exVolume (2 ^ 63 + 2 ^ 62)).Size) ∧
      u64 (oosSum "0" exResWrap.PeerDevices) = 0) ∧
    (UpdateInSync (exEnv true Arch.amd64) (exDB exResWrap) exView).map
        (fun d => gaugePercent d "0") = .ok (some 100) ∧
    (UpdateInSync (exEnv true Arch.arm64) (exDB exResWrap) exView).map
        (fun d => gaugePercent d "0") = .ok (some 100) ∧
    ¬ ((100 : Int) ≤ 99) :=
  ⟨by decide, rfl, rfl, by decide⟩

/-- Where nothing is out of sync for the volume `k` and the divisor that the code
computes, `sizeKiB * nrPeerDevs` reduced to 64 bits, is not zero, `UpdateInSync` returns
and the percentage in the gauge of `k` is exactly 100. -/
theorem UpdateInSync_full_of_divisor (env : Env F) (db : DB F) (d : detailView) (k : String)
    (v : DevVolume F)
    (hsel : d.selres ∈ db.keys)
    (hwf : volumesWf (db.buf d.selres)) (hrep : peersComplete env (db.buf d.selres))
    (hkv : (k, v) ∈ (db.buf d.selres).Device.Volumes)
    (hoos : u64 (oosSum k (db.buf d.selres).PeerDevices) = 0)
    (hdiv : u64 (v.Size * u64 (db.buf d.selres).PeerDevices.length) ≠ 0) :
    ∃ d', UpdateInSync env db d = .ok d' ∧ gaugePercent d' k = some 100 := by
  obtain ⟨d', hd', hp⟩ := UpdateInSync_percent env db d hsel hwf hrep
  refine ⟨d', hd', ?_⟩
  rw [hp k v hkv, hoos, inSyncPercent_zero _ _ _ hdiv]

/-- C3 on the code, at a volume of size zero: one peer reports the volume
(`nPeers = 1`), nothing is out of sync (`oos = 0`), the divisor `0 * 1` is zero and is
not guarded, the quotient `float64(0) / float64(0)` is NaN, and its conversion to `int`
decides what the gauge shows: `100 - (-2 ^ 63)` reduced to 64 bits on amd64, not 100; on
arm64 it is 100.  At the scenario of the specification (1,000,000 KiB, two peers,
nothing out of sync) the gauge shows 100. -/
theorem C3_size_zero_not_full :
    (nPeers "0" exResSizeZero.PeerDevices = 1 ∧ oosSum "0" exResSizeZero.PeerDevices = 0 ∧
      u64 ((exVolume 0).Size * u64 exResSizeZero.PeerDevices.length) = 0) ∧
    (UpdateInSync (exEnv true Arch.amd64) (exDB exResSizeZero) exView).map
        (fun d => gaugePercent d "0") = .ok (some (-9223372036854775708)) ∧
    (-9223372036854775708 : Int) ≠ 100 ∧
    (UpdateInSync (exEnv true Arch.arm64) (exDB exResSizeZero) exView).map
        (fun d => gaugePercent d "0") = .ok (some 100) ∧
    (UpdateInSync (exEnv true Arch.amd64) (exDB exResInSync) exView).map
        (fun d => gaugePercent d "0") = .ok (some 100) :=
  ⟨by decide, rfl, by decide, rfl, rfl⟩

/-- C4, the code at a resource without peer devices: no sentinel is returned; the
quotient `float64(0) / float64(0)` is computed, and its conversion to `int` decides
what the gauge shows: `100 - (-2 ^ 63)` reduced to 64 bits on amd64, 100 on arm64. -/
theorem C4_zero_peers_no_sentinel :
    nPeers "0" exResNoPeers.PeerDevices = 0 ∧
    u64 ((exVolume 1000000).Size * u64 exResNoPeers.PeerDevices.length) = 0 ∧
    (UpdateInSync (exEnv true Arch.amd64) (exDB exResNoPeers) exView).map
        (fun d => gaugePercent d "0") = .ok (some (-9223372036854775708)) ∧
    (UpdateInSync (exEnv true Arch.arm64) (exDB exResNoPeers) exView).map
        (fun d => gaugePercent d "0") = .ok (some 100) :=
  ⟨by decide, by decide, rfl, rfl⟩

/-- C5 (as amended): the divisor of the in-sync percentage of the volume `k` counts
all peer devices of the selected resource, whether they have an entry for `k` or not:
`UpdateInSync` returns and the gauge of `k` shows the percentage computed from the sum
of the out of sync KiB of the entries that exist and the number of all peer devices
(reduced to 64 bits), provided no lookup is a nil dereference. -/
theorem C5_all_peer_devices_counted (env : Env F) (db : DB F) (d : detailView) (k : String)
    (v : DevVolume F)
    (hsel : d.selres ∈ db.keys)
    (hwf : volumesWf (db.buf d.selres)) (hrep : peersComplete env (db.buf d.selres))
    (hkv : (k, v) ∈ (db.buf d.selres).Device.Volumes) :
    ∃ d', UpdateInSync env db d = .ok d' ∧
      gaugePercent d' k = some (inSyncPercent env.arch
        (u64 (oosSum k (db.buf d.selres).PeerDevices)) v.Size
        (u64 (db.buf d.selres).PeerDevices.length)) := by
  obtain ⟨d', hd', hp⟩ := UpdateInSync_percent env db d hsel hwf hrep
  exact ⟨d', hd', hp k v hkv⟩

/-- C5 at two peers of which one has no entry for the volume: the divisor is
`2 * sizeKiB`, which gives 95. -/
theorem C5_all_peer_devices_counted_witness :
    (nPeers "0" exResPartial.PeerDevices = 1 ∧ exResPartial.PeerDevices.length = 2) ∧
    ∃ d', UpdateInSync (exEnv false Arch.amd64) (exDB exResPartial) exView = .ok d' ∧
      gaugePercent d' "0" = some 95 :=
  ⟨by decide, C5_all_peer_devices_counted (exEnv false Arch.amd64) (exDB exResPartial) exView
    "0" (exVolume 1000000) (by decide) (by decide) (by decide) (List.mem_cons_self _ _)⟩

/-- C5 as stated fails: with a second peer that has no entry for the volume the code
shows 95 (absent entries read as zero) or aborts (absent entries are nil), while the
percentage computed from the one peer that reports the volume is 90. -/
theorem C5_counterexample :
    nPeers "0" exResPartial.PeerDevices = 1 ∧
    (UpdateInSync (exEnv false Arch.amd64) (exDB exResPartial) exView).map
        (fun d => gaugePercent d "0") = .ok (some 95) ∧
    (UpdateInSync (exEnv true Arch.amd64) (exDB exResPartial) exView).map
        (fun d => gaugePercent d "0") = .error Fault.nilDeref ∧
    (UpdateInSync (exEnv false Arch.amd64) (exDB exResOnlyA) exView).map
        (fun d => gaugePercent d "0") = .ok (some 90) ∧
    specPercent (oosSum "0" exResPartial.PeerDevices) (exVolume 1000000).Size
      (nPeers "0" exResPartial.PeerDevices) = 90 :=
  ⟨by decide, rfl, rfl, rfl, by decide⟩

/-! ## The status text -/

theorem printRes_eq (env : Env F) (r : ByRes F) (d : detailView) :
    printRes env r d = { d with scratch := d.scratch ++ headerLine env r.Res r.Danger } := by
  unfold printRes headerLine
  by_cases h : r.Res.Suspended = "no"
  · simp [h, String.append_assoc]
  · simp [h, String.append_assoc]

theorem printLocalVolumes_eq (env : Env F) (vols : List (String × DevVolume F))
    (ks : List String) (d : detailView) :
    printLocalVolumes env vols ks d =
      { d with scratch := d.scratch ++ localVolumesText env vols d.window ks } := by
  induction ks generalizing d with
  | nil => simp [printLocalVolumes, localVolumesText]
  | cons k ks ih =>
    unfold printLocalVolumes localVolumesText
    cases h : vols.lookup k with
    | some v => simp [ih, String.append_assoc]
    | none => simp [ih]

theorem printLocalDisk_eq (env : Env F) (r : ByRes F) (d : detailView) :
    printLocalDisk env r d = { d with scratch := d.scratch ++ localDiskText env r d.window } := by
  unfold printLocalDisk localDiskText
  simp [printLocalVolumes_eq, String.append_assoc]

theorem printConn_eq (env : Env F) (c : Connection) (d : detailView) :
    printConn env c d = { d with scratch := d.scratch ++ connLine env c } := by
  unfold printConn connLine
  simp [String.append_assoc]

theorem printPeerVolumes_eq (env : Env F) (r : ByRes F) (vols : List (String × PeerDevVol F))
    (ks : List String) (d : detailView) :
    printPeerVolumes env r vols ks d =
      (peerVolumesText env r vols d.window ks).map
        (fun t => { d with scratch := d.scratch ++ t }) := by
  induction ks generalizing d with
  | nil => simp [printPeerVolumes, peerVolumesText, Except.map, pure, Except.pure]
  | cons k ks ih =>
    unfold printPeerVolumes peerVolumesText
    cases h : vols.lookup k with
    | none => simp [ih]
    | some v =>
      simp only [bind, Except.bind]
      cases h1 : peerVolumeText env r d.window k v with
      | error e => simp [Except.map]
      | ok t =>
        simp only [ih]
        cases h2 : peerVolumesText env r vols d.window ks with
        | error e => simp [Except.map]
        | ok rest => simp [Except.map, pure, Except.pure, String.append_assoc]

theorem printPeerDev_eq (env : Env F) (r : ByRes F) (conn : String) (d : detailView) :
    printPeerDev env r conn d =
      (peerDevText env r conn d.window).map (fun t => { d with scratch := d.scratch ++ t }) := by
  unfold printPeerDev peerDevText
  cases h : r.PeerDevices.lookup conn with
  | some pd => simp [printPeerVolumes_eq]
  | none =>
    by_cases hf : env.nilFault = true
    · simp [hf, Except.map, throw, throwThe, MonadExceptOf.throw]
    · simp [hf, Except.map, pure, Except.pure]

theorem printConns_eq (env : Env F) (r : ByRes F) (cs : List String) (d : detailView) :
    printConns env r cs d =
      (connsText env r d.window cs).map (fun t => { d with scratch := d.scratch ++ t }) := by
  induction cs generalizing d with
  | nil => simp [printConns, connsText, Except.map, pure, Except.pure]
  | cons conn cs ih =>
    unfold printConns connsText
    cases h : r.Connections.lookup conn with
    | none => simp [ih]
    | some c =>
      simp only [bind, Except.bind, printConn_eq]
      by_cases hp : (r.PeerDevices.lookup conn).isSome = true
      · simp only [hp, if_true, printPeerDev_eq]
        cases h1 : peerDevText env r conn d.window with
        | error e => simp [Except.map]
        | ok pd =>
          simp only [Except.map, ih]
          cases h2 : connsText env r d.window cs with
          | error e => simp [Except.map]
          | ok rest => simp [Except.map, pure, Except.pure, String.append_assoc]
      · simp only [hp, if_false, pure, Except.pure, ih]
        cases h2 : connsText env r d.window cs with
        | error e => simp [Except.map]
        | ok rest => simp [Except.map, String.append_assoc]

/-- The status text is a function of the snapshot and the mode: `printByRes` prepares
`statusText` and commits it. -/
theorem printByRes_eq (env : Env F) (r : ByRes F) (d : detailView) :
    printByRes env r d = (statusText env r d.window).map (commitText d) := by
  unfold printByRes statusText commitText
  by_cases hu : r.Res.Unconfigured = true
  · simp [hu, printRes_eq, Except.map, pure, Except.pure, String.append_assoc]
  · simp only [hu, printRes_eq, printLocalDisk_eq, printConns_eq, bind, Except.bind]
    cases h : connsText env r d.window (sortedKeys r.Connections) with
    | error e => simp [Except.map]
    | ok cs => simp [Except.map, pure, Except.pure, String.append_assoc]

theorem commitText_idem (d : detailView) (t : String) :
    commitText (commitText d t) t = commitText d t := by
  unfold commitText UpdateStatusFromScratch
  by_cases h : t = d.buf
  · simp [h]
  · simp [h]

theorem commitText_window (d : detailView) (t : String) : (commitText d t).window = d.window := by
  unfold commitText UpdateStatusFromScratch
  split <;> rfl

theorem commitText_buf (d : detailView) (t : String) :
    (commitText d t).buf = t ∧ (commitText d t).scratch = t := by
  unfold commitText UpdateStatusFromScratch
  by_cases h : t = d.buf
  · simp [h]
  · simp [h]

/-- C6: for a snapshot flagged unconfigured `printByRes` returns, in every mode, and
the text it prepares is the resource header line, an empty line and the fixed
sentence; it is a function of the resource record and the danger score alone. -/
theorem C6_unconfigured_placeholder (env : Env F) (r : ByRes F) (d : detailView)
    (h : r.Res.Unconfigured = true) :
    ∃ d', printByRes env r d = .ok d' ∧
      d'.scratch = headerLine env r.Res r.Danger ++ "\n" ++ txtUnconfigured ++ "\n" ∧
      d'.buf = d'.scratch ∧
      (d'.status.Text = d'.scratch ∨ (d'.status = d.status ∧ d.buf = d'.scratch)) := by
  refine ⟨commitText d (headerLine env r.Res r.Danger ++ "\n" ++ txtUnconfigured ++ "\n"), ?_,
    (commitText_buf _ _).2, ?_, ?_⟩
  · rw [printByRes_eq]
    simp [statusText, h, Except.map, pure, Except.pure]
  · rw [(commitText_buf _ _).1, (commitText_buf _ _).2]
  · unfold commitText UpdateStatusFromScratch
    by_cases hb : headerLine env r.Res r.Danger ++ "\n" ++ txtUnconfigured ++ "\n" = d.buf
    · right; simp [hb]
    · left; simp [hb]

/-- C6 at an unconfigured resource with a local volume and two peers, in the detailed
mode: none of them shows in the text. -/
theorem C6_unconfigured_placeholder_witness :
    exResUnconfigured.Res.Unconfigured = true ∧
    ∃ d', printByRes (exEnv true Arch.amd64) exResUnconfigured
        { exView with window := detailedstatus } = .ok d' ∧
      d'.scratch = "Resource: r0: (Overall danger score: 0) \n\n" ++
        "This resource is Unconfigured, no further information available.\n" ∧
      d'.buf = d'.scratch ∧
      (d'.status.Text = d'.scratch ∨
        (d'.status = ({ exView with window := detailedstatus } : detailView).status ∧
          ({ exView with window := detailedstatus } : detailView).buf = d'.scratch)) :=
  ⟨rfl, C6_unconfigured_placeholder (exEnv true Arch.amd64) exResUnconfigured
    { exView with window := detailedstatus } rfl⟩

theorem mem_of_lookup {V : Type} (k : String) (v : V) (m : List (String × V))
    (h : m.lookup k = some v) : (k, v) ∈ m := by
  induction m with
  | nil => simp at h
  | cons e m ih =>
    obtain ⟨k1, v1⟩ := e
    by_cases hk : k = k1
    · subst hk
      simp only [List.lookup_cons, beq_self_eq_true, Option.some.injEq] at h
      subst h
      exact List.mem_cons_self _ _
    · have : (k == k1) = false := by simpa using hk
      simp only [List.lookup_cons, this] at h
      exact List.mem_cons_of_mem _ (ih h)

theorem peerVolumeText_ok (env : Env F) (r : ByRes F) (w : win) (k : String) (v : PeerDevVol F)
    (h : env.nilFault = true → startsWith v.ReplicationStatus "Sync" = true →
      (r.Device.Volumes.lookup k).isSome = true) :
    ∃ t, peerVolumeText env r w k v = .ok t := by
  unfold peerVolumeText
  by_cases hs : startsWith v.ReplicationStatus "Sync" = true
  · cases hl : r.Device.Volumes.lookup k with
    | some lv =>
      simp only [hs, if_true, bind, Except.bind, pure, Except.pure]
      exact ⟨_, rfl⟩
    | none =>
      have hnf : env.nilFault = false := by
        cases hf : env.nilFault with
        | false => rfl
        | true => simpa [hl] using h hf hs
      simp only [hs, hnf, if_true, Bool.false_eq_true, if_false, bind, Except.bind, pure,
        Except.pure]
      exact ⟨_, rfl⟩
  · simp only [hs, if_false, bind, Except.bind, pure, Except.pure]
    exact ⟨_, rfl⟩

theorem peerVolumesText_ok (env : Env F) (r : ByRes F) (vols : List (String × PeerDevVol F))
    (w : win)
    (h : env.nilFault = true → ∀ e ∈ vols, startsWith e.2.ReplicationStatus "Sync" = true →
      (r.Device.Volumes.lookup e.1).isSome = true) (ks : List String) :
    ∃ t, peerVolumesText env r vols w ks = .ok t := by
  induction ks with
  | nil => exact ⟨"", rfl⟩
  | cons k ks ih =>
    obtain ⟨rest, hrest⟩ := ih
    unfold peerVolumesText
    cases hl : vols.lookup k with
    | none => exact ⟨rest, hrest⟩
    | some v =>
      obtain ⟨t, ht⟩ := peerVolumeText_ok env r w k v
        (fun hf => h hf (k, v) (mem_of_lookup k v vols hl))
      simp only [ht, hrest, bind, Except.bind, pure, Except.pure]
      exact ⟨_, rfl⟩

theorem connsText_ok (env : Env F) (r : ByRes F) (w : win) (h : syncVolumesLocal env r)
    (cs : List String) : ∃ t, connsText env r w cs = .ok t := by
  induction cs with
  | nil => exact ⟨"", rfl⟩
  | cons conn cs ih =>
    obtain ⟨rest, hrest⟩ := ih
    unfold connsText
    cases hc : r.Connections.lookup conn with
    | none => exact ⟨rest, hrest⟩
    | some c =>
      cases hp : r.PeerDevices.lookup conn with
      | none =>
        simp only [hrest, Option.isSome_none, Bool.false_eq_true, if_false, bind, Except.bind,
          pure, Except.pure]
        exact ⟨_, rfl⟩
      | some pd =>
        obtain ⟨t, ht⟩ := peerVolumesText_ok env r pd.Volumes w
          (fun hf => h hf (conn, pd) (mem_of_lookup conn pd _ hp)) (sortedKeys pd.Volumes)
        have hpd : peerDevText env r conn w = .ok t := by
          unfold peerDevText
          simp only [hp]
          exact ht
        simp only [hpd, hrest, Option.isSome_some, if_true, bind, Except.bind, pure, Except.pure]
        exact ⟨_, rfl⟩

theorem statusText_ok (env : Env F) (r : ByRes F) (w : win) (h : syncVolumesLocal env r) :
    ∃ t, statusText env r w = .ok t := by
  unfold statusText
  by_cases hu : r.Res.Unconfigured = true
  · simp only [hu, if_true, pure, Except.pure]
    exact ⟨_, rfl⟩
  · obtain ⟨cs, hcs⟩ := connsText_ok env r w h (sortedKeys r.Connections)
    simp only [hu, hcs, Bool.false_eq_true, if_false, bind, Except.bind, pure, Except.pure]
    exact ⟨_, rfl⟩

/-- C7: `printByRes` returns whenever no lookup of it is a nil dereference, and when
it has returned, a second call on the same snapshot returns and leaves the whole view
as the first call left it: the prepared text is the same, and nothing is committed,
because the prepared text equals the committed one. -/
theorem C7_redraw_idempotent (env : Env F) (r : ByRes F) (d : detailView) :
    (syncVolumesLocal env r → ∃ d1, printByRes env r d = .ok d1) ∧
    ∀ d1, printByRes env r d = .ok d1 →
      printByRes env r d1 = .ok d1 ∧ d1.scratch = d1.buf := by
  refine ⟨?_, ?_⟩
  · intro hl
    obtain ⟨t, ht⟩ := statusText_ok env r d.window hl
    exact ⟨commitText d t, by rw [printByRes_eq, ht]; rfl⟩
  · intro d1 h
    rw [printByRes_eq] at h
    cases ht : statusText env r d.window with
    | error e => simp [ht, Except.map] at h
    | ok t =>
      simp only [ht, Except.map, Except.ok.injEq] at h
      subst h
      refine ⟨?_, ?_⟩
      · rw [printByRes_eq, commitText_window, ht]
        simp [Except.map, commitText_idem]
      · rw [(commitText_buf _ _).1, (commitText_buf _ _).2]

/-- C7 at the scenario with two peers, in the status mode. -/
theorem C7_redraw_idempotent_witness :
    syncVolumesLocal (exEnv true Arch.amd64) exResTwoPeers ∧
    printByRes (exEnv true Arch.amd64) exResTwoPeers exView = .ok exViewTwoPeers ∧
    printByRes (exEnv true Arch.amd64) exResTwoPeers exViewTwoPeers = .ok exViewTwoPeers ∧
    exViewTwoPeers.scratch = exViewTwoPeers.buf :=
  ⟨by decide, rfl,
    (C7_redraw_idempotent (exEnv true Arch.amd64) exResTwoPeers exView).2 exViewTwoPeers rfl⟩

/-! ## Modes and layout -/

theorem commitText_selres (d : detailView) (t : String) :
    (commitText d t).selres = d.selres := by
  unfold commitText UpdateStatusFromScratch
  split <;> rfl

theorem commitText_of_ne (d : detailView) (t : String) (h : t ≠ d.buf) :
    commitText d t = { d with scratch := t, buf := t, status := { d.status with Text := t } } := by
  unfold commitText UpdateStatusFromScratch
  simp [h]

theorem headerLine_ne_empty (env : Env F) (res : Resource) (danger : Int) (s : String) :
    headerLine env res danger ++ s ≠ "" := by
  intro h
  have := congrArg String.length h
  simp only [headerLine, String.length_append] at this
  have h2 : ": ".length = 2 := rfl
  have h0 : "".length = 0 := rfl
  omega

theorem statusText_ne_empty (env : Env F) (r : ByRes F) (w : win) (t : String)
    (h : statusText env r w = .ok t) : t ≠ "" := by
  unfold statusText at h
  by_cases hu : r.Res.Unconfigured = true
  · simp only [hu, if_true, pure, Except.pure, Except.ok.injEq] at h
    rw [← h, String.append_assoc, String.append_assoc]
    exact headerLine_ne_empty _ _ _ _
  · cases hc : connsText env r w (sortedKeys r.Connections) with
    | error e => simp [hu, hc, bind, Except.bind] at h
    | ok cs =>
      simp only [hu, hc, bind, Except.bind, pure, Except.pure, Bool.false_eq_true, if_false,
        Except.ok.injEq] at h
      rw [← h, String.append_assoc, String.append_assoc]
      exact headerLine_ne_empty _ _ _ _

theorem statusLoop_eq (env : Env F) (db : DB F) (keys : List String) (d : detailView) :
    statusLoop env db keys d =
      if d.selres ∈ keys then (statusText env (db.buf d.selres) d.window).map (commitText d)
      else .ok d := by
  induction keys generalizing d with
  | nil => simp [statusLoop, pure, Except.pure]
  | cons rname rest ih =>
    unfold statusLoop
    by_cases hr : rname = d.selres
    · subst hr
      simp only [if_true, List.mem_cons, true_or, bind, Except.bind, printByRes_eq]
      cases ht : statusText env (db.buf d.selres) d.window with
      | error e => simp [Except.map]
      | ok t =>
        simp only [Except.map]
        rw [ih, commitText_selres, commitText_window, ht]
        simp [Except.map, commitText_idem]
    · have hm : (d.selres ∈ rname :: rest) ↔ d.selres ∈ rest := by
        simp only [List.mem_cons]
        constructor
        · rintro (h | h)
          · exact absurd h.symm hr
          · exact h
        · exact Or.inr
      rw [if_neg hr, ih]
      simp only [hm]

theorem UpdateStatus_eq (env : Env F) (db : DB F) (d : detailView) (hsel : d.selres ∈ db.keys) :
    UpdateStatus env db d = (statusText env (db.buf d.selres) d.window).map
      (fun t => { commitText d t with oldselres := d.selres }) := by
  unfold UpdateStatus
  rw [statusLoop_eq, if_pos hsel]
  cases ht : statusText env (db.buf d.selres) d.window with
  | error e => simp [Except.map, bind, Except.bind]
  | ok t => simp [Except.map, bind, Except.bind, pure, Except.pure, commitText_selres]

theorem keyWindow_other (key : String) (w : win) (h : key ∉ ["i", "s", "d", "m"]) :
    keyWindow key w = w := by
  unfold keyWindow
  simp only [List.mem_cons, List.mem_singleton, List.not_mem_nil, or_false, not_or] at h
  simp [h.1, h.2.1, h.2.2.1, h.2.2.2]

theorem updateGUI_text (env : Env F) (db : DB F) (d d1 : detailView)
    (hc : updateContent env db { d with header := { d.header with
          Text := env.drbdtopversion ++ " - Details for " ++ d.selres } } = .ok d1)
    (hw : d1.window = status ∨ d1.window = detailedstatus ∨ d1.window = dmesgw) :
    updateGUI env db true d = .ok
      ({ d1 with
          status := { d1.status with
            Height := env.TermHeight - d1.header.Height - d1.footer.Height },
          grid := some [[(12, Widget.par d1.header)],
            [(12, Widget.par { d1.status with
              Height := env.TermHeight - d1.header.Height - d1.footer.Height })],
            [(12, Widget.par d1.footer)]] },
       [Effect.switchDisp [[(12, Widget.par d1.header)],
            [(12, Widget.par { d1.status with
              Height := env.TermHeight - d1.header.Height - d1.footer.Height })],
            [(12, Widget.par d1.footer)]]]) := by
  have hni : ¬ (d1.window = insync) := by
    rcases hw with h | h | h <;> rw [h] <;> decide
  have hsp : ¬ (0 < env.TermHeight - (env.TermHeight - d1.header.Height - d1.footer.Height +
      d1.header.Height + d1.footer.Height)) := by omega
  unfold updateGUI
  simp only [if_true, bind, Except.bind, hc, hni, if_false, hw, pure, Except.pure, hsp]
  rfl

theorem updateGUI_content_error (env : Env F) (db : DB F) (d : detailView) (e : Fault)
    (hc : updateContent env db { d with header := { d.header with
          Text := env.drbdtopversion ++ " - Details for " ++ d.selres } } = .error e) :
    updateGUI env db true d = .error e := by
  unfold updateGUI
  simp only [if_true, bind, Except.bind, hc]

/-- C8: `setWindow` sets the mode that the key asks for (`i`, `s`, `d`, `m`; any other
key asks for none).  When that is the current mode it returns the view as it is and
draws nothing; otherwise it clears the committed text and rebuilds content and layout
(`updateGUI` with content).  In particular, from the status mode with the selected
resource in the database, the key `d` aborts exactly when rendering the snapshot
does, and otherwise leaves the detailed text of the snapshot prepared, committed and
in the panel, whatever was committed or shown before, and pushes one layout of header,
panel and footer to the display. -/
theorem C8_setWindow (env : Env F) (db : DB F) (d : detailView) :
    (∀ key, setWindow env db key d =
      if keyWindow key d.window = d.window then .ok (d, [])
      else updateGUI env db true { d with window := keyWindow key d.window, buf := "" }) ∧
    (keyWindow "i" d.window = insync ∧ keyWindow "s" d.window = status ∧
      keyWindow "d" d.window = detailedstatus ∧ keyWindow "m" d.window = dmesgw ∧
      ∀ key, key ∉ ["i", "s", "d", "m"] → keyWindow key d.window = d.window) ∧
    (d.window = status → d.selres ∈ db.keys →
      setWindow env db "d" d = (statusText env (db.buf d.selres) detailedstatus).map (fun t =>
        let header : Par :=
          { d.header with Text := env.drbdtopversion ++ " - Details for " ++ d.selres }
        let panel : Par :=
          { d.status with Text := t,
                          Height := env.TermHeight - d.header.Height - d.footer.Height }
        let rows : Grid :=
          [[(12, Widget.par header)], [(12, Widget.par panel)], [(12, Widget.par d.footer)]]
        ({ d with window := detailedstatus, header := header, status := panel, scratch := t,
                  buf := t, oldselres := d.selres, grid := some rows },
         [Effect.switchDisp rows]))) := by
  refine ⟨?_, ⟨rfl, rfl, rfl, rfl, fun key h => keyWindow_other key _ h⟩, ?_⟩
  · intro key
    unfold setWindow
    by_cases h : keyWindow key d.window = d.window
    · simp only [ne_eq, if_neg (not_not.mpr h.symm), if_pos h]
      rw [h]
      rfl
    · have h' : d.window ≠ keyWindow key d.window := fun e => h e.symm
      simp only [ne_eq, h', not_false_eq_true, if_true, if_neg h]
  · intro hw hsel
    have hne : d.window ≠ detailedstatus := by rw [hw]; decide
    have h1 : ¬ (detailedstatus = insync) := by decide
    have hset : setWindow env db "d" d =
        updateGUI env db true { d with window := detailedstatus, buf := "" } := by
      unfold setWindow
      have hk : keyWindow "d" d.window = detailedstatus := rfl
      simp only [hk, ne_eq, hne, not_false_eq_true, if_true]
    have hC : updateContent env db { d with window := detailedstatus, buf := "", header :=
          { d.header with Text := env.drbdtopversion ++ " - Details for " ++ d.selres } } =
        (statusText env (db.buf d.selres) detailedstatus).map (fun t =>
          { commitText { d with window := detailedstatus, buf := "", header :=
              { d.header with Text := env.drbdtopversion ++ " - Details for " ++ d.selres } } t
            with oldselres := d.selres }) := by
      unfold updateContent
      simp only [h1, if_false, true_or, or_true, if_true]
      exact UpdateStatus_eq env db _ hsel
    rw [hset]
    cases ht : statusText env (db.buf d.selres) detailedstatus with
    | error e =>
      rw [ht] at hC
      exact updateGUI_content_error env db _ e hC
    | ok t =>
      have htne : t ≠ "" := statusText_ne_empty _ _ _ _ ht
      rw [ht] at hC
      simp only [Except.map] at hC
      rw [commitText_of_ne _ _ htne] at hC
      rw [updateGUI_text env db _ _ hC (Or.inr (Or.inl rfl))]
      simp only [Except.map]

/-- C8 at the fresh view in the status mode with `r0` selected: after the key `d` the
mode is the detailed one, the committed text is the prepared one and is in the panel,
and one drawing call was made. -/
theorem C8_setWindow_witness :
    exView.window = status ∧ exView.selres ∈ (exDB exResTwoPeers).keys ∧
    (setWindow (exEnv true Arch.amd64) (exDB exResTwoPeers) "d" exView).map exAfterKey =
      .ok (detailedstatus, true, 1) := by
  refine ⟨rfl, by decide, ?_⟩
  rw [(C8_setWindow (exEnv true Arch.amd64) (exDB exResTwoPeers) exView).2.2 rfl (by decide)]
  rfl

/-! ## The set of gauges -/

theorem lookup_none_of_not_mem (k : String) (gs : List (String × uiGauge))
    (h : k ∉ gs.map Prod.fst) : gs.lookup k = none := by
  induction gs with
  | nil => rfl
  | cons e gs ih =>
    obtain ⟨k1, u⟩ := e
    simp only [List.map_cons, List.mem_cons, not_or] at h
    have : (k == k1) = false := by simpa using h.1
    simp only [List.lookup_cons, this]
    exact ih h.2

theorem setPercent_of_not_mem (k : String) (pct : Int) (gs : List (String × uiGauge))
    (h : k ∉ gs.map Prod.fst) : setPercent k pct gs = gs := by
  induction gs with
  | nil => rfl
  | cons e gs ih =>
    obtain ⟨k1, u⟩ := e
    simp only [List.map_cons, List.mem_cons, not_or] at h
    unfold setPercent at ih ⊢
    simp only [List.map_cons, if_neg (Ne.symm h.1), ih h.2]

theorem gaugeLoop_fresh (env : Env F) (res : ByRes F) (vols : List (String × DevVolume F))
    (hnd : (vols.map Prod.fst).Nodup)
    (hrep : env.nilFault = true → ∀ e ∈ vols, reportedByAll res e.1)
    (gs : List (String × uiGauge)) (hdisj : ∀ k ∈ vols.map Prod.fst, k ∉ gs.map Prod.fst) :
    gaugeLoop env res vols gs = .ok ((vols.map (rebuiltGauge env res)).reverse ++ gs) := by
  induction vols generalizing gs with
  | nil => rfl
  | cons e vols ih =>
    obtain ⟨k0, v0⟩ := e
    have hnd' : (vols.map Prod.fst).Nodup := (List.nodup_cons.mp hnd).2
    have hk0 : k0 ∉ vols.map Prod.fst := (List.nodup_cons.mp hnd).1
    have hk0gs : k0 ∉ gs.map Prod.fst := hdisj k0 (by simp)
    have hstep := gaugeStep_ok env res k0 v0 gs (fun hf => hrep hf (k0, v0) (List.mem_cons_self _ _))
    rw [lookup_none_of_not_mem k0 gs hk0gs] at hstep
    have hset : setPercent k0
        (inSyncPercent env.arch (u64 (oosSum k0 res.PeerDevices)) v0.Size (u64 res.PeerDevices.length))
        ((k0, newGauge k0 v0) :: gs) = rebuiltGauge env res (k0, v0) :: gs := by
      have := setPercent_of_not_mem k0
        (inSyncPercent env.arch (u64 (oosSum k0 res.PeerDevices)) v0.Size (u64 res.PeerDevices.length))
        gs hk0gs
      unfold setPercent at this ⊢
      simp only [List.map_cons, if_true, this]
      rfl
    simp only [Option.isSome_none, Bool.false_eq_true, if_false, hset] at hstep
    unfold gaugeLoop
    rw [hstep]
    simp only [bind, Except.bind]
    rw [ih hnd' (fun hf e he => hrep hf e (List.mem_cons_of_mem _ he))]
    · simp [List.map_cons, List.reverse_cons, List.append_assoc]
    · intro k hk
      simp only [List.map_cons, List.mem_cons, not_or]
      refine ⟨?_, hdisj k (by simp only [List.map_cons, List.mem_cons]; exact Or.inr hk)⟩
      intro h
      have h' : k = k0 := h
      exact hk0 (h' ▸ hk)

theorem inSyncLoop_frame (env : Env F) (db : DB F) (keys : List String) (d d' : detailView)
    (h : inSyncLoop env db keys d = .ok d') : d' = { d with volGauges := d'.volGauges } := by
  induction keys generalizing d with
  | nil =>
    simp only [inSyncLoop, pure, Except.pure, Except.ok.injEq] at h
    rw [← h]
  | cons rname rest ih =>
    unfold inSyncLoop at h
    by_cases hr : rname = d.selres
    · simp only [hr, ne_eq, not_true_eq_false, if_false, bind, Except.bind] at h
      split at h
      · exact absurd h (by simp)
      · rename_i gs hgs
        have := ih _ h
        rw [this]
        split <;> rfl
    · rw [if_pos hr] at h
      exact ih d h

theorem inSyncLoop_switch (env : Env F) (db : DB F) (keys : List String) (d : detailView)
    (hne : d.selres ≠ d.oldselres)
    (hwf : volumesWf (db.buf d.selres)) (hrep : peersComplete env (db.buf d.selres)) :
    inSyncLoop env db keys d = .ok
      (if d.selres ∈ keys then
        { d with volGauges :=
          ((db.buf d.selres).Device.Volumes.map (rebuiltGauge env (db.buf d.selres))).reverse }
       else d) := by
  induction keys generalizing d with
  | nil => simp [inSyncLoop, pure, Except.pure]
  | cons rname rest ih =>
    unfold inSyncLoop
    by_cases hr : rname = d.selres
    · subst hr
      simp only [ne_eq, not_true_eq_false, if_false, hne, not_false_eq_true, if_true, bind,
        Except.bind, List.mem_cons, true_or]
      rw [gaugeLoop_fresh env _ _ hwf hrep [] (by simp)]
      simp only [List.append_nil]
      rw [ih { d with volGauges :=
          ((db.buf d.selres).Device.Volumes.map (rebuiltGauge env (db.buf d.selres))).reverse }
        hne hwf hrep]
      split <;> rfl
    · have hm : (d.selres ∈ rname :: rest) ↔ d.selres ∈ rest := by
        simp only [List.mem_cons]
        constructor
        · rintro (h | h)
          · exact absurd h.symm hr
          · exact h
        · exact Or.inr
      rw [if_pos hr, ih d hne hwf hrep]
      simp only [hm]

/-- C9: when the selected resource differs from the one selected before and is in the
database, `UpdateInSync` returns with the gauges rebuilt from nothing: one fresh entry
per local volume of the selected resource, whatever entries the view held before, so
the keys of the gauges are exactly the ids of its local volumes. -/
theorem C9_resource_switch_rebuilds (env : Env F) (db : DB F) (d : detailView)
    (hsel : d.selres ∈ db.keys) (hne : d.selres ≠ d.oldselres)
    (hwf : volumesWf (db.buf d.selres)) (hrep : peersComplete env (db.buf d.selres)) :
    ∃ d', UpdateInSync env db d = .ok d' ∧
      d'.volGauges =
        ((db.buf d.selres).Device.Volumes.map (rebuiltGauge env (db.buf d.selres))).reverse ∧
      (∀ k, k ∈ d'.volGauges.map Prod.fst ↔ k ∈ (db.buf d.selres).Device.Volumes.map Prod.fst) ∧
      (d'.volGauges.map Prod.fst).Nodup := by
  refine ⟨{ d with oldselres := d.selres, volGauges :=
      ((db.buf d.selres).Device.Volumes.map (rebuiltGauge env (db.buf d.selres))).reverse },
    ?_, rfl, ?_, ?_⟩
  · unfold UpdateInSync
    rw [inSyncLoop_switch env db db.keys d hne hwf hrep, if_pos hsel]
    rfl
  · intro k
    simp [rebuiltGauge, Function.comp_def]
  · have : (List.map Prod.fst (List.map (rebuiltGauge env (db.buf d.selres))
        (db.buf d.selres).Device.Volumes)) = (db.buf d.selres).Device.Volumes.map Prod.fst := by
      simp [rebuiltGauge, Function.comp_def]
    simp only [List.map_reverse, this]
    exact List.nodup_reverse.mpr hwf

/-- C9 at a view that holds the gauge of volume `7` of another resource: afterwards
the only gauge is the one of volume `0`. -/
theorem C9_resource_switch_rebuilds_witness :
    exViewStale.volGauges.map Prod.fst = ["7"] ∧
    ∃ d', UpdateInSync (exEnv true Arch.amd64) (exDB exResTwoPeers) exViewStale = .ok d' ∧
      d'.volGauges = [("0", { p := (newGauge "0" (exVolume 1000000)).p,
                              g := { (newGauge "0" (exVolume 1000000)).g with Percent := 90 } })] ∧
      (∀ k, k ∈ d'.volGauges.map Prod.fst ↔ k ∈ ["0"]) ∧
      (d'.volGauges.map Prod.fst).Nodup :=
  ⟨rfl, C9_resource_switch_rebuilds (exEnv true Arch.amd64) (exDB exResTwoPeers) exViewStale
    (by decide) (by decide) (by decide) (by decide)⟩

theorem UpdateInSync_frame (env : Env F) (db : DB F) (d d1 : detailView)
    (h : UpdateInSync env db d = .ok d1) :
    d1 = { d with volGauges := d1.volGauges, oldselres := d.selres } := by
  unfold UpdateInSync at h
  simp only [bind, Except.bind] at h
  split at h
  · exact absurd h (by simp)
  · rename_i d' hd'
    have hf := inSyncLoop_frame env db db.keys d d' hd'
    simp only [pure, Except.pure, Except.ok.injEq] at h
    rw [← h, hf]

theorem renderGauges_no_switch (gs : List (String × uiGauge)) (ks : List String) (g : Grid) :
    Effect.switchDisp g ∉ renderGauges gs ks := by
  induction ks with
  | nil => simp [renderGauges]
  | cons k ks ih =>
    unfold renderGauges
    split
    · simp only [List.mem_cons, not_or]
      exact ⟨by simp, ih⟩
    · exact ih

theorem updateGUI_gauges (env : Env F) (db : DB F) (d : detailView) (hw : d.window = insync) :
    ∃ d2 errs rows, updateGUI env db false d = .ok (d2, errs ++ [Effect.switchDisp rows]) ∧
      d2.volGauges = d.volGauges := by
  unfold updateGUI
  simp only [Bool.false_eq_true, if_false, bind, Except.bind, pure, Except.pure, hw, if_true]
  exact ⟨_, _, _, rfl, rfl⟩


/-! ## The log tail -/

theorem UpdateStatusFromScratch_scratch (d : detailView) :
    (UpdateStatusFromScratch d).scratch = d.scratch := by
  unfold UpdateStatusFromScratch
  split <;> rfl

theorem foldl_lines_scratch (lines : List String) (d : detailView) :
    (lines.foldl (fun (d : detailView) line => { d with scratch := d.scratch ++ (line ++ "\n") })
      d).scratch = d.scratch ++ linesText lines := by
  induction lines generalizing d with
  | nil => simp [linesText]
  | cons line rest ih =>
    simp only [List.foldl_cons, ih, linesText, String.append_assoc]

theorem UpdateDmesg_scratch (env : Env F) (d : detailView) (lines : List String)
    (h : env.dmesg d.selres = .ok lines) :
    (UpdateDmesg env d).scratch = dmesgHeader env d.selres ++ linesText (lines.drop
      (if d.status.Height - 2 < (lines.length : Int) then (lines.length : Int) - (d.status.Height - 2)
       else 0).toNat) := by
  unfold UpdateDmesg
  simp only [h]
  rw [UpdateStatusFromScratch_scratch, foldl_lines_scratch]
  rfl

/-- C11: when the log reader answers with `lines`, the text that `UpdateDmesg` prepares
in a panel of height `H` is the header line naming the selected resource followed by
the last `min (len lines) (max (H - 2) 0)` lines, each terminated by a newline, in
their order; all lines when `len lines ≤ H - 2`. -/
theorem C11_log_tail (env : Env F) (d : detailView) (lines : List String)
    (h : env.dmesg d.selres = .ok lines) :
    (UpdateDmesg env d).scratch = dmesgHeader env d.selres ++
      linesText (lastLines (min lines.length (max (d.status.Height - 2) 0).toNat) lines) ∧
    ((lines.length : Int) ≤ d.status.Height - 2 →
      (UpdateDmesg env d).scratch = dmesgHeader env d.selres ++ linesText lines) := by
  rw [UpdateDmesg_scratch env d lines h]
  unfold lastLines
  constructor
  · congr 2
    by_cases hneg : d.status.Height - 2 < 0
    · have h1 : (max (d.status.Height - 2) 0).toNat = 0 := by omega
      rw [h1, if_pos (by omega)]
      simp only [Nat.min_zero, Nat.sub_zero, List.drop_length]
      exact List.drop_eq_nil_of_le (by omega)
    · congr 1
      split <;> omega
  · intro hle
    rw [if_neg (by omega)]
    rfl

/-- C11 at four log lines in a panel of height 4: the last two lines are shown. -/
theorem C11_log_tail_witness :
    (exEnvLog (.ok exLog)).dmesg exViewLog.selres = .ok exLog ∧
    (UpdateDmesg (exEnvLog (.ok exLog)) exViewLog).scratch =
      "Dmesg output for resource r0:\n" ++ ("three\n" ++ ("four\n" ++ "")) := by
  refine ⟨rfl, ?_⟩
  rw [(C11_log_tail (exEnvLog (.ok exLog)) exViewLog exLog rfl).1]
  rfl

/-- C12: when the log reader fails, `UpdateDmesg` puts the failure description, and
nothing else, into the panel and leaves the committed buffer, the mode, the gauges,
the height of the panel and the previously selected resource as they were. -/
theorem C12_log_failure (env : Env F) (d : detailView) (err : String)
    (h : env.dmesg d.selres = .error err) :
    (UpdateDmesg env d).status.Text = err ∧ (UpdateDmesg env d).buf = d.buf ∧
    (UpdateDmesg env d).window = d.window ∧ (UpdateDmesg env d).volGauges = d.volGauges ∧
    (UpdateDmesg env d).status.Height = d.status.Height ∧
    (UpdateDmesg env d).oldselres = d.oldselres := by
  simp [UpdateDmesg, h]

/-- C12 at a log reader that fails with `boom`. -/
theorem C12_log_failure_witness :
    (exEnvLog (.error "boom")).dmesg exViewLog.selres = .error "boom" ∧
    (UpdateDmesg (exEnvLog (.error "boom")) exViewLog).status.Text = "boom" ∧
    (UpdateDmesg (exEnvLog (.error "boom")) exViewLog).buf = exViewLog.buf ∧
    (UpdateDmesg (exEnvLog (.error "boom")) exViewLog).window = exViewLog.window ∧
    (UpdateDmesg (exEnvLog (.error "boom")) exViewLog).volGauges = exViewLog.volGauges ∧
    (UpdateDmesg (exEnvLog (.error "boom")) exViewLog).status.Height = exViewLog.status.Height ∧
    (UpdateDmesg (exEnvLog (.error "boom")) exViewLog).oldselres = exViewLog.oldselres :=
  ⟨rfl, C12_log_failure (exEnvLog (.error "boom")) exViewLog "boom" rfl⟩

/-- C13, the code at a success, a failure and a second success with the same log lines:
the first refresh commits the log text, the failure overwrites the panel without
touching the committed buffer, and the second success prepares the same text, finds it
equal to the committed buffer and commits nothing, so the panel keeps the failure
description. -/
theorem C13_failure_stays_on_screen :
    (UpdateDmesg (exEnvLog (.ok exLog)) exViewLog).status.Text = exLogText ∧
    (UpdateDmesg (exEnvLog (.error "boom"))
      (UpdateDmesg (exEnvLog (.ok exLog)) exViewLog)).status.Text = "boom" ∧
    (UpdateDmesg (exEnvLog (.ok exLog)) (UpdateDmesg (exEnvLog (.error "boom"))
      (UpdateDmesg (exEnvLog (.ok exLog)) exViewLog))).scratch = exLogText ∧
    (UpdateDmesg (exEnvLog (.ok exLog)) (UpdateDmesg (exEnvLog (.error "boom"))
      (UpdateDmesg (exEnvLog (.ok exLog)) exViewLog))).status.Text = "boom" :=
  ⟨rfl, rfl, rfl, rfl⟩

/-! ## Heights of the layout -/

theorem updateGUI_insync (env : Env F) (db : DB F) (content : Bool) (d d1 : detailView)
    (hc : (if content = true then
        updateContent env db { d with header := { d.header with
          Text := env.drbdtopversion ++ " - Details for " ++ d.selres } }
      else .ok { d with header := { d.header with
          Text := env.drbdtopversion ++ " - Details for " ++ d.selres } }) = .ok d1)
    (hw : d1.window = insync) :
    updateGUI env db content d = .ok
      ({ d1 with grid := some ([[(12, Widget.par d1.header)]] ++
            d1.volGauges.map (fun e => gaugeRow e.2) ++
            spacerRows env ((d1.volGauges.length : Int) * 3 + d1.header.Height + d1.footer.Height) ++
            [[(12, Widget.par d1.footer)]]) },
       (if 0 < env.TermHeight -
            ((d1.volGauges.length : Int) * 3 + d1.header.Height + d1.footer.Height) then
          [Effect.stderr (toString (env.TermHeight -
            ((d1.volGauges.length : Int) * 3 + d1.header.Height + d1.footer.Height)))]
        else []) ++
       [Effect.switchDisp ([[(12, Widget.par d1.header)]] ++
            d1.volGauges.map (fun e => gaugeRow e.2) ++
            spacerRows env ((d1.volGauges.length : Int) * 3 + d1.header.Height + d1.footer.Height) ++
            [[(12, Widget.par d1.footer)]])]) := by
  unfold updateGUI spacerRows
  cases content
  · simp only [Bool.false_eq_true, if_false, Except.ok.injEq] at hc
    subst hc
    have hw' : d.window = insync := hw
    by_cases hsp : 0 < env.TermHeight -
        ((d.volGauges.length : Int) * 3 + d.header.Height + d.footer.Height)
    · simp only [Bool.false_eq_true, if_false, bind, Except.bind, hw', if_true, pure,
        Except.pure, hsp]
    · simp only [Bool.false_eq_true, if_false, bind, Except.bind, hw', if_true, pure,
        Except.pure, hsp]
      simp
  · simp only [if_true] at hc
    by_cases hsp : 0 < env.TermHeight -
        ((d1.volGauges.length : Int) * 3 + d1.header.Height + d1.footer.Height)
    · simp only [if_true, bind, Except.bind, hc, hw, pure, Except.pure, hsp]
    · simp only [if_true, bind, Except.bind, hc, hw, pure, Except.pure, hsp, if_false]
      simp

theorem updateGUI_textmode (env : Env F) (db : DB F) (content : Bool) (d d1 : detailView)
    (hc : (if content = true then
        updateContent env db { d with header := { d.header with
          Text := env.drbdtopversion ++ " - Details for " ++ d.selres } }
      else .ok { d with header := { d.header with
          Text := env.drbdtopversion ++ " - Details for " ++ d.selres } }) = .ok d1)
    (hw : d1.window = status ∨ d1.window = detailedstatus ∨ d1.window = dmesgw) :
    updateGUI env db content d = .ok
      ({ d1 with
          status := { d1.status with
            Height := env.TermHeight - d1.header.Height - d1.footer.Height },
          grid := some [[(12, Widget.par d1.header)],
            [(12, Widget.par { d1.status with
              Height := env.TermHeight - d1.header.Height - d1.footer.Height })],
            [(12, Widget.par d1.footer)]] },
       [Effect.switchDisp [[(12, Widget.par d1.header)],
            [(12, Widget.par { d1.status with
              Height := env.TermHeight - d1.header.Height - d1.footer.Height })],
            [(12, Widget.par d1.footer)]]]) := by
  have hni : ¬ (d1.window = insync) := by
    rcases hw with h | h | h <;> rw [h] <;> decide
  have hsp : ¬ (0 < env.TermHeight - (env.TermHeight - d1.header.Height - d1.footer.Height +
      d1.header.Height + d1.footer.Height)) := by omega
  unfold updateGUI
  cases content
  · simp only [Bool.false_eq_true, if_false, Except.ok.injEq] at hc
    subst hc
    have hni' : ¬ (d.window = insync) := hni
    have hw' : d.window = status ∨ d.window = detailedstatus ∨ d.window = dmesgw := hw
    have hsp' : ¬ (0 < env.TermHeight - (env.TermHeight - d.header.Height - d.footer.Height +
      d.header.Height + d.footer.Height)) := hsp
    simp only [Bool.false_eq_true, if_false, bind, Except.bind, hni', hw', if_true, pure,
      Except.pure, hsp']
    rfl
  · simp only [if_true] at hc
    simp only [if_true, bind, Except.bind, hc, hni, if_false, hw, pure, Except.pure, hsp]
    rfl

theorem rowHeight_single (w : Widget) (n : Nat) (h : 0 ≤ widgetHeight w) :
    rowHeight [(n, w)] = widgetHeight w := by
  simp [rowHeight, h]

theorem gridHeight_append (a b : Grid) : gridHeight (a ++ b) = gridHeight a + gridHeight b := by
  simp [gridHeight]

theorem gridHeight_gauges (gs : List (String × uiGauge))
    (hg : ∀ e ∈ gs, e.2.p.Height = 3 ∧ e.2.g.Height = 3) :
    gridHeight (gs.map (fun e => gaugeRow e.2)) = (gs.length : Int) * 3 := by
  induction gs with
  | nil => simp [gridHeight]
  | cons e gs ih =>
    have h1 := hg e (List.mem_cons_self _ _)
    have h2 := ih (fun e' he' => hg e' (List.mem_cons_of_mem _ he'))
    unfold gridHeight at h2 ⊢
    simp only [List.map_cons, List.sum_cons, h2, List.length_cons]
    have : rowHeight (gaugeRow e.2) = 3 := by
      simp [rowHeight, gaugeRow, widgetHeight, h1.1, h1.2]
    rw [this]
    push_cast
    ring

theorem gridHeight_spacer (env : Env F) (heights : Int) (h : heights ≤ env.TermHeight) :
    gridHeight (spacerRows env heights) = env.TermHeight - heights := by
  unfold spacerRows
  by_cases hs : 0 < env.TermHeight - heights
  · rw [if_pos hs]
    simp [gridHeight, rowHeight, widgetHeight]
    omega
  · rw [if_neg hs]
    simp [gridHeight]
    omega

/-- C14: after the content step, with header and footer of height 1, `updateGUI`
returns.  In the gauge mode the grid is the header row, one row per gauge entry (`3 n`
lines for `n` entries of height 3), the spacer rows and the footer row, where a
borderless spacer of height `TermHeight - (3 n + 2)` is present exactly when that is
positive; when `3 n + 2 ≤ TermHeight` the heights of the rows sum to `TermHeight`.
In the text modes the panel gets the height `TermHeight - 2` and the grid is header
row, panel row and footer row, without a spacer; the footer row is last in both. -/
theorem C14_layout_heights (env : Env F) (db : DB F) (content : Bool) (d d1 : detailView)
    (hc : (if content = true then
        updateContent env db { d with header := { d.header with
          Text := env.drbdtopversion ++ " - Details for " ++ d.selres } }
      else .ok { d with header := { d.header with
          Text := env.drbdtopversion ++ " - Details for " ++ d.selres } }) = .ok d1)
    (hh : d1.header.Height = 1) (hf : d1.footer.Height = 1) :
    (d1.window = insync →
      ∃ errs, updateGUI env db content d = .ok
        ({ d1 with grid := some ([[(12, Widget.par d1.header)]] ++
              d1.volGauges.map (fun e => gaugeRow e.2) ++
              spacerRows env ((d1.volGauges.length : Int) * 3 + 2) ++
              [[(12, Widget.par d1.footer)]]) },
         errs ++ [Effect.switchDisp ([[(12, Widget.par d1.header)]] ++
              d1.volGauges.map (fun e => gaugeRow e.2) ++
              spacerRows env ((d1.volGauges.length : Int) * 3 + 2) ++
              [[(12, Widget.par d1.footer)]])]) ∧
        ((∀ e ∈ d1.volGauges, e.2.p.Height = 3 ∧ e.2.g.Height = 3) →
          gridHeight (d1.volGauges.map (fun e => gaugeRow e.2)) = (d1.volGauges.length : Int) * 3 ∧
          ((d1.volGauges.length : Int) * 3 + 2 ≤ env.TermHeight →
            gridHeight ([[(12, Widget.par d1.header)]] ++
              d1.volGauges.map (fun e => gaugeRow e.2) ++
              spacerRows env ((d1.volGauges.length : Int) * 3 + 2) ++
              [[(12, Widget.par d1.footer)]]) = env.TermHeight))) ∧
    (d1.window = status ∨ d1.window = detailedstatus ∨ d1.window = dmesgw →
      updateGUI env db content d = .ok
        ({ d1 with
            status := { d1.status with Height := env.TermHeight - 2 },
            grid := some [[(12, Widget.par d1.header)],
              [(12, Widget.par { d1.status with Height := env.TermHeight - 2 })],
              [(12, Widget.par d1.footer)]] },
         [Effect.switchDisp [[(12, Widget.par d1.header)],
              [(12, Widget.par { d1.status with Height := env.TermHeight - 2 })],
              [(12, Widget.par d1.footer)]]]) ∧
      spacerRows env ((env.TermHeight - 2) + 1 + 1) = []) := by
  constructor
  · intro hw
    have h := updateGUI_insync env db content d d1 hc hw
    rw [hh, hf] at h
    have e : (d1.volGauges.length : Int) * 3 + 1 + 1 = (d1.volGauges.length : Int) * 3 + 2 := by
      ring
    rw [e] at h
    refine ⟨_, h, ?_⟩
    intro hg
    refine ⟨gridHeight_gauges _ hg, ?_⟩
    intro hfit
    rw [gridHeight_append, gridHeight_append, gridHeight_append, gridHeight_gauges _ hg,
      gridHeight_spacer env _ hfit]
    have h1 : gridHeight [[(12, Widget.par d1.header)]] = 1 := by
      simp [gridHeight, rowHeight, widgetHeight, hh]
    have h2 : gridHeight [[(12, Widget.par d1.footer)]] = 1 := by
      simp [gridHeight, rowHeight, widgetHeight, hf]
    rw [h1, h2]
    ring
  · intro hw
    have h := updateGUI_textmode env db content d d1 hc hw
    rw [hh, hf] at h
    have e : env.TermHeight - 1 - 1 = env.TermHeight - 2 := by ring
    rw [e] at h
    refine ⟨h, ?_⟩
    unfold spacerRows
    rw [if_neg (by omega)]

/-- C14 at one gauge entry in a terminal of 24 lines, layout only: the rows (header 1,
gauge row 3, spacer 19, footer 1) sum to 24. -/
theorem C14_layout_heights_witness :
    exViewGaugesHeader.header.Height = 1 ∧ exViewGaugesHeader.footer.Height = 1 ∧
    exViewGaugesHeader.window = insync ∧
    (updateGUI (exEnv true Arch.amd64) (exDB exResTwoPeers) false exViewGaugesAfter).map
      (fun x => x.1.grid.map gridHeight) = .ok (some 24) := by
  obtain ⟨errs, h, hg⟩ := (C14_layout_heights (exEnv true Arch.amd64) (exDB exResTwoPeers) false
    exViewGaugesAfter exViewGaugesHeader rfl rfl rfl).1 rfl
  refine ⟨rfl, rfl, rfl, ?_⟩
  rw [h]
  simp only [Except.map, Option.map]
  rw [(hg (by decide)).2 (by decide)]
  rfl

/-! ## The tick in the gauge mode -/

/-- C10 (as amended): in the gauge mode `Update` refreshes the gauges and then decides
by the number of gauge entries before and after the refresh.  When the number changed,
`Update` is the full layout rebuild `updateGUI` without recomputing the content, run on
the refreshed view: it returns, builds the grid of header row, one row per gauge, spacer
rows and footer row, stores it in the view and pushes it to the display.  When the
number is the same, it only redraws the gauges in place, in the sorted order of their
keys, leaves the view as the refresh left it, and pushes no layout. -/
theorem C10_rebuild_iff_count_changed (env : Env F) (db : DB F) (d d1 : detailView)
    (hw : d.window = insync) (h1 : UpdateInSync env db d = .ok d1) :
    (d.volGauges.length ≠ d1.volGauges.length →
      Update env db d = updateGUI env db false d1 ∧
      ∃ d2 rows errs, Update env db d = .ok (d2, errs ++ [Effect.switchDisp rows]) ∧
        (∀ g, Effect.switchDisp g ∉ errs) ∧
        d2 = { d1 with
          header := { d1.header with
            Text := env.drbdtopversion ++ " - Details for " ++ d1.selres },
          grid := some rows } ∧
        rows = [[(12, Widget.par { d1.header with
            Text := env.drbdtopversion ++ " - Details for " ++ d1.selres })]] ++
          d1.volGauges.map (fun e => gaugeRow e.2) ++
          spacerRows env ((d1.volGauges.length : Int) * 3 + d1.header.Height + d1.footer.Height) ++
          [[(12, Widget.par d1.footer)]]) ∧
    (d.volGauges.length = d1.volGauges.length →
      Update env db d = .ok (d1, renderGauges d1.volGauges (sortedKeys d1.volGauges))) ∧
    (∃ d2 effs, Update env db d = .ok (d2, effs) ∧ d2.volGauges = d1.volGauges ∧
      ((∃ g, Effect.switchDisp g ∈ effs) ↔ d.volGauges.length ≠ d1.volGauges.length)) := by
  have hw1 : d1.window = insync := by
    rw [UpdateInSync_frame env db d d1 h1]; exact hw
  have hne : d.volGauges.length ≠ d1.volGauges.length →
      Update env db d = updateGUI env db false d1 := by
    intro hlen
    unfold Update
    simp only [hw, if_true, bind, Except.bind, h1]
    simp only [ne_eq, hlen, not_false_eq_true, if_true]
  have heq : d.volGauges.length = d1.volGauges.length →
      Update env db d = .ok (d1, renderGauges d1.volGauges (sortedKeys d1.volGauges)) := by
    intro hlen
    unfold Update
    simp only [hw, if_true, bind, Except.bind, h1]
    simp only [ne_eq, hlen, not_true_eq_false, if_false]
    rfl
  have hgui := updateGUI_insync env db false d1
    { d1 with header := { d1.header with
        Text := env.drbdtopversion ++ " - Details for " ++ d1.selres } }
    (if_neg (by decide)) hw1
  refine ⟨?_, heq, ?_⟩
  · intro hlen
    refine ⟨hne hlen, _, _, _, (hne hlen).trans hgui, ?_, rfl, rfl⟩
    intro g hg
    split at hg
    · simp at hg
    · simp at hg
  · by_cases hlen : d.volGauges.length = d1.volGauges.length
    · refine ⟨d1, _, heq hlen, rfl, ?_⟩
      constructor
      · rintro ⟨g, hg⟩
        exact absurd hg (renderGauges_no_switch _ _ g)
      · intro h
        exact absurd hlen h
    · obtain ⟨d2, errs, rows, hg, hvg⟩ := updateGUI_gauges env db d1 hw1
      refine ⟨d2, errs ++ [Effect.switchDisp rows], ?_, hvg, ?_⟩
      · rw [hne hlen]; exact hg
      · constructor
        · intro _
          exact hlen
        · intro _
          exact ⟨rows, by simp⟩

/-- C10 at the fresh view in the gauge mode: the refresh creates the gauge of volume
`0`, the number of entries changes from 0 to 1, and the tick is the layout rebuild on
the refreshed view. -/
theorem C10_rebuild_iff_count_changed_witness :
    exViewGauges.window = insync ∧
    UpdateInSync (exEnv true Arch.amd64) (exDB exResTwoPeers) exViewGauges = .ok exViewGaugesAfter ∧
    exViewGauges.volGauges.length ≠ exViewGaugesAfter.volGauges.length ∧
    Update (exEnv true Arch.amd64) (exDB exResTwoPeers) exViewGauges =
      updateGUI (exEnv true Arch.amd64) (exDB exResTwoPeers) false exViewGaugesAfter ∧
    (∃ d2 effs, Update (exEnv true Arch.amd64) (exDB exResTwoPeers) exViewGauges = .ok (d2, effs) ∧
      d2.volGauges = exViewGaugesAfter.volGauges ∧
      ((∃ g, Effect.switchDisp g ∈ effs) ↔
        exViewGauges.volGauges.length ≠ exViewGaugesAfter.volGauges.length)) :=
  ⟨rfl, rfl, by decide,
    ((C10_rebuild_iff_count_changed (exEnv true Arch.amd64) (exDB exResTwoPeers)
      exViewGauges exViewGaugesAfter rfl rfl).1 (by decide)).1,
    (C10_rebuild_iff_count_changed (exEnv true Arch.amd64) (exDB exResTwoPeers)
      exViewGauges exViewGaugesAfter rfl rfl).2.2⟩

/-- C10 as stated fails: the view holds the gauge of volume `7`, the refresh replaces
it by the gauge of volume `0` of the newly selected resource, so the set of gauge ids
changes from `7` to `0` while its size stays 1, and `Update` only redraws the gauge in
place: no layout is rebuilt or pushed. -/
theorem C10_counterexample :
    exViewStale.window = insync ∧ exViewStale.volGauges.map Prod.fst = ["7"] ∧
    (Update (exEnv true Arch.amd64) (exDB exResTwoPeers) exViewStale).map
        (fun x => (x.1.volGauges.map Prod.fst, x.1.grid, x.2)) =
      .ok (["0"], none, [Effect.Render [Widget.par exGauge.p, Widget.gauge exGauge.g]]) :=
  ⟨rfl, rfl, rfl⟩


/-! ## The keys of the gauges -/

theorem lookup_isSome_of_mem (k : String) (gs : List (String × uiGauge))
    (h : k ∈ gs.map Prod.fst) : (gs.lookup k).isSome = true := by
  induction gs with
  | nil => simp at h
  | cons e gs ih =>
    obtain ⟨k1, u⟩ := e
    by_cases hk : k = k1
    · subst hk; simp [List.lookup_cons]
    · have : (k == k1) = false := by simpa using hk
      simp only [List.lookup_cons, this]
      simp only [List.map_cons, List.mem_cons] at h
      rcases h with h | h
      · exact absurd h hk
      · exact ih h

theorem mem_keys_iff (k : String) (gs : List (String × uiGauge)) :
    k ∈ gs.map Prod.fst ↔ (gs.lookup k).isSome = true := by
  constructor
  · exact lookup_isSome_of_mem k gs
  · intro h
    by_contra hn
    rw [lookup_none_of_not_mem k gs hn] at h
    simp at h

theorem setPercent_keys (k : String) (pct : Int) (gs : List (String × uiGauge)) :
    (setPercent k pct gs).map Prod.fst = gs.map Prod.fst := by
  induction gs with
  | nil => rfl
  | cons e gs ih =>
    unfold setPercent at ih ⊢
    simp only [List.map_cons, ih]
    split <;> rfl

theorem gaugeLoop_keys (env : Env F) (res : ByRes F) (vols : List (String × DevVolume F))
    (hrep : env.nilFault = true → ∀ e ∈ vols, reportedByAll res e.1)
    (gs : List (String × uiGauge)) (hnd : (gs.map Prod.fst).Nodup) :
    ∃ gs', gaugeLoop env res vols gs = .ok gs' ∧
      (∀ k, k ∈ gs'.map Prod.fst ↔ k ∈ vols.map Prod.fst ∨ k ∈ gs.map Prod.fst) ∧
      (gs'.map Prod.fst).Nodup := by
  induction vols generalizing gs with
  | nil => exact ⟨gs, rfl, by simp, hnd⟩
  | cons e vols ih =>
    obtain ⟨k0, v0⟩ := e
    have hstep := gaugeStep_ok env res k0 v0 gs (fun hf => hrep hf (k0, v0) (List.mem_cons_self _ _))
    have hkeys1 : ∀ k, k ∈ ((setPercent k0
        (inSyncPercent env.arch (u64 (oosSum k0 res.PeerDevices)) v0.Size (u64 res.PeerDevices.length))
        (if (gs.lookup k0).isSome then gs else (k0, newGauge k0 v0) :: gs)).map Prod.fst) ↔
        k = k0 ∨ k ∈ gs.map Prod.fst := by
      intro k
      rw [setPercent_keys]
      by_cases hs : (gs.lookup k0).isSome = true
      · rw [if_pos hs]
        constructor
        · exact Or.inr
        · rintro (h | h)
          · rw [h]; exact (mem_keys_iff k0 gs).mpr hs
          · exact h
      · rw [if_neg hs]
        simp only [List.map_cons, List.mem_cons]
    have hnd1 : ((setPercent k0
        (inSyncPercent env.arch (u64 (oosSum k0 res.PeerDevices)) v0.Size (u64 res.PeerDevices.length))
        (if (gs.lookup k0).isSome then gs else (k0, newGauge k0 v0) :: gs)).map Prod.fst).Nodup := by
      rw [setPercent_keys]
      by_cases hs : (gs.lookup k0).isSome = true
      · rw [if_pos hs]; exact hnd
      · rw [if_neg hs]
        simp only [List.map_cons]
        exact List.nodup_cons.mpr ⟨fun h => hs ((mem_keys_iff k0 gs).mp h), hnd⟩
    obtain ⟨gs', hloop, hk, hn⟩ := ih (fun hf e he => hrep hf e (List.mem_cons_of_mem _ he)) _ hnd1
    refine ⟨gs', ?_, ?_, hn⟩
    · unfold gaugeLoop
      rw [hstep]
      simpa [bind, Except.bind] using hloop
    · intro k
      rw [hk k, hkeys1 k]
      simp only [List.map_cons, List.mem_cons]
      tauto

theorem inSyncLoop_same (env : Env F) (db : DB F) (keys : List String) (d : detailView)
    (heq : d.selres = d.oldselres)
    (hrep : peersComplete env (db.buf d.selres)) (hnd : (d.volGauges.map Prod.fst).Nodup) :
    ∃ d', inSyncLoop env db keys d = .ok d' ∧
      (∀ k, k ∈ d'.volGauges.map Prod.fst ↔
        (d.selres ∈ keys ∧ k ∈ (db.buf d.selres).Device.Volumes.map Prod.fst) ∨
          k ∈ d.volGauges.map Prod.fst) ∧
      (d'.volGauges.map Prod.fst).Nodup := by
  induction keys generalizing d with
  | nil => exact ⟨d, rfl, by simp, hnd⟩
  | cons rname rest ih =>
    by_cases hr : rname = d.selres
    · subst hr
      obtain ⟨gs', hloop, hk, hn⟩ := gaugeLoop_keys env (db.buf d.selres)
        (db.buf d.selres).Device.Volumes hrep d.volGauges hnd
      obtain ⟨d', hd', hk', hn'⟩ := ih { d with volGauges := gs' } heq hrep hn
      refine ⟨d', ?_, ?_, hn'⟩
      · have hif : (if d.selres ≠ d.oldselres then ({ d with volGauges := [] } : detailView)
            else d) = d := if_neg (not_not.mpr heq)
        unfold inSyncLoop
        rw [if_neg (not_not.mpr rfl)]
        simp only [bind, Except.bind, hif, hloop]
        exact hd'
      · intro k
        rw [hk' k]
        have hk2 := hk k
        simp only [List.mem_cons, true_or, true_and] at hk2 ⊢
        rw [hk2]
        tauto
    · obtain ⟨d', hd', hk', hn'⟩ := ih d heq hrep hnd
      refine ⟨d', ?_, ?_, hn'⟩
      · unfold inSyncLoop
        rw [if_pos hr]; exact hd'
      · intro k
        rw [hk' k]
        have hm : (d.selres ∈ rname :: rest) ↔ d.selres ∈ rest := by
          simp only [List.mem_cons]
          constructor
          · rintro (h | h)
            · exact absurd h.symm hr
            · exact h
          · exact Or.inr
        rw [hm]

/-- C15 (as amended): after `UpdateInSync` for a selected resource in the database the
gauges hold one entry per key, and their keys are the ids of the local volumes of the
selected resource together with, when the resource was also the one selected before,
the keys held before: entries are created for new volumes, and no entry is removed
while the same resource stays selected. -/
theorem C15_gauge_keys (env : Env F) (db : DB F) (d : detailView)
    (hsel : d.selres ∈ db.keys)
    (hwf : volumesWf (db.buf d.selres)) (hrep : peersComplete env (db.buf d.selres))
    (hnd : (d.volGauges.map Prod.fst).Nodup) :
    ∃ d', UpdateInSync env db d = .ok d' ∧
      (∀ k, k ∈ d'.volGauges.map Prod.fst ↔
        k ∈ (db.buf d.selres).Device.Volumes.map Prod.fst ∨
          (d.selres = d.oldselres ∧ k ∈ d.volGauges.map Prod.fst)) ∧
      (d'.volGauges.map Prod.fst).Nodup := by
  by_cases heq : d.selres = d.oldselres
  · obtain ⟨d', hd', hk, hn⟩ := inSyncLoop_same env db db.keys d heq hrep hnd
    refine ⟨{ d' with oldselres := d'.selres }, ?_, ?_, hn⟩
    · unfold UpdateInSync
      rw [hd']; rfl
    · intro k
      have := hk k
      simp only [hsel, true_and] at this
      simp only [heq, true_and]
      rw [← heq]
      exact this
  · have hkeys : (List.map Prod.fst (List.map (rebuiltGauge env (db.buf d.selres))
        (db.buf d.selres).Device.Volumes)) = (db.buf d.selres).Device.Volumes.map Prod.fst := by
      simp [rebuiltGauge, Function.comp_def]
    refine ⟨{ d with oldselres := d.selres, volGauges :=
      ((db.buf d.selres).Device.Volumes.map (rebuiltGauge env (db.buf d.selres))).reverse },
      ?_, ?_, ?_⟩
    · unfold UpdateInSync
      rw [inSyncLoop_switch env db db.keys d heq hwf hrep, if_pos hsel]
      rfl
    · intro k
      simp only [List.map_reverse, List.mem_reverse, hkeys, heq, false_and, or_false]
    · simp only [List.map_reverse, hkeys]
      exact List.nodup_reverse.mpr hwf

/-- C15 at a view that holds gauges for the volumes `0` and `7` of the selected
resource, which now has the volume `0` only: both keys are kept. -/
theorem C15_gauge_keys_witness :
    (exViewOld.volGauges.map Prod.fst).Nodup ∧
    ∃ d', UpdateInSync (exEnv true Arch.amd64) (exDB exResTwoPeers) exViewOld = .ok d' ∧
      (∀ k, k ∈ d'.volGauges.map Prod.fst ↔
        k ∈ ["0"] ∨ (exViewOld.selres = exViewOld.oldselres ∧ k ∈ ["0", "7"])) ∧
      (d'.volGauges.map Prod.fst).Nodup :=
  ⟨by decide, C15_gauge_keys (exEnv true Arch.amd64) (exDB exResTwoPeers) exViewOld
    (by decide) (by decide) (by decide) (by decide)⟩

/-- C15 as stated fails: the view holds gauges for the volumes `0` and `7` of the
selected resource `r0`, the resource now has the volume `0` only, and after the refresh
the gauge of volume `7` is still there. -/
theorem C15_counterexample :
    exViewOld.selres ∈ (exDB exResTwoPeers).keys ∧
    exResTwoPeers.Device.Volumes.map Prod.fst = ["0"] ∧
    (UpdateInSync (exEnv true Arch.amd64) (exDB exResTwoPeers) exViewOld).map
      (fun d => d.volGauges.map Prod.fst) = .ok ["0", "7"] :=
  ⟨by decide, rfl, rfl⟩

/-! ## The order of the blocks of the status text -/

theorem leChars_total (a b : List Char) : leChars a b = true ∨ leChars b a = true := by
  induction a generalizing b with
  | nil => left; rfl
  | cons x xs ih =>
    cases b with
    | nil => right; rfl
    | cons y ys =>
      unfold leChars
      by_cases h1 : x.toNat < y.toNat
      · left; simp [h1]
      · by_cases h2 : y.toNat < x.toNat
        · right; simp [h2]
        · simp only [h1, h2, if_false]
          exact ih ys

theorem leChars_trans (a b c : List Char) (h1 : leChars a b = true) (h2 : leChars b c = true) :
    leChars a c = true := by
  induction a generalizing b c with
  | nil => rfl
  | cons x xs ih =>
    cases b with
    | nil => simp [leChars] at h1
    | cons y ys =>
      cases c with
      | nil => simp [leChars] at h2
      | cons z zs =>
        unfold leChars at h1 h2 ⊢
        by_cases hxy : x.toNat < y.toNat
        · by_cases hyz : y.toNat < z.toNat
          · rw [if_pos (by omega)]
          · by_cases hzy : z.toNat < y.toNat
            · simp [hyz, hzy] at h2
            · rw [if_pos (by omega)]
        · by_cases hyx : y.toNat < x.toNat
          · simp [hxy, hyx] at h1
          · simp only [hxy, hyx, if_false] at h1
            by_cases hyz : y.toNat < z.toNat
            · rw [if_pos (by omega)]
            · by_cases hzy : z.toNat < y.toNat
              · simp [hyz, hzy] at h2
              · simp only [hyz, hzy, if_false] at h2
                rw [if_neg (by omega), if_neg (by omega)]
                exact ih ys zs h1 h2

theorem leChars_antisymm (a b : List Char) (h1 : leChars a b = true) (h2 : leChars b a = true) :
    a = b := by
  induction a generalizing b with
  | nil =>
    cases b with
    | nil => rfl
    | cons y ys => simp [leChars] at h2
  | cons x xs ih =>
    cases b with
    | nil => simp [leChars] at h1
    | cons y ys =>
      unfold leChars at h1 h2
      by_cases hxy : x.toNat < y.toNat
      · have hyx : ¬ (y.toNat < x.toNat) := by omega
        simp [hxy, hyx] at h2
      · by_cases hyx : y.toNat < x.toNat
        · simp [hxy, hyx] at h1
        · simp only [hxy, hyx, if_false] at h1 h2
          have hc : x = y := by
            have := congrArg Char.ofNat (show x.toNat = y.toNat by omega)
            simpa using this
          rw [hc, ih ys h1 h2]

theorem strLe_isTotal : IsTotal String strLe :=
  ⟨fun a b => leChars_total a.data b.data⟩

theorem strLe_isTrans : IsTrans String strLe :=
  ⟨fun a b c h1 h2 => leChars_trans a.data b.data c.data h1 h2⟩

theorem strLe_isAntisymm : IsAntisymm String strLe :=
  ⟨fun a b h1 h2 => String.ext (leChars_antisymm a.data b.data h1 h2)⟩

theorem sortedKeys_sorted {V : Type} (m : List (String × V)) :
    List.Sorted strLe (sortedKeys m) := by
  haveI := strLe_isTotal
  haveI := strLe_isTrans
  exact List.sorted_insertionSort strLe _

theorem sortedKeys_perm_keys {V : Type} (m : List (String × V)) :
    (sortedKeys m).Perm (m.map Prod.fst) :=
  List.perm_insertionSort strLe _

theorem sortedKeys_strict {V : Type} (m : List (String × V)) (h : keysNodup m) :
    List.Sorted strLt (sortedKeys m) := by
  have hnd : (sortedKeys m).Nodup := (sortedKeys_perm_keys m).nodup_iff.mpr h
  exact List.Pairwise.and (sortedKeys_sorted m) hnd

theorem sortedKeys_of_perm {V : Type} (m m' : List (String × V)) (h : m.Perm m') :
    sortedKeys m = sortedKeys m' := by
  haveI := strLe_isAntisymm
  apply List.eq_of_perm_of_sorted _ (sortedKeys_sorted m) (sortedKeys_sorted m')
  exact (sortedKeys_perm_keys m).trans ((h.map Prod.fst).trans (sortedKeys_perm_keys m').symm)

theorem lookup_eq_some_iff {V : Type} (m : List (String × V)) (h : keysNodup m) (k : String)
    (v : V) : m.lookup k = some v ↔ (k, v) ∈ m := by
  constructor
  · exact mem_of_lookup k v m
  · intro hm
    induction m with
    | nil => simp at hm
    | cons e m ih =>
      obtain ⟨k1, v1⟩ := e
      unfold keysNodup at h ih
      simp only [List.map_cons, List.nodup_cons] at h
      rcases List.mem_cons.mp hm with heq | hmem
      · obtain ⟨rfl, rfl⟩ := Prod.mk.inj heq
        simp [List.lookup_cons]
      · have hne : k ≠ k1 := by
          intro hk
          apply h.1
          rw [← hk]
          exact List.mem_map.mpr ⟨(k, v), hmem, rfl⟩
        have : (k == k1) = false := by simpa using hne
        simp only [List.lookup_cons, this]
        exact ih h.2 hmem

theorem lookup_of_perm {V : Type} (m m' : List (String × V)) (h : keysNodup m)
    (hp : m.Perm m') (k : String) : m.lookup k = m'.lookup k := by
  have h' : keysNodup m' := (hp.map Prod.fst).nodup_iff.mp h
  apply Option.ext
  intro v
  simp only [Option.mem_def]
  rw [lookup_eq_some_iff m h, lookup_eq_some_iff m' h', hp.mem_iff]

theorem localVolumesText_congr (env : Env F) (vols vols' : List (String × DevVolume F))
    (w : win) (h : ∀ k, vols.lookup k = vols'.lookup k) (ks : List String) :
    localVolumesText env vols w ks = localVolumesText env vols' w ks := by
  induction ks with
  | nil => rfl
  | cons k ks ih => simp only [localVolumesText, h k, ih]

theorem peerVolumeText_congr (env : Env F) (r r' : ByRes F) (w : win) (k : String)
    (v : PeerDevVol F) (h : r.Device.Volumes.lookup k = r'.Device.Volumes.lookup k) :
    peerVolumeText env r w k v = peerVolumeText env r' w k v := by
  unfold peerVolumeText
  rw [h]

theorem peerVolumesText_congr (env : Env F) (r r' : ByRes F)
    (vols vols' : List (String × PeerDevVol F)) (w : win)
    (h : ∀ k, r.Device.Volumes.lookup k = r'.Device.Volumes.lookup k)
    (hv : ∀ k, vols.lookup k = vols'.lookup k) (ks : List String) :
    peerVolumesText env r vols w ks = peerVolumesText env r' vols' w ks := by
  induction ks with
  | nil => rfl
  | cons k ks ih =>
    unfold peerVolumesText
    rw [hv k, ih]
    cases vols'.lookup k with
    | none => rfl
    | some v => simp only [peerVolumeText_congr env r r' w k v (h k)]

theorem lookup_forall₂ (ps qs : List (String × PeerDevice F))
    (h : List.Forall₂ (fun p q => p.1 = q.1 ∧ p.2.Volumes.Perm q.2.Volumes) ps qs)
    (conn : String) :
    (ps.lookup conn = none ∧ qs.lookup conn = none) ∨
    ∃ pd qd, ps.lookup conn = some pd ∧ qs.lookup conn = some qd ∧ pd.Volumes.Perm qd.Volumes := by
  induction h with
  | nil => left; exact ⟨rfl, rfl⟩
  | @cons p q ps qs hpq _ ih =>
    obtain ⟨k1, pd⟩ := p
    obtain ⟨k2, qd⟩ := q
    have hk : k1 = k2 := hpq.1
    subst hk
    by_cases hc : conn = k1
    · subst hc
      right
      exact ⟨pd, qd, by simp [List.lookup_cons], by simp [List.lookup_cons], hpq.2⟩
    · have : (conn == k1) = false := by simpa using hc
      simp only [List.lookup_cons, this]
      exact ih

theorem peerDevText_congr (env : Env F) (r r' : ByRes F) (hwf : snapshotWf r)
    (hs : sameSnapshot r r') (conn : String) (w : win) :
    (r.PeerDevices.lookup conn).isSome = (r'.PeerDevices.lookup conn).isSome ∧
    peerDevText env r conn w = peerDevText env r' conn w := by
  obtain ⟨_, _, hvols, _, ps, hps, hfa⟩ := hs
  have hdev : ∀ k, r.Device.Volumes.lookup k = r'.Device.Volumes.lookup k :=
    lookup_of_perm _ _ hwf.1 hvols
  have hl : r.PeerDevices.lookup conn = ps.lookup conn := lookup_of_perm _ _ hwf.2.2.1 hps conn
  unfold peerDevText
  rcases lookup_forall₂ ps r'.PeerDevices hfa conn with ⟨h1, h2⟩ | ⟨pd, qd, h1, h2, hperm⟩
  · rw [hl, h1, h2]
    exact ⟨rfl, rfl⟩
  · have hmem : (conn, pd) ∈ r.PeerDevices := mem_of_lookup conn pd _ (hl.trans h1)
    have hnd : keysNodup pd.Volumes := hwf.2.2.2 (conn, pd) hmem
    rw [hl, h1, h2]
    refine ⟨rfl, ?_⟩
    simp only []
    rw [sortedKeys_of_perm pd.Volumes qd.Volumes hperm]
    exact peerVolumesText_congr env r r' pd.Volumes qd.Volumes w hdev
      (lookup_of_perm _ _ hnd hperm) _

theorem connsText_congr (env : Env F) (r r' : ByRes F) (hwf : snapshotWf r)
    (hs : sameSnapshot r r') (w : win) (cs : List String) :
    connsText env r w cs = connsText env r' w cs := by
  have hconn : ∀ k, r.Connections.lookup k = r'.Connections.lookup k :=
    lookup_of_perm _ _ hwf.2.1 hs.2.2.2.1
  induction cs with
  | nil => rfl
  | cons conn cs ih =>
    unfold connsText
    rw [hconn conn, ih, (peerDevText_congr env r r' hwf hs conn w).1,
      (peerDevText_congr env r r' hwf hs conn w).2]

theorem statusText_congr (env : Env F) (r r' : ByRes F) (hwf : snapshotWf r)
    (hs : sameSnapshot r r') (w : win) : statusText env r' w = statusText env r w := by
  have hdev : ∀ k, r.Device.Volumes.lookup k = r'.Device.Volumes.lookup k :=
    lookup_of_perm _ _ hwf.1 hs.2.2.1
  unfold statusText localDiskText
  rw [hs.1, hs.2.1, ← connsText_congr env r r' hwf hs w,
    ← sortedKeys_of_perm _ _ hs.2.2.2.1, ← sortedKeys_of_perm _ _ hs.2.2.1,
    ← localVolumesText_congr env _ _ w hdev]

/-- C16: the text that `printByRes` prepares is `statusText`, which lists the local
volumes, the connections and the volumes of every peer device in the order of their
sorted keys.  For a snapshot whose mappings have pairwise different keys these sorted
key lists are strictly ascending in the lexicographic order of `sort.Strings` and hold
exactly the keys of the mapping; and a snapshot that holds the same mappings with their
entries in another order leads to the same result of `printByRes`. -/
theorem C16_sorted_blocks (env : Env F) (r r' : ByRes F) (d : detailView)
    (hwf : snapshotWf r) (hs : sameSnapshot r r') :
    printByRes env r' d = printByRes env r d ∧
    printByRes env r d = (statusText env r d.window).map (commitText d) ∧
    (List.Sorted strLt (sortedKeys r.Device.Volumes) ∧
      (sortedKeys r.Device.Volumes).Perm (r.Device.Volumes.map Prod.fst)) ∧
    (List.Sorted strLt (sortedKeys r.Connections) ∧
      (sortedKeys r.Connections).Perm (r.Connections.map Prod.fst)) ∧
    ∀ p ∈ r.PeerDevices, List.Sorted strLt (sortedKeys p.2.Volumes) ∧
      (sortedKeys p.2.Volumes).Perm (p.2.Volumes.map Prod.fst) := by
  refine ⟨?_, printByRes_eq env r d, ⟨sortedKeys_strict _ hwf.1, sortedKeys_perm_keys _⟩,
    ⟨sortedKeys_strict _ hwf.2.1, sortedKeys_perm_keys _⟩,
    fun p hp => ⟨sortedKeys_strict _ (hwf.2.2.2 p hp), sortedKeys_perm_keys _⟩⟩
  rw [printByRes_eq, printByRes_eq, statusText_congr env r r' hwf hs]

/-- C16 at the scenario with two peers and the same snapshot with the peers `b`, `a`
listed in the other order: the rendered view is the same, with `a` before `b`. -/
theorem C16_sorted_blocks_witness :
    snapshotWf exResTwoPeers ∧ sameSnapshot exResTwoPeers exResTwoPeersSwapped ∧
    printByRes (exEnv true Arch.amd64) exResTwoPeersSwapped exView = .ok exViewTwoPeers ∧
    sortedKeys exResTwoPeersSwapped.Connections = ["a", "b"] := by
  have hwf : snapshotWf exResTwoPeers := by decide
  have hs : sameSnapshot exResTwoPeers exResTwoPeersSwapped :=
    ⟨rfl, rfl, List.Perm.refl _, List.Perm.swap _ _ _, exResTwoPeersSwapped.PeerDevices,
      List.Perm.swap _ _ _,
      List.Forall₂.cons ⟨rfl, List.Perm.refl _⟩
        (List.Forall₂.cons ⟨rfl, List.Perm.refl _⟩ List.Forall₂.nil)⟩
  refine ⟨hwf, hs, ?_, rfl⟩
  rw [(C16_sorted_blocks (exEnv true Arch.amd64) exResTwoPeers exResTwoPeersSwapped exView
    hwf hs).1]
  rfl

/-! ## The mode stays one of the four modes -/

theorem peerOos_fault (env : Env F) (k : String) (peers : List (String × PeerDevice F))
    (acc : Nat × Nat) (e : Fault) (h : peerOos env k peers acc = .error e) :
    e = Fault.nilDeref := by
  induction peers generalizing acc with
  | nil => simp [peerOos, pure, Except.pure] at h
  | cons p peers ih =>
    obtain ⟨name, pdev⟩ := p
    obtain ⟨oos, n⟩ := acc
    unfold peerOos at h
    split at h
    · exact ih _ h
    · split at h
      · simp only [throw, throwThe, MonadExceptOf.throw, Except.error.injEq] at h
        exact h.symm
      · exact ih _ h

theorem gaugeStep_fault (env : Env F) (res : ByRes F) (k : String) (v : DevVolume F)
    (gs : List (String × uiGauge)) (e : Fault) (h : gaugeStep env res k v gs = .error e) :
    e = Fault.nilDeref := by
  unfold gaugeStep at h
  simp only [bind, Except.bind] at h
  split at h
  · rename_i err herr
    simp only [Except.error.injEq] at h
    rw [← h]
    exact peerOos_fault env k _ _ err herr
  · simp [pure, Except.pure] at h

theorem gaugeLoop_fault (env : Env F) (res : ByRes F) (vols : List (String × DevVolume F))
    (gs : List (String × uiGauge)) (e : Fault) (h : gaugeLoop env res vols gs = .error e) :
    e = Fault.nilDeref := by
  induction vols generalizing gs with
  | nil => simp [gaugeLoop, pure, Except.pure] at h
  | cons kv vols ih =>
    obtain ⟨k, v⟩ := kv
    unfold gaugeLoop at h
    simp only [bind, Except.bind] at h
    split at h
    · rename_i err herr
      simp only [Except.error.injEq] at h
      rw [← h]
      exact gaugeStep_fault env res k v gs err herr
    · exact ih _ h

theorem inSyncLoop_fault (env : Env F) (db : DB F) (keys : List String) (d : detailView)
    (e : Fault) (h : inSyncLoop env db keys d = .error e) : e = Fault.nilDeref := by
  induction keys generalizing d with
  | nil => simp [inSyncLoop, pure, Except.pure] at h
  | cons rname rest ih =>
    unfold inSyncLoop at h
    split at h
    · exact ih d h
    · simp only [bind, Except.bind] at h
      split at h
      · rename_i err herr
        simp only [Except.error.injEq] at h
        rw [← h]
        exact gaugeLoop_fault env _ _ _ err herr
      · exact ih _ h

theorem UpdateInSync_keeps (env : Env F) (db : DB F) (d : detailView) :
    keepsWindow d.window (UpdateInSync env db d) := by
  cases h : UpdateInSync env db d with
  | ok d1 =>
    show d1.window = d.window
    rw [UpdateInSync_frame env db d d1 h]
  | error e =>
    show e = Fault.nilDeref
    unfold UpdateInSync at h
    simp only [bind, Except.bind] at h
    split at h
    · rename_i err herr
      simp only [Except.error.injEq] at h
      rw [← h]
      exact inSyncLoop_fault env db db.keys d err herr
    · simp [pure, Except.pure] at h

theorem peerVolumeText_fault (env : Env F) (r : ByRes F) (w : win) (k : String)
    (v : PeerDevVol F) (e : Fault) (h : peerVolumeText env r w k v = .error e) :
    e = Fault.nilDeref := by
  unfold peerVolumeText at h
  by_cases hs : startsWith v.ReplicationStatus "Sync" = true
  · cases hl : r.Device.Volumes.lookup k with
    | some lv => simp [hs, hl, bind, Except.bind, pure, Except.pure] at h
    | none =>
      by_cases hf : env.nilFault = true
      · simp only [hs, hl, hf, if_true, bind, Except.bind, throw, throwThe,
          MonadExceptOf.throw, Except.error.injEq] at h
        exact h.symm
      · simp [hs, hl, hf, bind, Except.bind, pure, Except.pure] at h
  · simp [hs, bind, Except.bind, pure, Except.pure] at h

theorem peerVolumesText_fault (env : Env F) (r : ByRes F) (vols : List (String × PeerDevVol F))
    (w : win) (ks : List String) (e : Fault)
    (h : peerVolumesText env r vols w ks = .error e) : e = Fault.nilDeref := by
  induction ks generalizing e with
  | nil => simp [peerVolumesText, pure, Except.pure] at h
  | cons k ks ih =>
    unfold peerVolumesText at h
    cases hl : vols.lookup k with
    | none =>
      simp only [hl] at h
      exact ih e h
    | some v =>
      simp only [hl, bind, Except.bind] at h
      cases h1 : peerVolumeText env r w k v with
      | error err =>
        simp only [h1, Except.error.injEq] at h
        rw [← h]
        exact peerVolumeText_fault env r w k v err h1
      | ok t =>
        simp only [h1] at h
        cases h2 : peerVolumesText env r vols w ks with
        | error err =>
          simp only [h2, Except.error.injEq] at h
          rw [← h]
          exact ih err h2
        | ok rest => simp [h2, pure, Except.pure] at h

theorem peerDevText_fault (env : Env F) (r : ByRes F) (conn : String) (w : win) (e : Fault)
    (h : peerDevText env r conn w = .error e) : e = Fault.nilDeref := by
  unfold peerDevText at h
  split at h
  · exact peerVolumesText_fault env r _ w _ e h
  · split at h
    · simp only [throw, throwThe, MonadExceptOf.throw, Except.error.injEq] at h
      exact h.symm
    · simp [pure, Except.pure] at h

theorem connsText_fault (env : Env F) (r : ByRes F) (w : win) (cs : List String) (e : Fault)
    (h : connsText env r w cs = .error e) : e = Fault.nilDeref := by
  induction cs generalizing e with
  | nil => simp [connsText, pure, Except.pure] at h
  | cons conn cs ih =>
    unfold connsText at h
    cases hl : r.Connections.lookup conn with
    | none =>
      simp only [hl] at h
      exact ih e h
    | some c =>
      have hpd : ∀ pd, (∀ err, pd = Except.error err → err = Fault.nilDeref) →
          (do
            let t ← pd
            let rest ← connsText env r w cs
            pure (connLine env c ++ t ++ "\n" ++ rest) : Except Fault String) = .error e →
          e = Fault.nilDeref := by
        intro pd hpd hx
        simp only [bind, Except.bind] at hx
        cases h1 : pd with
        | error err =>
          simp only [h1, Except.error.injEq] at hx
          rw [← hx]
          exact hpd err h1
        | ok t =>
          simp only [h1] at hx
          cases h2 : connsText env r w cs with
          | error err =>
            simp only [h2, Except.error.injEq] at hx
            rw [← hx]
            exact ih err h2
          | ok rest => simp [h2, pure, Except.pure] at hx
      simp only [hl] at h
      by_cases hp : (r.PeerDevices.lookup conn).isSome = true
      · simp only [hp, if_true] at h
        exact hpd _ (fun err herr => peerDevText_fault env r conn w err herr) h
      · simp only [hp, if_false] at h
        exact hpd _ (fun err herr => by simp [pure, Except.pure] at herr) h

theorem statusText_fault (env : Env F) (r : ByRes F) (w : win) (e : Fault)
    (h : statusText env r w = .error e) : e = Fault.nilDeref := by
  unfold statusText at h
  split at h
  · simp [pure, Except.pure] at h
  · simp only [bind, Except.bind] at h
    split at h
    · rename_i err herr
      simp only [Except.error.injEq] at h
      rw [← h]
      exact connsText_fault env r w _ err herr
    · simp [pure, Except.pure] at h

theorem UpdateStatus_keeps (env : Env F) (db : DB F) (d : detailView) :
    keepsWindow d.window (UpdateStatus env db d) := by
  unfold UpdateStatus
  rw [statusLoop_eq]
  by_cases hsel : d.selres ∈ db.keys
  · rw [if_pos hsel]
    cases ht : statusText env (db.buf d.selres) d.window with
    | error e =>
      show e = Fault.nilDeref
      exact statusText_fault env _ _ e ht
    | ok t =>
      show (commitText d t).window = d.window
      exact commitText_window d t
  · rw [if_neg hsel]
    show d.window = d.window
    rfl

theorem UpdateStatusFromScratch_window (d : detailView) :
    (UpdateStatusFromScratch d).window = d.window := by
  unfold UpdateStatusFromScratch
  split <;> rfl

theorem foldl_lines_window (lines : List String) (d : detailView) :
    (lines.foldl (fun (d : detailView) line => { d with scratch := d.scratch ++ (line ++ "\n") })
      d).window = d.window := by
  induction lines generalizing d with
  | nil => rfl
  | cons line rest ih => simp only [List.foldl_cons, ih]

theorem UpdateDmesg_window (env : Env F) (d : detailView) :
    (UpdateDmesg env d).window = d.window := by
  cases h : env.dmesg d.selres with
  | error err =>
    unfold UpdateDmesg
    simp only [h]
  | ok lines =>
    unfold UpdateDmesg
    simp only [h]
    rw [UpdateStatusFromScratch_window, foldl_lines_window]

theorem updateContent_keeps (env : Env F) (db : DB F) (d : detailView) (hv : validWindow d) :
    keepsWindow d.window (updateContent env db d) := by
  unfold updateContent
  rcases hv with h | h | h | h
  · rw [if_pos h]; exact UpdateInSync_keeps env db d
  · have h0 : ¬ (d.window = insync) := by rw [h]; decide
    rw [if_neg h0, if_pos (Or.inl h)]; exact UpdateStatus_keeps env db d
  · have h0 : ¬ (d.window = insync) := by rw [h]; decide
    rw [if_neg h0, if_pos (Or.inr h)]; exact UpdateStatus_keeps env db d
  · have h0 : ¬ (d.window = insync) := by rw [h]; decide
    have h1 : ¬ (d.window = status ∨ d.window = detailedstatus) := by rw [h]; decide
    rw [if_neg h0, if_neg h1, if_pos h]
    exact UpdateDmesg_window env d

theorem updateGUI_keeps (env : Env F) (db : DB F) (content : Bool) (d : detailView)
    (hv : validWindow d) :
    keepsWindow d.window ((updateGUI env db content d).map Prod.fst) := by
  have layout : ∀ d1 : detailView, d1.window = d.window →
      (if content = true then
        updateContent env db { d with header := { d.header with
          Text := env.drbdtopversion ++ " - Details for " ++ d.selres } }
      else .ok { d with header := { d.header with
          Text := env.drbdtopversion ++ " - Details for " ++ d.selres } }) = .ok d1 →
      keepsWindow d.window ((updateGUI env db content d).map Prod.fst) := by
    intro d1 hw hc
    rcases hv with h | h | h | h
    · rw [updateGUI_insync env db content d d1 hc (hw.trans h)]
      exact hw
    · rw [updateGUI_textmode env db content d d1 hc (Or.inl (hw.trans h))]
      exact hw
    · rw [updateGUI_textmode env db content d d1 hc (Or.inr (Or.inl (hw.trans h)))]
      exact hw
    · rw [updateGUI_textmode env db content d d1 hc (Or.inr (Or.inr (hw.trans h)))]
      exact hw
  cases content with
  | false =>
    exact layout { d with header := { d.header with
          Text := env.drbdtopversion ++ " - Details for " ++ d.selres } } rfl
      (if_neg (by decide))
  | true =>
    have hk := updateContent_keeps env db { d with header := { d.header with
          Text := env.drbdtopversion ++ " - Details for " ++ d.selres } } hv
    cases hc : updateContent env db { d with header := { d.header with
          Text := env.drbdtopversion ++ " - Details for " ++ d.selres } } with
    | error e =>
      rw [hc] at hk
      rw [updateGUI_content_error env db d e hc]
      exact hk
    | ok d1 =>
      rw [hc] at hk
      exact layout d1 hk ((if_pos rfl).trans hc)

theorem keyWindow_valid (key : String) (d : detailView) (hv : validWindow d) :
    validWindow { d with window := keyWindow key d.window } := by
  unfold validWindow keyWindow
  simp only []
  split
  · exact Or.inl rfl
  · split
    · exact Or.inr (Or.inl rfl)
    · split
      · exact Or.inr (Or.inr (Or.inl rfl))
      · split
        · exact Or.inr (Or.inr (Or.inr rfl))
        · exact hv

theorem validResult_ok (d : detailView) (hv : validWindow d) : validResult (.ok d) :=
  ⟨fun d1 h => by rw [← Except.ok.inj h]; exact hv, fun e h => by simp at h⟩

theorem validResult_of_keeps (w : win) (x : Except Fault detailView)
    (hw : w = insync ∨ w = status ∨ w = detailedstatus ∨ w = dmesgw) (h : keepsWindow w x) :
    validResult x := by
  cases x with
  | error e =>
    exact ⟨fun d hd => by simp at hd, fun e1 he => by rw [← Except.error.inj he]; exact h⟩
  | ok d =>
    have hd : d.window = w := h
    exact validResult_ok d (by unfold validWindow; rw [hd]; exact hw)

theorem setWindow_valid (env : Env F) (db : DB F) (k : String) (d : detailView)
    (hv : validWindow d) : validResult ((setWindow env db k d).map Prod.fst) := by
  have hv1 : validWindow { d with window := keyWindow k d.window, buf := "" } :=
    keyWindow_valid k d hv
  unfold setWindow
  by_cases hk : d.window = keyWindow k d.window
  · rw [if_neg (not_not.mpr hk)]
    exact validResult_ok _ (keyWindow_valid k d hv)
  · rw [if_pos hk]
    exact validResult_of_keeps (keyWindow k d.window) _ hv1
      (updateGUI_keeps env db true { d with window := keyWindow k d.window, buf := "" } hv1)

theorem Update_valid (env : Env F) (db : DB F) (d : detailView) (hv : validWindow d) :
    validResult ((Update env db d).map Prod.fst) := by
  unfold Update
  rcases hv with h | h | h | h
  · rw [if_pos h]
    simp only [bind, Except.bind]
    have hk := UpdateInSync_keeps env db d
    cases hu : UpdateInSync env db d with
    | error e =>
      rw [hu] at hk
      exact ⟨fun d1 hd => by simp [Except.map] at hd,
        fun e1 he => by simp only [Except.map, Except.error.injEq] at he; rw [← he]; exact hk⟩
    | ok d1 =>
      rw [hu] at hk
      have hw1 : d1.window = insync := Eq.trans hk h
      have hv1 : validWindow d1 := Or.inl hw1
      simp only []
      by_cases hlen : d.volGauges.length = d1.volGauges.length
      · rw [if_neg (not_not.mpr hlen)]
        exact validResult_ok d1 hv1
      · rw [if_pos hlen]
        exact validResult_of_keeps d1.window _ hv1 (updateGUI_keeps env db false d1 hv1)
  · have h0 : ¬ (d.window = insync) := by rw [h]; decide
    rw [if_neg h0, if_pos (Or.inl h)]
    simp only [bind, Except.bind]
    have hk := UpdateStatus_keeps env db d
    cases hu : UpdateStatus env db d with
    | error e =>
      rw [hu] at hk
      exact ⟨fun d1 hd => by simp [Except.map] at hd,
        fun e1 he => by simp only [Except.map, Except.error.injEq] at he; rw [← he]; exact hk⟩
    | ok d1 =>
      rw [hu] at hk
      exact validResult_ok d1 (Or.inr (Or.inl (Eq.trans hk h)))
  · have h0 : ¬ (d.window = insync) := by rw [h]; decide
    rw [if_neg h0, if_pos (Or.inr h)]
    simp only [bind, Except.bind]
    have hk := UpdateStatus_keeps env db d
    cases hu : UpdateStatus env db d with
    | error e =>
      rw [hu] at hk
      exact ⟨fun d1 hd => by simp [Except.map] at hd,
        fun e1 he => by simp only [Except.map, Except.error.injEq] at he; rw [← he]; exact hk⟩
    | ok d1 =>
      rw [hu] at hk
      exact validResult_ok d1 (Or.inr (Or.inr (Or.inl (Eq.trans hk h))))
  · have h0 : ¬ (d.window = insync) := by rw [h]; decide
    have h1 : ¬ (d.window = status ∨ d.window = detailedstatus) := by rw [h]; decide
    rw [if_neg h0, if_neg h1, if_pos h]
    exact validResult_ok _ (Or.inr (Or.inr (Or.inr ((UpdateDmesg_window env d).trans h))))

theorem step_valid (env : Env F) (db : DB F) (ev : Event) (d : detailView)
    (hv : validWindow d) : validResult (step env db ev d) := by
  cases ev with
  | key k => exact setWindow_valid env db k d hv
  | tick => exact Update_valid env db d hv
  | select name => exact validResult_ok _ hv

theorem run_valid (evs : List (Env F × DB F × Event)) (d : detailView) (hv : validWindow d) :
    validResult (run evs d) := by
  induction evs generalizing d with
  | nil => exact validResult_ok d hv
  | cons x rest ih =>
    obtain ⟨env, db, ev⟩ := x
    unfold run
    simp only [bind, Except.bind]
    have hs := step_valid env db ev d hv
    cases hx : step env db ev d with
    | error e => exact ⟨fun d1 hd => by simp at hd,
        fun e1 he => by rw [← Except.error.inj he]; exact hs.2 e hx⟩
    | ok d1 => exact ih d1 (hs.1 d1 hx)

/-- C17: from the view that `NewDetailView` creates (whatever resource is selected in
it), after every sequence of keys, ticks and selections of a resource, in every
environment and with every database, the run has not aborted with the fault of an
unrecognized mode, and when it has returned the mode is one of the four modes: the
abort branch of `updateContent`, `updateGUI` and `Update` is never taken. -/
theorem C17_mode_always_valid (evs : List (Env F × DB F × Event)) (selres : String) :
    run evs { NewDetailView with selres := selres } ≠ .error Fault.panicWindow ∧
    ∀ d, run evs { NewDetailView with selres := selres } = .ok d →
      d.window = insync ∨ d.window = status ∨ d.window = detailedstatus ∨ d.window = dmesgw := by
  have hv : validWindow { NewDetailView with selres := selres } := Or.inr (Or.inl rfl)
  have h := run_valid evs _ hv
  constructor
  · intro hx
    exact absurd (h.2 _ hx) (by decide)
  · intro d hd
    exact h.1 d hd

/-- C17 at a run with the keys `i`, `q`, `m` and a tick: it returns in the log tail
mode. -/
theorem C17_mode_always_valid_witness :
    run exEvents { NewDetailView with selres := "r0" } = .ok exViewAfterRun ∧
    exViewAfterRun.window = dmesgw ∧
    (exViewAfterRun.window = insync ∨ exViewAfterRun.window = status ∨
      exViewAfterRun.window = detailedstatus ∨ exViewAfterRun.window = dmesgw) :=
  ⟨rfl, rfl, (C17_mode_always_valid exEvents "r0").2 exViewAfterRun rfl⟩

/-! ## The span of the read lock -/

theorem statusLoopT_fst (env : Env F) (db : DB F) (keys : List String) (d : detailView) :
    (statusLoopT env db keys d).1 = statusLoop env db keys d := by
  induction keys generalizing d with
  | nil => rfl
  | cons rname rest ih =>
    unfold statusLoopT statusLoop
    by_cases hr : rname = d.selres
    · simp only [hr, if_true, bind, Except.bind]
      cases hp : printByRes env (db.buf d.selres) d with
      | error e => rfl
      | ok d1 => exact ih d1
    · simp only [hr, if_false]
      exact ih d

theorem statusLoopT_snd (env : Env F) (db : DB F) (keys : List String) (d : detailView) :
    (∀ ev ∈ (statusLoopT env db keys d).2, ev.isWork = true) ∧
    (d.selres ∈ keys → LockEvent.format d.selres ∈ (statusLoopT env db keys d).2) := by
  induction keys generalizing d with
  | nil => exact ⟨by simp [statusLoopT], by simp⟩
  | cons rname rest ih =>
    unfold statusLoopT
    by_cases hr : rname = d.selres
    · simp only [hr, if_true]
      cases hp : printByRes env (db.buf d.selres) d with
      | error e =>
        refine ⟨?_, fun _ => by simp⟩
        intro ev hev
        simp only [List.mem_cons, List.mem_singleton, List.not_mem_nil, or_false] at hev
        rcases hev with rfl | rfl <;> rfl
      | ok d1 =>
        refine ⟨?_, fun _ => by simp⟩
        intro ev hev
        simp only [List.cons_append, List.nil_append, List.mem_cons] at hev
        rcases hev with rfl | rfl | hev
        · rfl
        · rfl
        · exact (ih d1).1 ev hev
    · simp only [hr, if_false]
      refine ⟨(ih d).1, ?_⟩
      intro hsel
      rcases List.mem_cons.mp hsel with h | h
      · exact absurd h.symm hr
      · exact (ih d).2 h

theorem inSyncLoopT_fst (env : Env F) (db : DB F) (keys : List String) (d : detailView) :
    (inSyncLoopT env db keys d).1 = inSyncLoop env db keys d := by
  induction keys generalizing d with
  | nil => rfl
  | cons rname rest ih =>
    unfold inSyncLoopT inSyncLoop
    by_cases hr : rname = d.selres
    · simp only [hr, ne_eq, not_true_eq_false, if_false, bind, Except.bind]
      split
      · rename_i gs hgs
        simp only [hgs]
        exact ih _
      · rename_i e he
        simp only [he]
    · simp only [ne_eq, hr, not_false_eq_true, if_true]
      exact ih d

theorem inSyncLoopT_snd (env : Env F) (db : DB F) (keys : List String) (d : detailView) :
    (∀ ev ∈ (inSyncLoopT env db keys d).2, ev.isWork = true) ∧
    (d.selres ∈ keys → LockEvent.compute d.selres ∈ (inSyncLoopT env db keys d).2) := by
  induction keys generalizing d with
  | nil => exact ⟨by simp [inSyncLoopT], by simp⟩
  | cons rname rest ih =>
    unfold inSyncLoopT
    by_cases hr : rname = d.selres
    · simp only [hr, ne_eq, not_true_eq_false, if_false]
      split
      · refine ⟨?_, fun _ => by simp⟩
        intro ev hev
        simp only [List.cons_append, List.nil_append, List.mem_cons] at hev
        rcases hev with rfl | rfl | hev
        · rfl
        · rfl
        · exact (ih _).1 ev hev
      · refine ⟨?_, fun _ => by simp⟩
        intro ev hev
        simp only [List.mem_cons, List.mem_singleton, List.not_mem_nil, or_false] at hev
        rcases hev with rfl | rfl <;> rfl
    · simp only [ne_eq, hr, not_false_eq_true, if_true]
      refine ⟨(ih d).1, ?_⟩
      intro hsel
      rcases List.mem_cons.mp hsel with h | h
      · exact absurd h.symm hr
      · exact (ih d).2 h

/-- C18 (as amended): `UpdateStatus` and `UpdateInSync` take the read lock first and
release it last, by the deferred unlock: the record of a call is `RLock`, then only
work (no lock call), then `RUnlock`, and for a selected resource in the database the
work holds the formatting of its text, respectively the computation of its percentages.
So the snapshot is copied and all rendering is done while the lock is held.  The
recorded functions compute what `UpdateStatus` and `UpdateInSync` compute. -/
theorem C18_lock_held_during_work (env : Env F) (db : DB F) (d : detailView) :
    ((UpdateStatusT env db d).1 = UpdateStatus env db d ∧
      ∃ work, (UpdateStatusT env db d).2 = [LockEvent.RLock] ++ work ++ [LockEvent.RUnlock] ∧
        (∀ ev ∈ work, ev.isWork = true) ∧
        (d.selres ∈ db.keys → LockEvent.format d.selres ∈ work)) ∧
    ((UpdateInSyncT env db d).1 = UpdateInSync env db d ∧
      ∃ work, (UpdateInSyncT env db d).2 = [LockEvent.RLock] ++ work ++ [LockEvent.RUnlock] ∧
        (∀ ev ∈ work, ev.isWork = true) ∧
        (d.selres ∈ db.keys → LockEvent.compute d.selres ∈ work)) := by
  refine ⟨⟨?_, _, rfl, (statusLoopT_snd env db db.keys d).1, (statusLoopT_snd env db db.keys d).2⟩,
    ⟨?_, _, rfl, (inSyncLoopT_snd env db db.keys d).1, (inSyncLoopT_snd env db db.keys d).2⟩⟩
  · unfold UpdateStatusT UpdateStatus
    simp only [statusLoopT_fst]
    cases statusLoop env db db.keys d <;> rfl
  · unfold UpdateInSyncT UpdateInSync
    simp only [inSyncLoopT_fst]
    cases inSyncLoop env db db.keys d <;> rfl

/-- C18 at the scenario with two peers. -/
theorem C18_lock_held_during_work_witness :
    exView.selres ∈ (exDB exResTwoPeers).keys ∧
    (∃ work, (UpdateStatusT (exEnv true Arch.amd64) (exDB exResTwoPeers) exView).2 =
        [LockEvent.RLock] ++ work ++ [LockEvent.RUnlock] ∧
      (∀ ev ∈ work, ev.isWork = true) ∧ LockEvent.format "r0" ∈ work) ∧
    (∃ work, (UpdateInSyncT (exEnv true Arch.amd64) (exDB exResTwoPeers) exView).2 =
        [LockEvent.RLock] ++ work ++ [LockEvent.RUnlock] ∧
      (∀ ev ∈ work, ev.isWork = true) ∧ LockEvent.compute "r0" ∈ work) := by
  have h := C18_lock_held_during_work (exEnv true Arch.amd64) (exDB exResTwoPeers) exView
  obtain ⟨⟨_, w1, h1, h2, h3⟩, ⟨_, w2, h4, h5, h6⟩⟩ := h
  exact ⟨by decide, ⟨w1, h1, h2, h3 (by decide)⟩, ⟨w2, h4, h5, h6 (by decide)⟩⟩

/-- C18 as stated fails: in the record of `UpdateStatus` and of `UpdateInSync` for the
scenario with two peers the formatting and the computation come before the release of
the lock, not after it. -/
theorem C18_counterexample :
    (UpdateStatusT (exEnv true Arch.amd64) (exDB exResTwoPeers) exView).2 =
      [LockEvent.RLock, LockEvent.copy "r0", LockEvent.format "r0", LockEvent.RUnlock] ∧
    (UpdateInSyncT (exEnv true Arch.amd64) (exDB exResTwoPeers) exView).2 =
      [LockEvent.RLock, LockEvent.copy "r0", LockEvent.compute "r0", LockEvent.RUnlock] :=
  ⟨rfl, rfl⟩

/-! ## The markers of a local volume -/

/-- C19 on the code: for a local volume with blocked value `no` and activity log
suspended value `yes`, `printLocalDisk` in the detailed mode emits the marker
`Activity Log Suspended:` with the blocked value `no` in it, not the value `yes` of the
activity log; the `Blocked:` marker is absent, the size and throughput line is there.
In the status mode neither marker nor that line is emitted. -/
theorem C19_suspended_marker_carries_blocked :
    exVolumeSuspended.Blocked = "no" ∧ exVolumeSuspended.ActivityLogSuspended = "yes" ∧
    (printLocalDisk (exEnv true Arch.amd64) exResSuspended
        { exView with window := detailedstatus }).scratch =
      " Local Disc(Primary):\n" ++
      "  volume 0 (/dev/drbd0): UpToDate() Activity Log Suspended: no \n" ++
      "    size: 0 total-read:0 read/Sec:0 total-written:0 written/Sec:0 \n" ∧
    (printLocalDisk (exEnv true Arch.amd64) exResSuspended
        { exView with window := status }).scratch =
      " Local Disc(Primary):\n" ++
      "  volume 0 (/dev/drbd0): UpToDate()\n" :=
  ⟨rfl, rfl, by decide, by decide⟩

/-! ## The range of the percentage -/

theorem roundEven_le (q r d : Nat) : roundEven q r d ≤ q + 1 := by
  unfold roundEven; split <;> omega

/-- The conversion to `float64` moves a value by at most one part in `2 ^ 53`. -/
theorem float64OfUint_near (n : Nat) :
    float64OfUint n * 2 ^ 53 ≤ n * (2 ^ 53 + 1) ∧ n * (2 ^ 53 - 1) ≤ float64OfUint n * 2 ^ 53 := by
  unfold float64OfUint
  simp only []
  rcases Nat.eq_zero_or_pos (f64Shift 256 n) with h0 | hp
  · rw [h0]
    simp only [pow_zero, Nat.div_one, Nat.mod_one, Nat.mul_one]
    have : roundEven n 0 1 = n := by simp [roundEven]
    rw [this]
    constructor <;> omega
  · have hle := f64Shift_le 256 n hp
    generalize f64Shift 256 n = t at hp hle
    have hT : 0 < 2 ^ t := by positivity
    have hsplit : 2 ^ (52 + t) = 2 ^ 52 * 2 ^ t := pow_add 2 52 t
    rw [hsplit] at hle
    have hdm : 2 ^ t * (n / 2 ^ t) + n % 2 ^ t = n := Nat.div_add_mod n (2 ^ t)
    have hr : n % 2 ^ t < 2 ^ t := Nat.mod_lt _ hT
    generalize 2 ^ t = T at hT hle hdm hr
    generalize n / T = q at hdm
    generalize n % T = r at hdm hr
    unfold roundEven
    split
    · rename_i hc
      have h2r : T ≤ 2 * r := by rcases hc with h | ⟨h, _⟩ <;> omega
      have e : (q + 1) * T = T * q + T := by ring
      rw [e]
      constructor <;> omega
    · rename_i hc
      have h2r : 2 * r ≤ T := by
        by_contra hcon
        exact hc (Or.inl (by omega))
      have e : q * T = T * q := Nat.mul_comm _ _
      rw [e]
      constructor <;> omega

/-- The float quotient is at most the exact quotient, one part in `2 ^ 52` of it and
one. -/
theorem float64DivScaled_le (x y : Nat) :
    float64DivScaled x y ≤ x * 2 ^ 128 / y + x * 2 ^ 128 / y / 2 ^ 52 + 1 := by
  unfold float64DivScaled
  simp only []
  generalize hN : x * 2 ^ 128 / y = N
  have hq : x * 2 ^ 128 / (y * 2 ^ f64Shift 256 N) = N / 2 ^ f64Shift 256 N := by
    rw [← hN, Nat.div_div_eq_div_mul]
  rw [hq]
  have hup := roundEven_le (N / 2 ^ f64Shift 256 N) (x * 2 ^ 128 % (y * 2 ^ f64Shift 256 N))
    (y * 2 ^ f64Shift 256 N)
  generalize roundEven (N / 2 ^ f64Shift 256 N) (x * 2 ^ 128 % (y * 2 ^ f64Shift 256 N))
    (y * 2 ^ f64Shift 256 N) = R at hup
  rcases Nat.eq_zero_or_pos (f64Shift 256 N) with h0 | hp
  · rw [h0] at hup ⊢
    simp only [pow_zero, Nat.div_one, Nat.mul_one] at hup ⊢
    omega
  · have hle := f64Shift_le 256 N hp
    generalize f64Shift 256 N = t at hup hle
    have hT : 0 < 2 ^ t := by positivity
    have hsplit : 2 ^ (52 + t) = 2 ^ 52 * 2 ^ t := pow_add 2 52 t
    rw [hsplit] at hle
    have hdiv : N / 2 ^ t * 2 ^ t ≤ N := Nat.div_mul_le_self N (2 ^ t)
    have h52 : 2 ^ t ≤ N / 2 ^ 52 := by
      rw [Nat.le_div_iff_mul_le (by norm_num)]
      rw [Nat.mul_comm]; exact hle
    calc R * 2 ^ t ≤ (N / 2 ^ t + 1) * 2 ^ t := Nat.mul_le_mul_right _ hup
      _ = N / 2 ^ t * 2 ^ t + 2 ^ t := by ring
      _ ≤ N + N / 2 ^ 52 + 1 := by omega

/-- The quotient of the conversion is at most 100 when `a ≤ 100 * b`. -/
theorem intOfFloatDiv_le_100 (arch : Arch) (a b : Nat) (hb : 0 < b) (hab : a ≤ 100 * b) :
    0 ≤ intOfFloatDiv arch a b ∧ intOfFloatDiv arch a b ≤ 100 := by
  unfold intOfFloatDiv
  simp only []
  have hy : 0 < float64OfUint b := float64OfUint_pos b hb
  have hx := (float64OfUint_near a).1
  have hyb := (float64OfUint_near b).2
  generalize float64OfUint a = x at hx
  generalize float64OfUint b = y at hy hyb
  norm_num at hx hyb
  have hxy : 2 * x ≤ 201 * y := by omega
  have hN : x * 2 ^ 128 / y ≤ 201 * 2 ^ 127 := by
    apply Nat.div_le_of_le_mul
    have e1 : x * 2 ^ 128 = 2 * x * 2 ^ 127 := by ring
    have e2 : y * (201 * 2 ^ 127) = 201 * y * 2 ^ 127 := by ring
    rw [e1, e2]
    exact Nat.mul_le_mul_right _ hxy
  have hD := float64DivScaled_le x y
  have hN2 : x * 2 ^ 128 / y / 2 ^ 52 ≤ 201 * 2 ^ 127 / 2 ^ 52 :=
    Nat.div_le_div_right hN
  have hlt : float64DivScaled x y < 101 * 2 ^ 128 := by
    have e3 : 201 * 2 ^ 127 / 2 ^ 52 = 201 * 2 ^ 75 := by norm_num
    rw [e3] at hN2
    have e4 : 201 * 2 ^ 127 + 201 * 2 ^ 75 + 1 < 101 * 2 ^ 128 := by norm_num
    omega
  have hq : float64DivScaled x y / 2 ^ 128 < 101 :=
    Nat.div_lt_of_lt_mul (by rw [Nat.mul_comm]; exact hlt)
  rw [if_neg (by omega), if_pos (lt_of_lt_of_le hq (by norm_num))]
  constructor
  · exact Int.ofNat_nonneg _
  · have : ((float64DivScaled x y / 2 ^ 128 : Nat) : Int) < 101 := by exact_mod_cast hq
    omega

theorem inSyncPercent_range (arch : Arch) (oos size n : Nat) (hb : 0 < size * n)
    (h1 : oos * 100 < 2 ^ 64) (h2 : size * n < 2 ^ 64) (hle : oos ≤ size * n) :
    0 ≤ inSyncPercent arch oos size n ∧ inSyncPercent arch oos size n ≤ 100 := by
  unfold inSyncPercent
  have ha : u64 (oos * 100) = oos * 100 := Nat.mod_eq_of_lt h1
  have hb2 : u64 (size * n) = size * n := Nat.mod_eq_of_lt h2
  rw [ha, hb2]
  obtain ⟨hq0, hq1⟩ := intOfFloatDiv_le_100 arch (oos * 100) (size * n) hb (by omega)
  simp only []
  rw [toInt64_of_range _ (by omega) (by omega)]
  split <;> constructor <;> omega

theorem oosSum_le (k : String) (peers : List (String × PeerDevice F)) (size : Nat)
    (h : ∀ p ∈ peers, peerCurrent k p.2 ≤ size) : oosSum k peers ≤ size * peers.length := by
  induction peers with
  | nil => simp [oosSum]
  | cons p ps ih =>
    have h1 := h p (List.mem_cons_self _ _)
    have h2 := ih (fun q hq => h q (List.mem_cons_of_mem _ hq))
    simp only [oosSum, List.map_cons, List.sum_cons, List.length_cons] at h2 ⊢
    rw [Nat.mul_succ]
    omega

/-- C20: for the selected resource, present in the database, and a local volume `k` of
positive size with at least one peer device, each of which reports at most `sizeKiB`
KiB out of sync for `k`, `UpdateInSync` returns and the percentage in the gauge of `k`
is between 0 and 100, provided the products `oos * 100` and `sizeKiB * nrPeerDevs` of
the code do not exceed 64 bits (`nrPeerDevs` counts the peer devices).  Without the
bound on the out of sync KiB the percentage can be negative: a volume of 100 KiB with
one peer that reports 200 KiB gets -100. -/
theorem C20_percent_range (env : Env F) (db : DB F) (d : detailView) (k : String)
    (v : DevVolume F)
    (hsel : d.selres ∈ db.keys)
    (hwf : volumesWf (db.buf d.selres)) (hrep : peersComplete env (db.buf d.selres))
    (hkv : (k, v) ∈ (db.buf d.selres).Device.Volumes)
    (hsize : 0 < v.Size)
    (hpeers : 1 ≤ (db.buf d.selres).PeerDevices.length)
    (hoos : ∀ p ∈ (db.buf d.selres).PeerDevices, peerCurrent k p.2 ≤ v.Size)
    (h1 : oosSum k (db.buf d.selres).PeerDevices * 100 < 2 ^ 64)
    (h2 : v.Size * (db.buf d.selres).PeerDevices.length < 2 ^ 64) :
    (∃ d' p, UpdateInSync env db d = .ok d' ∧ gaugePercent d' k = some p ∧ 0 ≤ p ∧ p ≤ 100) ∧
    ((0 < (exVolume 100).Size ∧ nPeers "0" exResOver.PeerDevices = 1 ∧
        oosSum "0" exResOver.PeerDevices * 100 < 2 ^ 64 ∧
        (exVolume 100).Size * exResOver.PeerDevices.length < 2 ^ 64) ∧
      (UpdateInSync (exEnv true Arch.amd64) (exDB exResOver) exView).map
        (fun d => gaugePercent d "0") = .ok (some (-100))) := by
  refine ⟨?_, by decide, rfl⟩
  obtain ⟨d', hd', hp⟩ := UpdateInSync_percent env db d hsel hwf hrep
  refine ⟨d', _, hd', hp k v hkv, ?_⟩
  have hlen : (db.buf d.selres).PeerDevices.length < 2 ^ 64 :=
    lt_of_le_of_lt (Nat.le_mul_of_pos_left _ hsize) h2
  have e1 : u64 (oosSum k (db.buf d.selres).PeerDevices) = oosSum k (db.buf d.selres).PeerDevices :=
    Nat.mod_eq_of_lt (by omega)
  have e2 : u64 (db.buf d.selres).PeerDevices.length = (db.buf d.selres).PeerDevices.length :=
    Nat.mod_eq_of_lt hlen
  rw [e1, e2]
  exact inSyncPercent_range env.arch _ _ _ (Nat.mul_pos hsize hpeers) h1 h2
    (oosSum_le k _ _ hoos)

/-- C20 at the scenario with two peers: 100,000 KiB out of sync on each peer of a
volume of 1,000,000 KiB. -/
theorem C20_percent_range_witness :
    ∃ d' p, UpdateInSync (exEnv true Arch.amd64) (exDB exResTwoPeers) exView = .ok d' ∧
      gaugePercent d' "0" = some p ∧ 0 ≤ p ∧ p ≤ 100 :=
  (C20_percent_range (exEnv true Arch.amd64) (exDB exResTwoPeers) exView "0" (exVolume 1000000)
    (by decide) (by decide) (by decide) (List.mem_cons_self _ _) (by decide) (by decide)
    (by decide) (by decide) (by decide)).1

end Drbdtop
